import Mathlib

/-!
# Grid path finder (A* search): embedding of `src/main.cpp`

The program keeps a dense row-major vector of `Node`s; every `Node*` of the
source (adjacency sets, `mParent`, queue entries, the open and closed sets)
points into that vector and is represented here by the index of the element it
points to.  `std::set<Node*>` orders pointers by address, that is by index, so
an adjacency set is a strictly increasing list of indices and is traversed in
that order.

Places where the C++ program has no defined result (element access outside the
vector, `top`/`pop` on an empty queue, erasing through an iterator that is not
live) return a `Fault`.

## Numbers

`float` and `double` values are IEEE-754 binary32 / binary64 with
round-to-nearest-even.  Every floating-point value the program computes is
either `0` or at least `1`, and below `2^64`, hence a non-negative multiple of
`2^-52`: the value `v` is represented by the natural number `v * 2^52`.
-/

/-! ## Floating point -/

/-- Number of binary digits of `n` (`0` for `0`), by halving. -/
def bitLenAux : Nat → Nat → Nat
  | 0, _ => 0
  | f + 1, n => if n = 0 then 0 else bitLenAux f (n / 2) + 1

/-- Number of binary digits of `n`. -/
def bitLen (n : Nat) : Nat := bitLenAux n n

/-- Integer square root, one result bit at a time from bit `b - 1` down. -/
def isqrtAux : Nat → Nat → Nat → Nat
  | 0, _, r => r
  | b + 1, n, r =>
    if (r + 2 ^ b) * (r + 2 ^ b) ≤ n then isqrtAux b n (r + 2 ^ b) else isqrtAux b n r

/-- Integer square root: the largest `r` with `r * r ≤ n`. -/
def isqrt (n : Nat) : Nat := isqrtAux (bitLen n / 2 + 1) n 0

/-- Round the natural number `n` to `p` significant binary digits, to nearest,
ties to the even significand. -/
def rne (p n : Nat) : Nat :=
  if bitLen n ≤ p then n
  else
    let e := bitLen n - p
    let q := n / 2 ^ e
    let r := n % 2 ^ e
    let h := 2 ^ (e - 1)
    if r < h then q * 2 ^ e
    else if h < r then (q + 1) * 2 ^ e
    else if q % 2 = 0 then q * 2 ^ e
    else (q + 1) * 2 ^ e

/-- The value `1.0`. -/
def one : Nat := 2 ^ 52

/-- Conversion of a non-negative `int` to `float`. -/
def ofInt (n : Nat) : Nat := rne 24 (n * one)

/-- Addition of two `float`s. -/
def fadd (a b : Nat) : Nat := rne 24 (a + b)

/-- `std::pow(k, 2)` for an `int` `k`: the square, rounded to `double`. -/
def powD (k : Int) : Nat := rne 53 (k.natAbs ^ 2 * one)

/-- `std::sqrt` of a `double` that is `0` or at least `1`: the correctly rounded
square root.  `t` is `⌊4 * 2^52 * sqrt v⌋`, the extra low bit of `m` records
whether anything was cut off. -/
def sqrtD (d : Nat) : Nat :=
  let t := isqrt (d * one * 16)
  let m := 2 * t + (if t * t = d * one * 16 then 0 else 1)
  rne 53 m / 8

/-! ## Node -/

/-- Size of a node in pixels (`mCellSize{16}`). -/
def mCellSize : Nat := 16

/-- `struct Node`. `mAdjacentNeighbors` and `mParent` hold indices into the
owning grid's vector; `globalScore` and `localScore` are `float`s. -/
structure Node where
  x : Int
  y : Int
  mAdjacentNeighbors : List Nat
  mIsObstacle : Bool
  mValue : Int
  mParent : Option Nat
  globalScore : Nat
  localScore : Nat
deriving DecidableEq, Repr

/-- `Node(int xIndex, int yIndex)` with the default member initialisers. -/
def Node.ctor (xIndex yIndex : Int) : Node :=
  { x := xIndex, y := yIndex, mAdjacentNeighbors := [], mIsObstacle := false, mValue := 0,
    mParent := none, globalScore := ofInt 99999999, localScore := ofInt 99999999 }

/-- `std::set<Node*>::insert`: keeps the list strictly increasing. -/
def setInsert (a : Nat) : List Nat → List Nat
  | [] => [a]
  | b :: l => if a < b then a :: b :: l else if a = b then b :: l else b :: setInsert a l

/-- `std::set<Node*>::erase(key)`. -/
def setErase (a : Nat) (l : List Nat) : List Nat := l.filter (fun b => b ≠ a)

/-- `Node::AddNeighbor`, for the node `self` and the pointer `neighbor` whose
pointee has obstacle flag `neighborIsObstacle`. -/
def Node.AddNeighbor (self : Node) (neighbor : Nat) (neighborIsObstacle : Bool) : Node :=
  if self.mIsObstacle = true then self
  else if neighborIsObstacle = false then
    { self with mAdjacentNeighbors := setInsert neighbor self.mAdjacentNeighbors }
  else self

/-- `operator==(const Node&, const Node&)`, also `NodeEqual`. -/
def Node.equal (n1 n2 : Node) : Bool := n1.x == n2.x && n1.y == n2.y

/-! ## Faults -/

/-- The ways an operation can leave defined behaviour. -/
inductive Fault where
  /-- element access outside `mConnectivityMatrix`, or through a pointer that
  is not an element of it -/
  | badAccess
  /-- `top`/`pop` on an empty queue, or `decrease_key` without a live entry -/
  | badQueueUse
  /-- a signed loop counter runs past `INT_MAX`, or memory runs out -/
  | overflow
  /-- the iteration bound of the embedding was reached -/
  | outOfFuel
deriving DecidableEq, Repr

/-- Dereference the node pointer `p`. -/
def nodeAt (nodes : List Node) (p : Nat) : Except Fault Node :=
  match nodes[p]? with
  | some n => .ok n
  | none => .error .badAccess

/-! ## PriorityQueue -/

/-- One element of `std::multimap<float, Node*> map`; `it` identifies the
element, as its iterator does in the source. -/
structure PQEntry where
  key : Nat
  node : Nat
  it : Nat
deriving DecidableEq, Repr

/-- `class PriorityQueue`: `map` in iteration order, `node_map` as an
association list from node pointer to iterator, `fresh` the next unused
iterator identity. -/
structure PriorityQueue where
  map : List PQEntry
  node_map : List (Nat × Nat)
  fresh : Nat
deriving DecidableEq, Repr

/-- A default-constructed queue. -/
def PriorityQueue.new : PriorityQueue := { map := [], node_map := [], fresh := 0 }

/-- `std::multimap::insert`: the new element goes after every element whose key
is not greater (upper bound of the equal range). -/
def multimapInsert (e : PQEntry) : List PQEntry → List PQEntry
  | [] => [e]
  | a :: l => if e.key < a.key then e :: a :: l else a :: multimapInsert e l

/-- `node_map[node] = it`. -/
def nodeMapSet (node it : Nat) : List (Nat × Nat) → List (Nat × Nat)
  | [] => [(node, it)]
  | (k, v) :: l => if k = node then (node, it) :: l else (k, v) :: nodeMapSet node it l

/-- `PriorityQueue::empty`. -/
def PriorityQueue.empty (q : PriorityQueue) : Bool := q.map.isEmpty

/-- `PriorityQueue::push`, `score` being `node->globalScore`. -/
def PriorityQueue.push (q : PriorityQueue) (node score : Nat) : PriorityQueue :=
  { map := multimapInsert { key := score, node := node, it := q.fresh } q.map
    node_map := nodeMapSet node q.fresh q.node_map
    fresh := q.fresh + 1 }

/-- `PriorityQueue::decrease_key`: erase the element `node_map[node]` points
to, then `push`. Without such an element the erase is undefined. -/
def PriorityQueue.decrease_key (q : PriorityQueue) (node score : Nat) :
    Except Fault PriorityQueue :=
  match q.node_map.lookup node with
  | none => .error .badQueueUse
  | some i =>
    if q.map.any (fun e => e.it == i) then
      .ok (PriorityQueue.push { q with map := q.map.filter (fun e => e.it != i) } node score)
    else .error .badQueueUse

/-- `PriorityQueue::top`. -/
def PriorityQueue.top (q : PriorityQueue) : Except Fault Nat :=
  match q.map with
  | [] => .error .badQueueUse
  | e :: _ => .ok e.node

/-- `PriorityQueue::pop`. -/
def PriorityQueue.pop (q : PriorityQueue) : Except Fault PriorityQueue :=
  match q.map with
  | [] => .error .badQueueUse
  | e :: l => .ok { q with map := l, node_map := q.node_map.filter (fun kv => kv.1 != e.node) }

/-! ## Grid -/

/-- `struct Grid`: `mXDimensions`, `mYDimensions` (`size_t`) and the vector
`mConnectivityMatrix`. -/
structure Grid where
  mXDimensions : Nat
  mYDimensions : Nat
  mConnectivityMatrix : List Node
deriving DecidableEq, Repr

/-- The subscript `y*mXDimensions+x`: `int` operands converted to `size_t`,
arithmetic modulo `2^64`. -/
def Grid.flatIndex (g : Grid) (x y : Int) : Nat :=
  ((y * (g.mXDimensions : Int) + x) % 2 ^ 64).toNat

/-- `Grid::GetNodePointer`. -/
def Grid.GetNodePointer (g : Grid) (x y : Int) : Except Fault Nat :=
  if g.flatIndex x y < g.mConnectivityMatrix.length then .ok (g.flatIndex x y)
  else .error .badAccess

/-- `Grid::GetNodeReference`. -/
def Grid.GetNodeReference (g : Grid) (x y : Int) : Except Fault Node :=
  nodeAt g.mConnectivityMatrix (g.flatIndex x y)

/-- `Grid::GetCellValue`. -/
def Grid.GetCellValue (g : Grid) (x y : Int) : Except Fault Int :=
  match nodeAt g.mConnectivityMatrix (g.flatIndex x y) with
  | .ok n => .ok n.mValue
  | .error e => .error e

/-- Body of `SetCell` on the element with index `i`. -/
def setCellAt (nodes : List Node) (i : Nat) (value : Int) : List Node :=
  match nodes[i]? with
  | some n =>
    nodes.set i { n with mIsObstacle := if value = 1 then true else n.mIsObstacle, mValue := value }
  | none => nodes

/-- `Grid::SetCell`. -/
def Grid.SetCell (g : Grid) (x y : Int) (value : Int) : Except Fault Grid :=
  if g.flatIndex x y < g.mConnectivityMatrix.length then
    .ok { g with mConnectivityMatrix := setCellAt g.mConnectivityMatrix (g.flatIndex x y) value }
  else .error .badAccess

/-- `GetNodeReference(x,y).AddNeighbor(&GetNodeReference(nx,ny))` on elements
`i` and `j` of the vector. -/
def addNeighborAt (nodes : List Node) (i j : Nat) : List Node :=
  match nodes[i]?, nodes[j]? with
  | some a, some b => nodes.set i (a.AddNeighbor j b.mIsObstacle)
  | _, _ => nodes

/-- The values `4, 8, 12, ...` below `n`, in order: the range of
`for(int i=4; i < n; i+=4)`. -/
def fours (n : Nat) : List Nat := (List.range n).filter (fun i => 4 ≤ i ∧ i % 4 = 0)

/-- First loop nest of the constructor: `emplace_back(i,j)`, rows first. -/
def emplaceAll (w h : Nat) : List Node :=
  (List.range h).flatMap
    (fun (j : Nat) => (List.range w).map (fun (i : Nat) => Node.ctor (i : Int) (j : Int)))

/-- Second loop nest of the constructor: `SetCell(i,j,1)` for `i = 4, 8, ..`
and `j = 4, 8, ..`. -/
def markObstacles (w h : Nat) (nodes : List Node) : List Node :=
  (fours w).foldl (fun acc i => (fours h).foldl (fun acc2 j => setCellAt acc2 (j * w + i) 1) acc)
    nodes

/-- Body of the third loop nest of the constructor at `(x, y)`. -/
def linkCell (w h : Nat) (nodes : List Node) (x y : Nat) : List Node :=
  let n1 := if (x : Int) - 1 > -1 then addNeighborAt nodes (y * w + x) (y * w + (x - 1)) else nodes
  let n2 := if x + 1 ≤ w - 1 then addNeighborAt n1 (y * w + x) (y * w + (x + 1)) else n1
  let n3 := if (y : Int) - 1 > -1 then addNeighborAt n2 (y * w + x) ((y - 1) * w + x) else n2
  if y + 1 ≤ h - 1 then addNeighborAt n3 (y * w + x) ((y + 1) * w + x) else n3

/-- Third loop nest of the constructor. -/
def linkAll (w h : Nat) (nodes : List Node) : List Node :=
  (List.range h).foldl (fun acc y => (List.range w).foldl (fun acc2 x => linkCell w h acc2 x y) acc)
    nodes

/-- The grid the three loop nests of the constructor produce for the dimensions
`w` and `h` when their counters run through the plain ranges, that is when no
counter overflows. -/
def Grid.build (w h : Nat) : Grid :=
  { mXDimensions := w, mYDimensions := h
    mConnectivityMatrix := linkAll w h (markObstacles w h (emplaceAll w h)) }

/-- `INT_MAX`. -/
def intMax : Nat := 2147483647

/-- The loop `for (int i = ..; i < bound; i += step)` from the counter value
`i` on, `bound` being a `size_t` that `i` is converted to for the comparison:
the values of `i` for which the body runs, in order. After the body has run
for `i` the counter is incremented; if `i + step` is above `INT_MAX` the
increment overflows. `fuel` bounds the number of tests of the condition. -/
def intFor (step bound : Nat) : Nat → Nat → Except Fault (List Nat)
  | 0, _ => .error .outOfFuel
  | fuel + 1, i =>
    if i < bound then
      if i + step ≤ intMax then
        match intFor step bound fuel (i + step) with
        | .ok l => .ok (i :: l)
        | .error e => .error e
      else .error .overflow
    else .ok []

/-- The loop `for (int i = start; i < bound; i += step)`. An `int` counter that
grows takes at most `2^31` values, which is fuel enough. -/
def counters (start step bound : Nat) : Except Fault (List Nat) :=
  intFor step bound (2 ^ 31) start

/-- A loop nest `for (outer) for (inner) body` on the state `init`. The inner
loop is entered once per value of the outer counter (with the same bound each
time), so not at all if the outer loop does not run. A counter that overflows
in a loop that is entered leaves the nest without a defined result. -/
def loopNest {α : Type} (outer inner : Except Fault (List Nat)) (body : α → Nat → Nat → α)
    (init : α) : Except Fault α :=
  match outer with
  | .error e => .error e
  | .ok os =>
    if os.isEmpty then .ok init
    else
      match inner with
      | .error e => .error e
      | .ok is => .ok (os.foldl (fun acc o => is.foldl (fun acc2 i => body acc2 o i) acc) init)

/-- `Grid::Grid(int x, int y)`: the members `mXDimensions(x)`, `mYDimensions(y)`
are the arguments converted to `size_t`, then the three loop nests run, with
`int` counters compared against the `size_t` dimensions. The arguments are
`int`s; a value outside the range of `int` cannot be passed. The vector is
taken to have room for every cell. -/
def Grid.ctor (x y : Int) : Except Fault Grid :=
  if x < -2 ^ 31 ∨ 2 ^ 31 ≤ x ∨ y < -2 ^ 31 ∨ 2 ^ 31 ≤ y then .error .overflow
  else
    let mX := (x % 2 ^ 64).toNat
    let mY := (y % 2 ^ 64).toNat
    match loopNest (counters 0 1 mY) (counters 0 1 mX)
        (fun acc j i => acc ++ [Node.ctor (i : Int) (j : Int)]) [] with
    | .error e => .error e
    | .ok n1 =>
      match loopNest (counters 4 4 mX) (counters 4 4 mY)
          (fun acc i j => setCellAt acc (j * mX + i) 1) n1 with
      | .error e => .error e
      | .ok n2 =>
        match loopNest (counters 0 1 mY) (counters 0 1 mX)
            (fun acc y x => linkCell mX mY acc x y) n2 with
        | .error e => .error e
        | .ok n3 => .ok { mXDimensions := mX, mYDimensions := mY, mConnectivityMatrix := n3 }

/-- `int c = mouse / mCellSize`: the division is done in `size_t`, the quotient
is narrowed to `int`. -/
def pixelToCell (mouse : Int) : Int :=
  let q := (mouse % 2 ^ 64) / (mCellSize : Int)
  let r := q % 2 ^ 32
  if r < 2 ^ 31 then r else r - 2 ^ 32

/-- `Grid::reIntializeNodes`. -/
def Grid.reIntializeNodes (g : Grid) : Grid :=
  { g with mConnectivityMatrix := g.mConnectivityMatrix.map (fun curr =>
      { curr with mParent := none, globalScore := ofInt 99999999, localScore := ofInt 99999999 }) }

/-- The loop of `setObstacle`: `element->mAdjacentNeighbors.erase(obstacle)`
for each `element` of the obstacle's adjacency set. An obstacle that is its own
neighbour would erase the element the loop stands on. -/
def eraseFromNeighbors (obstacle : Nat) : List Nat → List Node → Except Fault (List Node)
  | [], nodes => .ok nodes
  | element :: rest, nodes =>
    if element = obstacle then .error .badAccess
    else
      match nodes[element]? with
      | some n =>
        eraseFromNeighbors obstacle rest
          (nodes.set element { n with mAdjacentNeighbors := setErase obstacle n.mAdjacentNeighbors })
      | none => .error .badAccess

/-- `Grid::setObstacle` once `xCell` and `yCell` are computed. -/
def Grid.setObstacleCell (g : Grid) (xCell yCell : Int) : Except Fault Grid :=
  match g.SetCell xCell yCell 1 with
  | .error e => .error e
  | .ok g1 =>
    match g1.GetNodePointer xCell yCell with
    | .error e => .error e
    | .ok obstacle =>
      match nodeAt g1.mConnectivityMatrix obstacle with
      | .error e => .error e
      | .ok o =>
        match eraseFromNeighbors obstacle o.mAdjacentNeighbors g1.mConnectivityMatrix with
        | .error e => .error e
        | .ok nodes =>
          match nodes[obstacle]? with
          | some o2 =>
            .ok { g1 with mConnectivityMatrix := nodes.set obstacle { o2 with mAdjacentNeighbors := [] } }
          | none => .error .badAccess

/-- `Grid::setObstacle`. -/
def Grid.setObstacle (g : Grid) (mouseX mouseY : Int) : Except Fault Grid :=
  g.setObstacleCell (pixelToCell mouseX) (pixelToCell mouseY)

/-- `Grid::Heuristic`. -/
def Heuristic (start end_ : Node) : Nat :=
  rne 24 (sqrtD (rne 53 (powD (start.x - end_.x) + powD (start.y - end_.y))))

/-! ## A* search -/

/-- Local state of `RunAStar`: the nodes, `openList`, `openSet`, `closedList`.
The two hash sets compare node pointers with `NodeEqual`; they are kept as the
list of pointers inserted. -/
structure Search where
  nodes : List Node
  openList : PriorityQueue
  openSet : List Nat
  closedList : List Nat
deriving DecidableEq, Repr

/-- `set.find(n) != set.end()` for an `unordered_set<Node*, NodeHash, NodeEqual>`. -/
def setFind (nodes : List Node) (s : List Nat) (n : Node) : Bool :=
  s.any (fun m =>
    match nodes[m]? with
    | some k => k.equal n
    | none => false)

/-- `set.insert(p)` for an `unordered_set<Node*, NodeHash, NodeEqual>`. -/
def setAdd (nodes : List Node) (s : List Nat) (p : Nat) (n : Node) : List Nat :=
  if setFind nodes s n then s else p :: s

/-- Body of `for (auto& neighbor: curr->mAdjacentNeighbors)`. -/
def relax (goal : Node) (curr : Nat) (st : Search) (neighbor : Nat) : Except Fault Search :=
  match nodeAt st.nodes neighbor, nodeAt st.nodes curr with
  | .ok nb, .ok c =>
    if setFind st.nodes st.closedList nb then .ok st
    else
      let tentativeLocalScore := fadd c.localScore (Heuristic c nb)
      if tentativeLocalScore < nb.localScore then
        let score := fadd tentativeLocalScore (Heuristic nb goal)
        let nodes := st.nodes.set neighbor
          { nb with mParent := some curr, localScore := tentativeLocalScore, globalScore := score }
        if setFind st.nodes st.openSet nb = false then
          .ok { st with nodes := nodes, openSet := setAdd st.nodes st.openSet neighbor nb,
                        openList := st.openList.push neighbor score }
        else
          match st.openList.decrease_key neighbor score with
          | .ok q => .ok { st with nodes := nodes, openList := q }
          | .error e => .error e
      else .ok st
  | _, _ => .error .badAccess

/-- The `for` loop over the adjacency set of `curr`. -/
def relaxAll (goal : Node) (curr : Nat) : List Nat → Search → Except Fault Search
  | [], st => .ok st
  | neighbor :: rest, st =>
    match relax goal curr st neighbor with
    | .ok st1 => relaxAll goal curr rest st1
    | .error e => .error e

/-- The `while (!openList.empty())` loop, at most `fuel` iterations. -/
def searchLoop (goal : Node) : Nat → Search → Except Fault Search
  | 0, st => if st.openList.empty then .ok st else .error .outOfFuel
  | fuel + 1, st =>
    if st.openList.empty then .ok st
    else
      match st.openList.top, st.openList.pop with
      | .ok curr, .ok q =>
        match nodeAt st.nodes curr with
        | .ok c =>
          let st1 := { st with openList := q, closedList := setAdd st.nodes st.closedList curr c }
          if c.equal goal then .ok st1
          else
            match relaxAll goal curr c.mAdjacentNeighbors st1 with
            | .ok st2 => searchLoop goal fuel st2
            | .error e => .error e
        | .error e => .error e
      | _, _ => .error .badQueueUse

/-- `Grid::RunAStar` up to the end of the loop, returning the local state. Every
iteration pops an entry and a node is pushed only when first put into
`openSet`, so one iteration per node is enough fuel. -/
def Grid.search (g : Grid) (startX startY goalX goalY : Int) : Except Fault Search :=
  let g1 := g.reIntializeNodes
  match g1.GetNodePointer startX startY, g1.GetNodePointer goalX goalY with
  | .ok start, .ok end_ =>
    match nodeAt g1.mConnectivityMatrix start, nodeAt g1.mConnectivityMatrix end_ with
    | .ok s, .ok e =>
      let s1 := { s with localScore := 0 }
      let s2 := { s1 with globalScore := fadd (Heuristic s1 e) s1.localScore }
      let nodes := g1.mConnectivityMatrix.set start s2
      searchLoop e nodes.length
        { nodes := nodes, openList := PriorityQueue.new.push start s2.globalScore,
          openSet := [start], closedList := [] }
    | _, _ => .error .badAccess
  | _, _ => .error .badAccess

/-- `Grid::RunAStar`. -/
def Grid.RunAStar (g : Grid) (startX startY goalX goalY : Int) : Except Fault Grid :=
  match g.search startX startY goalX goalY with
  | .ok st => .ok { g with mConnectivityMatrix := st.nodes }
  | .error e => .error e

/-- `Grid::SetGoal`. -/
def Grid.SetGoal (g : Grid) (mouseX mouseY : Int) : Except Fault Grid :=
  let xCell := pixelToCell mouseX
  let yCell := pixelToCell mouseY
  match g.GetCellValue xCell yCell with
  | .error e => .error e
  | .ok v =>
    if 1 ≠ v then
      match g.SetCell 0 0 3 with
      | .error e => .error e
      | .ok g1 =>
        match g1.SetCell xCell yCell 2 with
        | .error e => .error e
        | .ok g2 => g2.RunAStar 0 0 xCell yCell
    else g.RunAStar 0 0 xCell yCell

/-- The walk of `DrawPath`: the cells met following `mParent` from `p` until
null, at most `fuel` of them. -/
def parentChain (nodes : List Node) : Nat → Nat → List Nat
  | 0, _ => []
  | fuel + 1, p =>
    match nodes[p]? with
    | some n =>
      match n.mParent with
      | some q => p :: parentChain nodes fuel q
      | none => [p]
    | none => []

/-! ## Vocabulary of the properties -/

deriving instance DecidableEq for Except

/-- The cells met following `mParent` from cell `(x, y)`, as `DrawPath` does. -/
def Grid.chainFrom (g : Grid) (x y : Int) : List Nat :=
  parentChain g.mConnectivityMatrix g.mConnectivityMatrix.length (g.flatIndex x y)

/-- The coordinate `(x, y)` lies inside the grid. -/
def Grid.InBounds (g : Grid) (x y : Int) : Prop :=
  0 ≤ x ∧ x < g.mXDimensions ∧ 0 ≤ y ∧ y < g.mYDimensions

/-- Cell `b` is in the adjacency set of cell `a`. -/
def Adj (nodes : List Node) (a b : Nat) : Prop :=
  ∃ n, nodes[a]? = some n ∧ b ∈ n.mAdjacentNeighbors

/-- The operations a caller can apply to a grid. -/
inductive Op where
  | setObstacle (mouseX mouseY : Int)
  | SetGoal (mouseX mouseY : Int)
  | RunAStar (startX startY goalX goalY : Int)
  | SetCell (x y value : Int)
deriving DecidableEq, Repr

/-- Apply one operation. -/
def Grid.step (g : Grid) : Op → Except Fault Grid
  | .setObstacle mouseX mouseY => g.setObstacle mouseX mouseY
  | .SetGoal mouseX mouseY => g.SetGoal mouseX mouseY
  | .RunAStar startX startY goalX goalY => g.RunAStar startX startY goalX goalY
  | .SetCell x y value => g.SetCell x y value

/-- Grid states reached from `Grid(w, h)` by operations from `allowed`. -/
inductive Reach (allowed : Op → Prop) (w h : Nat) : Grid → Prop
  | init {g : Grid} : Grid.ctor (w : Int) (h : Int) = .ok g → Reach allowed w h g
  | step {g g' : Grid} (op : Op) :
      Reach allowed w h g → allowed op → g.step op = .ok g' → Reach allowed w h g'

/-- Only `setObstacle`. -/
def Op.isSetObstacle : Op → Prop
  | .setObstacle _ _ => True
  | _ => False

/-- The operations `setObstacle`, `SetGoal` and `RunAStar`. -/
def Op.isEdit : Op → Prop
  | .SetCell _ _ _ => False
  | _ => True

/-- The node that `eraseFromNeighbors` leaves at a place that held `n`. -/
def erasedNode (obstacle : Nat) (l : List Nat) (i : Nat) (n : Node) : Node :=
  if i ∈ l then { n with mAdjacentNeighbors := setErase obstacle n.mAdjacentNeighbors } else n

/-- The node that `setObstacle` on element `p` with adjacency set `l` leaves at a
place that held `n`. -/
def obstacleNode (p : Nat) (l : List Nat) (i : Nat) (n : Node) : Node :=
  if i = p then { n with mIsObstacle := true, mValue := 1, mAdjacentNeighbors := [] }
  else if i ∈ l then { n with mAdjacentNeighbors := setErase p n.mAdjacentNeighbors }
  else n

instance (g : Grid) (x y : Int) : Decidable (g.InBounds x y) := by
  unfold Grid.InBounds
  infer_instance

/-- The mark `(mIsObstacle, mValue)` of the element with flat index `p`. -/
def Grid.markAt (g : Grid) (p : Nat) : Option (Bool × Int) :=
  (g.mConnectivityMatrix[p]?).map (fun n => (n.mIsObstacle, n.mValue))

/-- The search result `(mParent, localScore)` of the element with flat index `p`. -/
def Grid.resultAt (g : Grid) (p : Nat) : Option (Option Nat × Nat) :=
  (g.mConnectivityMatrix[p]?).map (fun n => (n.mParent, n.localScore))

/-- The adjacency set of the element with flat index `p`. -/
def Grid.adjAt (g : Grid) (p : Nat) : Option (List Nat) :=
  (g.mConnectivityMatrix[p]?).map (fun n => n.mAdjacentNeighbors)

/-- Scenario B: `Grid(5,5)`, then `setObstacle` on the cells `(2,0)`, `(2,1)`,
`(2,2)`, `(2,3)` (mouse positions `16 * cell`), then `RunAStar(0,0,4,0)`. -/
def scenarioB : Except Fault Grid :=
  (Grid.ctor 5 5).bind fun g0 =>
  (g0.setObstacle 32 0).bind fun g1 =>
  (g1.setObstacle 32 16).bind fun g2 =>
  (g2.setObstacle 32 32).bind fun g3 =>
  (g3.setObstacle 32 48).bind fun g4 =>
  g4.RunAStar 0 0 4 0

/-- Cell `j` is the left, right, upper or lower neighbour of cell `i` in a grid
of width `w` with `w * h` cells (flat indices). -/
def Step (w h i j : Nat) : Prop :=
  (1 ≤ i % w ∧ j + 1 = i) ∨ (i % w + 1 < w ∧ j = i + 1) ∨ (w ≤ i ∧ j + w = i) ∨
    (i + w < w * h ∧ j = i + w)

/-- The shape of a grid state built by `Grid(w, h)` and edited by `setObstacle`:
row-major coordinates, adjacency only between neighbouring cells, symmetric,
and none at obstacles. -/
structure GridInv (w h : Nat) (g : Grid) : Prop where
  dimX : g.mXDimensions = w
  dimY : g.mYDimensions = h
  len : g.mConnectivityMatrix.length = w * h
  coords : ∀ (i : Nat) (n : Node), g.mConnectivityMatrix[i]? = some n →
    n.x = ((i % w : Nat) : Int) ∧ n.y = ((i / w : Nat) : Int)
  adj_step : ∀ i j, Adj g.mConnectivityMatrix i j → j < w * h ∧ Step w h i j
  adj_symm : ∀ i j, Adj g.mConnectivityMatrix i j → Adj g.mConnectivityMatrix j i
  obstacle : ∀ (i : Nat) (n : Node), g.mConnectivityMatrix[i]? = some n → n.mIsObstacle = true →
    n.mAdjacentNeighbors = []

/-- The fields of a node that the search neither reads nor writes are blanked. -/
def Node.forget (n : Node) : Node := { n with mIsObstacle := false, mValue := 0 }

/-- The fields of a node that only the search writes are blanked. -/
def Node.shape (n : Node) : Node :=
  { n with mParent := none, globalScore := 0, localScore := 0 }

/-- A node without its adjacency set. -/
def Node.noAdj (n : Node) : Node := { n with mAdjacentNeighbors := [] }

/-- The obstacle flag of element `j` is clear. -/
def Free (nodes : List Node) (j : Nat) : Prop :=
  ∃ m, nodes[j]? = some m ∧ m.mIsObstacle = false

/-- `nodes'` is `nodes` with the elements of `S` added to the adjacency set of
element `k`. -/
def AdjAdded (nodes nodes' : List Node) (k : Nat) (S : Nat → Prop) : Prop :=
  nodes'.length = nodes.length ∧ (∀ m : Nat, m ≠ k → nodes'[m]? = nodes[m]?) ∧
    ∃ a a', nodes[k]? = some a ∧ nodes'[k]? = some a' ∧ a'.noAdj = a.noAdj ∧
      ∀ t, t ∈ a'.mAdjacentNeighbors ↔ t ∈ a.mAdjacentNeighbors ∨ S t

/-- State of the linking loop of the constructor before it reaches element `k`:
elements below `k` have their final adjacency sets, the others none yet. -/
def LinkInv (w h : Nat) (start : List Node) (k : Nat) (nodes : List Node) : Prop :=
  nodes.length = w * h ∧
    (∀ i : Nat, (nodes[i]?).map Node.noAdj = (start[i]?).map Node.noAdj) ∧
    ∀ (i j : Nat) (n : Node), nodes[i]? = some n →
      (j ∈ n.mAdjacentNeighbors ↔
        (i < k ∧ Step w h i j ∧ n.mIsObstacle = false ∧ Free nodes j))

/-- The fields of a node that make up the graph: coordinates, adjacency set
and obstacle flag; the tag and the search fields are blanked. -/
def Node.topo (n : Node) : Node :=
  { n with mValue := 0, mParent := none, globalScore := 0, localScore := 0 }

/-- Two vectors of nodes agree element by element after applying `f`. -/
def Agree (f : Node → Node) (nodes nodes' : List Node) : Prop :=
  ∀ i : Nat, (nodes'[i]?).map f = (nodes[i]?).map f

/-- The node a relaxation from `curr` (node `c`) writes in place of `nb`. -/
def relaxedNode (goal : Node) (curr : Nat) (c nb : Node) : Node :=
  { nb with
    mParent := some curr
    localScore := fadd c.localScore (Heuristic c nb)
    globalScore := fadd (fadd c.localScore (Heuristic c nb)) (Heuristic nb goal) }

/-- The search state after `curr` (node `c`) is popped and put in `closedList`. -/
def popped (st : Search) (q : PriorityQueue) (curr : Nat) (c : Node) : Search :=
  { st with openList := q, closedList := setAdd st.nodes st.closedList curr c }

/-- The start node as `RunAStar` initialises it. -/
def startNode (s e : Node) : Node :=
  { s with localScore := 0, globalScore := fadd (Heuristic { s with localScore := 0 } e) 0 }

/-- The search state on entry to the loop of `RunAStar`. -/
def initialSearch (nodes : List Node) (start : Nat) (s e : Node) : Search :=
  { nodes := nodes.set start (startNode s e)
    openList := PriorityQueue.new.push start (startNode s e).globalScore
    openSet := [start], closedList := [] }

/-- The search state with the fields the search does not use blanked. -/
def Search.forget (st : Search) : Search := { st with nodes := st.nodes.map Node.forget }

/-- The grid with the fields the search does not use blanked. -/
def Grid.forget (g : Grid) : Grid :=
  { g with mConnectivityMatrix := g.mConnectivityMatrix.map Node.forget }

/-- Coordinates and adjacency set of a node. -/
def Node.geometry (n : Node) : Int × Int × List Nat := (n.x, n.y, n.mAdjacentNeighbors)

/-- What a search leaves in a node: `(localScore, globalScore, mParent)`. -/
def Node.searchFields (n : Node) : Nat × Nat × Option Nat := (n.localScore, n.globalScore, n.mParent)

/-- The search fields of all cells, in order. -/
def Grid.searchFields (g : Grid) : List (Nat × Nat × Option Nat) :=
  g.mConnectivityMatrix.map Node.searchFields

/-- A freshly initialised node with the given coordinates and adjacency set. -/
def Node.ofGeometry (p : Int × Int × List Nat) : Node :=
  { x := p.1, y := p.2.1, mAdjacentNeighbors := p.2.2, mIsObstacle := false, mValue := 0,
    mParent := none, globalScore := ofInt 99999999, localScore := ofInt 99999999 }

/-- The grid `Grid(2, 2)` as an earlier `RunAStar(0,0,1,1)` leaves it. -/
def afterEarlierRun : Grid :=
  match (Grid.build 2 2).RunAStar 0 0 1 1 with
  | .ok g => g
  | .error _ => Grid.build 2 2

/-- The queue holds exactly one entry for every node of `live`, under the key
`keyOf` gives it, reachable through `node_map`, and `map` is ordered by key. -/
structure QueueOK (q : PriorityQueue) (live : Nat → Prop) (keyOf : Nat → Nat) : Prop where
  entry : ∀ en ∈ q.map, live en.node ∧ en.key = keyOf en.node ∧
    q.node_map.lookup en.node = some en.it ∧ en.it < q.fresh
  covered : ∀ v, live v → ∃ en ∈ q.map, en.node = v
  nodes_nodup : (q.map.map (fun en => en.node)).Nodup
  its_nodup : (q.map.map (fun en => en.it)).Nodup
  sorted : q.map.Pairwise (fun a b => a.key ≤ b.key)

/-- There is a walk of `n` steps from `a` to `b`, each step going from a cell to
a member of its adjacency set. -/
inductive WalkLen (nodes : List Node) : Nat → Nat → Nat → Prop
  | refl (a : Nat) : WalkLen nodes a a 0
  | step {a b c n : Nat} : WalkLen nodes a b n → Adj nodes b c → WalkLen nodes a c (n + 1)

/-- Cell `b` can be reached from cell `a` through the adjacency sets. -/
def Connected (nodes : List Node) (a b : Nat) : Prop := ∃ n, WalkLen nodes a b n

/-- The key the queue should hold for node `v`: its `globalScore`. -/
def keyOf (nodes : List Node) (v : Nat) : Nat := ((nodes[v]?).map Node.globalScore).getD 0

/-- Node `v` has an entry in the open queue: it is in `openSet` and not in
`closedList`. -/
def Live (st : Search) (v : Nat) : Prop := v ∈ st.openSet ∧ v ∉ st.closedList

/-- State of `RunAStar` at the head of its loop (`todo` empty) and inside the
loop over the neighbours of the popped node (`todo` the neighbours still to
come). `nodes0` is the vector on entry to the loop, `start` and `e` the start
and goal elements, `goal` the goal node. -/
structure SearchInv (w h : Nat) (nodes0 : List Node) (start e : Nat) (goal : Node)
    (todo : Nat → Nat → Prop) (st : Search) : Prop where
  geo : GridInv w h { mXDimensions := w, mYDimensions := h, mConnectivityMatrix := nodes0 }
  agree : Agree Node.shape nodes0 st.nodes
  goal_x : goal.x = ((e % w : Nat) : Int)
  goal_y : goal.y = ((e / w : Nat) : Int)
  goal_lt : e < w * h
  open_lt : ∀ v ∈ st.openSet, v < w * h
  closed_sub : ∀ v ∈ st.closedList, v ∈ st.openSet
  closed_nodup : st.closedList.Nodup
  start_open : start ∈ st.openSet
  start_state : start ∈ st.closedList ∨ (st.closedList = [] ∧ st.openSet = [start])
  queue : QueueOK st.openList (Live st) (keyOf st.nodes)
  found : ∀ v ∈ st.openSet, ∃ n d, st.nodes[v]? = some n ∧ d ≤ 2 ^ 24 ∧ n.localScore = d * one ∧
    ((v = start ∧ n.mParent = none) ∨
      (v ≠ start ∧ ∃ p, n.mParent = some p ∧ p ∈ st.closedList ∧ Adj nodes0 p v))
  fresh : ∀ (v : Nat) (n : Node), st.nodes[v]? = some n → v ∉ st.openSet →
    n.localScore = ofInt 99999999 ∧ n.mParent = none
  closed_adj : ∀ u ∈ st.closedList, ∀ v, Adj nodes0 u v → todo u v ∨ v ∈ st.openSet
  goal_open : e ∉ st.closedList
  reach : ∀ v ∈ st.openSet, Connected nodes0 start v

/-- No neighbour is waiting to be relaxed. -/
def noTodo : Nat → Nat → Prop := fun _ _ => False

/-- The neighbours in `l` of `curr` are waiting to be relaxed. -/
def todoOf (curr : Nat) (l : List Nat) : Nat → Nat → Prop := fun u v => u = curr ∧ v ∈ l

/-- How the loop of `RunAStar` ends in `st'` from the state `last` at the head
of its final iteration: the queue is empty, or the goal element `e` is popped. -/
def Stops (e : Nat) (last st' : Search) : Prop :=
  (last.openList.empty = true ∧ st' = last) ∨
    (last.openList.empty = false ∧ ∃ q c, last.openList.top = .ok e ∧ last.openList.pop = .ok q ∧
      last.nodes[e]? = some c ∧ st' = popped last q e c)

/-- The cell that `(x, y)` resolves to has its obstacle flag set. -/
def Grid.IsObstacleAt (g : Grid) (x y : Int) : Prop :=
  ∃ n, g.GetNodeReference x y = .ok n ∧ n.mIsObstacle = true

/-- Number of horizontal plus vertical steps between cells `a` and `b` of a grid
of width `w`. -/
def gridDist (w a b : Nat) : Nat :=
  (((a % w : Nat) : Int) - ((b % w : Nat) : Int)).natAbs +
    (((a / w : Nat) : Int) - ((b / w : Nat) : Int)).natAbs

/-- Every operation is allowed. -/
def Op.any : Op → Prop := fun _ => True

/-- The fields of a node that `SetCell` does not write: everything apart from
the obstacle flag and the tag. -/
def Node.untagged (n : Node) : Int × Int × List Nat × Option Nat × Nat × Nat :=
  (n.x, n.y, n.mAdjacentNeighbors, n.mParent, n.globalScore, n.localScore)

/-- The fields of a node that `reIntializeNodes` does not write. -/
def Node.unsearched (n : Node) : Int × Int × List Nat × Bool × Int :=
  (n.x, n.y, n.mAdjacentNeighbors, n.mIsObstacle, n.mValue)

/-- The node `SetCell` with `value` leaves in place of `n`. -/
def Node.withTag (n : Node) (value : Int) : Node :=
  { n with mIsObstacle := if value = 1 then true else n.mIsObstacle, mValue := value }

/-- Node `node` has an entry in the queue (a live entry). -/
def PriorityQueue.hasEntry (q : PriorityQueue) (node : Nat) : Prop := ∃ e ∈ q.map, e.node = node

instance (q : PriorityQueue) (node : Nat) : Decidable (q.hasEntry node) := by
  unfold PriorityQueue.hasEntry
  infer_instance

/-- Queue states produced from the empty queue by `push`, `decrease_key` and
`pop`, where `push` is used only for a node without an entry and `decrease_key`
only for a node with one. The field `it` of an entry is the value of `fresh`
when the entry was inserted, and `fresh` grows with every insertion: an entry
was inserted earlier than another exactly if its `it` is smaller. -/
inductive QReach : PriorityQueue → Prop
  | new : QReach PriorityQueue.new
  | push {q : PriorityQueue} (node score : Nat) :
      QReach q → ¬ q.hasEntry node → QReach (q.push node score)
  | decrease_key {q q' : PriorityQueue} (node score : Nat) :
      QReach q → q.hasEntry node → q.decrease_key node score = .ok q' → QReach q'
  | pop {q q' : PriorityQueue} : QReach q → q.pop = .ok q' → QReach q'

/-- Entries with equal keys are in insertion order, and `node_map` points to
entries of `map` only. -/
structure QueueStable (q : PriorityQueue) : Prop where
  ties : q.map.Pairwise (fun a b => a.key = b.key → a.it < b.it)
  index_only : ∀ v i, q.node_map.lookup v = some i → ∃ e ∈ q.map, e.node = v ∧ e.it = i

/-- Both `x` and `y` are positive multiples of `4`. -/
def obstacleCell (x y : Int) : Prop := 0 < x ∧ x % 4 = 0 ∧ 0 < y ∧ y % 4 = 0

instance (x y : Int) : Decidable (obstacleCell x y) := by
  unfold obstacleCell
  infer_instance

/-- The cell `(x', y')` is the left, right, upper or lower neighbour of `(x, y)`. -/
def neighbourCell (x y x' y' : Int) : Prop :=
  (x' = x - 1 ∧ y' = y) ∨ (x' = x + 1 ∧ y' = y) ∨ (x' = x ∧ y' = y - 1) ∨ (x' = x ∧ y' = y + 1)

/-- The points of a run of the loop of `RunAStar` that starts in `init`. The
phase `none` is the head of the `while` loop; the phase `some (curr, l)` is
inside the `for` loop over the neighbours of the popped node `curr`, with `l`
the neighbours still to come. -/
inductive Visits (goal : Node) (init : Search) : Option (Nat × List Nat) → Search → Prop
  | start : Visits goal init none init
  | pop {st : Search} {curr : Nat} {q : PriorityQueue} {c : Node} :
      Visits goal init none st → st.openList.empty = false → st.openList.top = .ok curr →
      st.openList.pop = .ok q → nodeAt st.nodes curr = .ok c → c.equal goal = false →
      Visits goal init (some (curr, c.mAdjacentNeighbors)) (popped st q curr c)
  | relax {st st1 : Search} {curr neighbor : Nat} {rest : List Nat} :
      Visits goal init (some (curr, neighbor :: rest)) st →
      relax goal curr st neighbor = .ok st1 → Visits goal init (some (curr, rest)) st1
  | next {st : Search} {curr : Nat} :
      Visits goal init (some (curr, [])) st → Visits goal init none st

/-- What holds at a point of the run, by phase. -/
def PhaseInv (w h : Nat) (nodes0 : List Node) (start e : Nat) (goal : Node) :
    Option (Nat × List Nat) → Search → Prop
  | none, st => SearchInv w h nodes0 start e goal noTodo st
  | some (curr, l), st =>
    SearchInv w h nodes0 start e goal (todoOf curr l) st ∧ curr ∈ st.closedList ∧
      start ∈ st.closedList ∧ ∀ a ∈ l, Adj nodes0 curr a

/-- How the loop of `RunAStar` ends in `st'` from the state `last` at the head
of its final iteration: the queue is empty, or a node equal to the goal is
popped. -/
def Ends (goal : Node) (last st' : Search) : Prop :=
  (last.openList.empty = true ∧ st' = last) ∨
    (last.openList.empty = false ∧ ∃ curr q c, last.openList.top = .ok curr ∧
      last.openList.pop = .ok q ∧ last.nodes[curr]? = some c ∧ c.equal goal = true ∧
      st' = popped last q curr c)

/-- `Grid::DrawNeighbors`: the cells it highlights. This operation compares the
cell coordinates with the dimensions before it indexes the vector, and does
nothing for a cell outside the grid. -/
def Grid.DrawNeighbors (g : Grid) (mouseX mouseY : Int) : Except Fault (List Nat) :=
  let xCell := pixelToCell mouseX
  let yCell := pixelToCell mouseY
  if yCell ≥ 0 ∧ yCell < (g.mYDimensions : Int) then
    if xCell ≥ 0 ∧ xCell < (g.mXDimensions : Int) then
      match g.GetNodeReference xCell yCell with
      | .ok n => .ok n.mAdjacentNeighbors
      | .error e => .error e
    else .ok []
  else .ok []

/-! ## Properties -/

/-- A decidable property of a successful result can be checked by evaluation. -/
theorem exists_ok_of_decide {ε α : Type} {X : Except ε α} {P : α → Prop} [DecidablePred P]
    (h : (match X with | .ok r => decide (P r) | .error _ => false) = true) :
    ∃ r, X = .ok r ∧ P r := by
  cases X with
  | ok r => exact ⟨r, rfl, of_decide_eq_true h⟩
  | error e => cases h

/-! ### `setObstacle` -/

theorem nodeAt_ok_iff {nodes : List Node} {p : Nat} {n : Node} :
    nodeAt nodes p = .ok n ↔ nodes[p]? = some n := by
  unfold nodeAt
  cases h : nodes[p]? <;> simp

theorem nodeAt_error {nodes : List Node} {p : Nat} {e : Fault} (h : nodeAt nodes p = .error e) :
    nodes.length ≤ p := by
  unfold nodeAt at h
  cases h' : nodes[p]? with
  | none => exact List.getElem?_eq_none_iff.mp h'
  | some n => simp [h'] at h

theorem mem_setErase {a b : Nat} {l : List Nat} : b ∈ setErase a l ↔ b ∈ l ∧ b ≠ a := by
  simp [setErase]

theorem setErase_idem (a : Nat) (l : List Nat) : setErase a (setErase a l) = setErase a l := by
  simp [setErase, List.filter_filter]

theorem eraseFromNeighbors_ok {obstacle : Nat} :
    ∀ (l : List Nat) (nodes nodes' : List Node),
      eraseFromNeighbors obstacle l nodes = .ok nodes' →
      obstacle ∉ l ∧ (∀ e ∈ l, e < nodes.length) ∧ nodes'.length = nodes.length ∧
      ∀ i, nodes'[i]? = (nodes[i]?).map (erasedNode obstacle l i) := by
  intro l
  induction l with
  | nil =>
    intro nodes nodes' h
    simp only [eraseFromNeighbors, Except.ok.injEq] at h
    subst h
    refine ⟨by simp, by simp, rfl, fun i => ?_⟩
    cases hi : nodes[i]? <;> simp [erasedNode]
  | cons e rest ih =>
    intro nodes nodes' h
    unfold eraseFromNeighbors at h
    split at h
    · cases h
    · rename_i hne
      split at h
      · rename_i n hn
        obtain ⟨h1, h2, h3, h4⟩ := ih _ _ h
        have hlt : e < nodes.length := (List.getElem?_eq_some_iff.mp hn).1
        refine ⟨?_, ?_, ?_, ?_⟩
        · simp only [List.mem_cons, not_or]
          exact ⟨fun hc => hne hc.symm, h1⟩
        · intro a ha
          rcases List.mem_cons.mp ha with rfl | ha
          · exact hlt
          · simpa using h2 a ha
        · simpa using h3
        · intro i
          rw [h4 i]
          by_cases hie : i = e
          · subst hie
            simp only [List.getElem?_set_self hlt, hn, Option.map_some', erasedNode, List.mem_cons,
              true_or, if_true]
            by_cases hr : i ∈ rest <;> simp [hr, setErase_idem]
          · rw [List.getElem?_set_ne (Ne.symm hie)]
            cases hi : nodes[i]? with
            | none => rfl
            | some m => simp [erasedNode, hie]
      · cases h

theorem eraseFromNeighbors_isOk {obstacle : Nat} :
    ∀ (l : List Nat) (nodes : List Node), obstacle ∉ l → (∀ e ∈ l, e < nodes.length) →
      ∃ nodes', eraseFromNeighbors obstacle l nodes = .ok nodes' := by
  intro l
  induction l with
  | nil => intro nodes _ _; exact ⟨nodes, rfl⟩
  | cons e rest ih =>
    intro nodes h1 h2
    have hne : ¬ e = obstacle := fun hc => h1 (by simp [hc])
    have hlt : e < nodes.length := h2 e (by simp)
    unfold eraseFromNeighbors
    rw [if_neg hne, List.getElem?_eq_getElem hlt]
    apply ih
    · exact fun hc => h1 (List.mem_cons_of_mem _ hc)
    · intro a ha
      simpa using h2 a (List.mem_cons_of_mem _ ha)

theorem setCellAt_length (nodes : List Node) (i : Nat) (v : Int) :
    (setCellAt nodes i v).length = nodes.length := by
  unfold setCellAt
  split <;> simp

theorem setCellAt_getElem? (nodes : List Node) (i : Nat) (v : Int) (j : Nat) :
    (setCellAt nodes i v)[j]? = (nodes[j]?).map (fun n =>
      if j = i then { n with mIsObstacle := if v = 1 then true else n.mIsObstacle, mValue := v }
      else n) := by
  unfold setCellAt
  split
  · rename_i n hn
    have hlt : i < nodes.length := (List.getElem?_eq_some_iff.mp hn).1
    by_cases hji : j = i
    · subst hji
      simp [List.getElem?_set_self hlt, hn]
    · rw [List.getElem?_set_ne (Ne.symm hji)]
      cases nodes[j]? <;> simp [hji]
  · rename_i hn
    by_cases hji : j = i
    · subst hji
      simp [hn]
    · cases nodes[j]? <;> simp [hji]

/-- What a successful `setObstacle` on cell `(x, y)` does: with `p` the flat
index and `o` the node there, every node is rewritten by `obstacleNode`. -/
theorem setObstacleCell_ok {g g' : Grid} {x y : Int} (h : g.setObstacleCell x y = .ok g') :
    ∃ o, g.mConnectivityMatrix[g.flatIndex x y]? = some o ∧
      g.flatIndex x y ∉ o.mAdjacentNeighbors ∧
      (∀ e ∈ o.mAdjacentNeighbors, e < g.mConnectivityMatrix.length) ∧
      g'.mXDimensions = g.mXDimensions ∧ g'.mYDimensions = g.mYDimensions ∧
      g'.mConnectivityMatrix.length = g.mConnectivityMatrix.length ∧
      ∀ i, g'.mConnectivityMatrix[i]? =
        (g.mConnectivityMatrix[i]?).map (obstacleNode (g.flatIndex x y) o.mAdjacentNeighbors i) := by
  unfold Grid.setObstacleCell Grid.SetCell at h
  by_cases hlt : g.flatIndex x y < g.mConnectivityMatrix.length
  · simp only [hlt, if_true] at h
    have hfi : ∀ g1 : Grid, g1.mXDimensions = g.mXDimensions → g1.flatIndex x y = g.flatIndex x y := by
      intro g1 h1
      simp [Grid.flatIndex, h1]
    simp only [Grid.GetNodePointer, hfi, setCellAt_length, hlt, if_true] at h
    obtain ⟨o, ho⟩ : ∃ o, g.mConnectivityMatrix[g.flatIndex x y]? = some o :=
      ⟨_, List.getElem?_eq_getElem hlt⟩
    have hn1 : nodeAt (setCellAt g.mConnectivityMatrix (g.flatIndex x y) 1) (g.flatIndex x y) =
        .ok { o with mIsObstacle := true, mValue := 1 } := by
      rw [nodeAt_ok_iff, setCellAt_getElem?, ho]
      simp
    simp only [hn1] at h
    split at h
    · cases h
    · rename_i nodes hnodes
      obtain ⟨e1, e2, e3, e4⟩ := eraseFromNeighbors_ok _ _ _ hnodes
      split at h
      · rename_i o2 ho2
        simp only [Except.ok.injEq] at h
        subst h
        refine ⟨o, ho, e1, ?_, rfl, rfl, ?_, ?_⟩
        · intro e he
          simpa [setCellAt_length] using e2 e he
        · simp [e3, setCellAt_length]
        · intro i
          have hlt2 : g.flatIndex x y < nodes.length := by
            rw [e3, setCellAt_length]; exact hlt
          by_cases hip : i = g.flatIndex x y
          · subst hip
            simp only [List.getElem?_set_self hlt2, ho, Option.map_some', obstacleNode, if_true]
            have := e4 (g.flatIndex x y)
            rw [ho2, setCellAt_getElem?, ho] at this
            simp only [Option.map_some', if_true, erasedNode, e1, if_false, Option.some.injEq] at this
            subst this
            rfl
          · simp only [ne_eq, Ne.symm hip, not_false_eq_true, List.getElem?_set_ne]
            rw [e4 i, setCellAt_getElem?]
            cases hi : g.mConnectivityMatrix[i]? with
            | none => rfl
            | some m => simp [hip, obstacleNode, erasedNode]
      · cases h
  · simp [hlt] at h

/-- The parts of a grid state, compared all at once. -/
theorem Grid.ext_nodes {g1 g2 : Grid} (hx : g1.mXDimensions = g2.mXDimensions)
    (hy : g1.mYDimensions = g2.mYDimensions)
    (hn : ∀ i : Nat, g1.mConnectivityMatrix[i]? = g2.mConnectivityMatrix[i]?) : g1 = g2 := by
  cases g1; cases g2
  simp only [Grid.mk.injEq] at *
  exact ⟨hx, hy, List.ext_getElem? hn⟩

/-- A second `setObstacle` on the place of a successful one changes nothing. -/
theorem setObstacleCell_again {g g' : Grid} {x y : Int} (h : g.setObstacleCell x y = .ok g') :
    g'.setObstacleCell x y = .ok g' := by
  obtain ⟨o, ho, h1, h2, hx, hy, hl, hn⟩ := setObstacleCell_ok h
  have hlt : g.flatIndex x y < g.mConnectivityMatrix.length := (List.getElem?_eq_some_iff.mp ho).1
  have hfi : g'.flatIndex x y = g.flatIndex x y := by simp [Grid.flatIndex, hx]
  have hp : g'.mConnectivityMatrix[g.flatIndex x y]? =
      some { o with mIsObstacle := true, mValue := 1, mAdjacentNeighbors := [] } := by
    rw [hn, ho]; simp [obstacleNode]
  have hset : setCellAt g'.mConnectivityMatrix (g.flatIndex x y) 1 = g'.mConnectivityMatrix := by
    apply List.ext_getElem?
    intro i
    rw [setCellAt_getElem?]
    by_cases hip : i = g.flatIndex x y
    · subst hip; rw [hp]; simp
    · cases g'.mConnectivityMatrix[i]? <;> simp [hip]
  have hn1 : nodeAt g'.mConnectivityMatrix (g.flatIndex x y) =
      .ok { o with mIsObstacle := true, mValue := 1, mAdjacentNeighbors := [] } :=
    nodeAt_ok_iff.mpr hp
  unfold Grid.setObstacleCell Grid.SetCell
  simp only [hfi, hl, hlt, if_true, hset, Grid.GetNodePointer, hn1, eraseFromNeighbors, hp]
  congr 1
  apply Grid.ext_nodes
  · rfl
  · rfl
  · intro i
    by_cases hip : i = g.flatIndex x y
    · subst hip
      simp only [List.getElem?_set_self (show g.flatIndex x y < g'.mConnectivityMatrix.length by
        rw [hl]; exact hlt), hp]
    · simp [List.getElem?_set_ne (Ne.symm hip)]

/-- C10: `setObstacle` is idempotent. For every grid state and every pair of
mouse coordinates (hence every cell, in bounds or not), applying `setObstacle`
twice in succession gives exactly the result of applying it once: the same grid
state in all its parts, or the same fault. The same holds for the operation on
cell coordinates. -/
theorem C10_setObstacle_idempotent (g : Grid) (mouseX mouseY : Int) :
    (g.setObstacle mouseX mouseY).bind (fun g1 => g1.setObstacle mouseX mouseY) =
        g.setObstacle mouseX mouseY ∧
      ∀ xCell yCell : Int,
        (g.setObstacleCell xCell yCell).bind (fun g1 => g1.setObstacleCell xCell yCell) =
          g.setObstacleCell xCell yCell := by
  have key : ∀ xCell yCell : Int,
      (g.setObstacleCell xCell yCell).bind (fun g1 => g1.setObstacleCell xCell yCell) =
        g.setObstacleCell xCell yCell := by
    intro xCell yCell
    cases h : g.setObstacleCell xCell yCell with
    | error e => rfl
    | ok g1 => exact setObstacleCell_again h
  exact ⟨key _ _, key⟩

/-! ### Coordinates are not checked -/

theorem flatIndex_reIntializeNodes (g : Grid) (x y : Int) :
    g.reIntializeNodes.flatIndex x y = g.flatIndex x y := rfl

theorem search_congr (g : Grid) {x y x' y' : Int} (h : g.flatIndex x y = g.flatIndex x' y')
    (a b : Int) :
    g.search x y a b = g.search x' y' a b ∧ g.search a b x y = g.search a b x' y' := by
  unfold Grid.search Grid.GetNodePointer
  simp only [flatIndex_reIntializeNodes, h, and_self]

theorem search_badAccess (g : Grid) {x y : Int}
    (h : g.mConnectivityMatrix.length ≤ g.flatIndex x y) (a b : Int) :
    g.search x y a b = .error .badAccess ∧ g.search a b x y = .error .badAccess := by
  have hl : ¬ g.flatIndex x y < g.reIntializeNodes.mConnectivityMatrix.length := by
    simp [Grid.reIntializeNodes, h]
  unfold Grid.search Grid.GetNodePointer
  simp only [flatIndex_reIntializeNodes, hl, if_false, true_and]
  split
  · rename_i h1 h2
    cases h2
  · rfl

theorem setObstacleCell_congr (g : Grid) {x y x' y' : Int}
    (h : g.flatIndex x y = g.flatIndex x' y') :
    g.setObstacleCell x y = g.setObstacleCell x' y' := by
  have e : ∀ (nodes : List Node) (a b : Int),
      Grid.flatIndex { g with mConnectivityMatrix := nodes } a b = g.flatIndex a b :=
    fun _ _ _ => rfl
  unfold Grid.setObstacleCell Grid.SetCell Grid.GetNodePointer
  rw [h]
  by_cases hlt : g.flatIndex x' y' < g.mConnectivityMatrix.length
  · simp only [hlt, if_true, e, h]
  · simp only [hlt, if_false]

/-- `GetCellValue`, `SetCell`, `setObstacle` and `RunAStar` use a coordinate
`(x, y)` only through the flat index `(y*w + x) mod 2^64`: two coordinates with
the same flat index give the same result. If the flat index lies inside the
cell array, `GetCellValue` returns the tag of the element there and `SetCell`
writes to it; if it lies outside, the access is out of range. -/
theorem coordinates_resolved_by_flat_index (g : Grid) (x y x' y' : Int)
    (h : g.flatIndex x y = g.flatIndex x' y') :
    (g.GetCellValue x y = g.GetCellValue x' y' ∧
      (∀ tag, g.SetCell x y tag = g.SetCell x' y' tag) ∧
      g.setObstacleCell x y = g.setObstacleCell x' y' ∧
      (∀ a b, g.RunAStar x y a b = g.RunAStar x' y' a b ∧
        g.RunAStar a b x y = g.RunAStar a b x' y')) ∧
    (g.flatIndex x y < g.mConnectivityMatrix.length →
      g.GetCellValue x y = (g.mConnectivityMatrix[g.flatIndex x y]?).elim (.error .badAccess)
          (fun n => .ok n.mValue) ∧
      ∀ tag, g.SetCell x y tag =
        .ok { g with
              mConnectivityMatrix := setCellAt g.mConnectivityMatrix (g.flatIndex x y) tag }) ∧
    (g.mConnectivityMatrix.length ≤ g.flatIndex x y →
      g.GetCellValue x y = .error .badAccess ∧
      (∀ tag, g.SetCell x y tag = .error .badAccess) ∧
      g.setObstacleCell x y = .error .badAccess ∧
      ∀ a b, g.RunAStar x y a b = .error .badAccess ∧ g.RunAStar a b x y = .error .badAccess) := by
  refine ⟨⟨?_, ?_, ?_, ?_⟩, ?_, ?_⟩
  · simp [Grid.GetCellValue, h]
  · intro tag; simp [Grid.SetCell, h]
  · exact setObstacleCell_congr g h
  · intro a b
    obtain ⟨h1, h2⟩ := search_congr g h a b
    simp [Grid.RunAStar, h1, h2]
  · intro hlt
    refine ⟨?_, fun tag => by simp [Grid.SetCell, hlt]⟩
    simp [Grid.GetCellValue, nodeAt, List.getElem?_eq_getElem hlt]
  · intro hge
    have hnot : ¬ g.flatIndex x y < g.mConnectivityMatrix.length := Nat.not_lt.mpr hge
    refine ⟨?_, fun tag => by simp [Grid.SetCell, hnot], by simp [Grid.setObstacleCell, Grid.SetCell, hnot], ?_⟩
    · simp [Grid.GetCellValue, nodeAt, List.getElem?_eq_none_iff.mpr hge]
    · intro a b
      obtain ⟨h1, h2⟩ := search_badAccess g hge a b
      simp [Grid.RunAStar, h1, h2]

/-- On the 5x5 grid the coordinate `(5, 0)` is out of bounds, yet
`GetCellValue(5,0)` returns a tag, `SetCell(5,0,7)` writes the tag of cell
`(0,1)` (flat index 5), `setObstacle` on `(5,0)` turns cell `(0,1)` into an
obstacle, and `RunAStar(0,0,5,0)` searches for cell `(0,1)`. -/
theorem outside_coordinate_on_5x5 :
    ¬ (Grid.build 5 5).InBounds 5 0 ∧
    (Grid.build 5 5).GetCellValue 5 0 = .ok 0 ∧
    ((Grid.build 5 5).SetCell 5 0 7).map (fun g => g.markAt 5) = .ok (some (false, 7)) ∧
    ((Grid.build 5 5).setObstacleCell 5 0).map (fun g => g.markAt 5) = .ok (some (true, 1)) ∧
    ((Grid.build 5 5).RunAStar 0 0 5 0).map (fun g => g.resultAt 5) = .ok (some (some 0, one)) := by
  decide!

/-- C5 (counterexample): on `Grid(5,5)` the search `RunAStar(0,0,4,4)` returns
with the goal cell `(4,4)` (flat index 24) not reached: its `mParent` is null,
the chain from it has one cell and not 9, it does not end at cell `(0,0)`, and
its `localScore` is not `8.0`. -/
theorem C5_goal_not_reached :
    ∃ r, (Grid.ctor 5 5).bind (fun g => g.RunAStar 0 0 4 4) = .ok r ∧
      r.flatIndex 4 4 = 24 ∧ r.chainFrom 4 4 = [24] ∧ (r.chainFrom 4 4).length ≠ 9 ∧
      (r.chainFrom 4 4).getLast? ≠ some 0 ∧ (r.resultAt 24).map Prod.fst = some none ∧
      (r.resultAt 24).map Prod.snd ≠ some (8 * one) :=
  exists_ok_of_decide (by decide!)

/-- C5 (as the code has it): `Grid(5,5)` makes cell `(4,4)` an obstacle with an
empty adjacency set, and `RunAStar(0,0,4,4)` leaves it unreached: its `mParent`
is null, the chain from it is the single cell `(4,4)`, and its `localScore` is
still the initial `99999999` (as a `float`, `1e8`). -/
theorem C5_scenarioA :
    ∃ g r, Grid.ctor 5 5 = .ok g ∧ g.markAt 24 = some (true, 1) ∧ g.adjAt 24 = some [] ∧
      g.RunAStar 0 0 4 4 = .ok r ∧ r.flatIndex 4 4 = 24 ∧ r.chainFrom 4 4 = [24] ∧
      r.resultAt 24 = some (none, 100000000 * one) :=
  have h : ∃ r, (Grid.build 5 5).RunAStar 0 0 4 4 = .ok r ∧
      r.flatIndex 4 4 = 24 ∧ r.chainFrom 4 4 = [24] ∧
      r.resultAt 24 = some (none, 100000000 * one) := exists_ok_of_decide (by decide!)
  let ⟨r, h1, h2⟩ := h
  ⟨Grid.build 5 5, r, rfl, by decide!, by decide!, h1, h2⟩

/-- C6 (counterexample): in scenario B the search finds the goal cell `(4,0)`
(flat index 4) with `localScore` `12.0`, not `8.0`. -/
theorem C6_cost_is_not_8 :
    ∃ r, scenarioB = .ok r ∧ r.flatIndex 4 0 = 4 ∧
      (r.resultAt 4).map Prod.snd = some (12 * one) ∧
      (r.resultAt 4).map Prod.snd ≠ some (8 * one) :=
  exists_ok_of_decide (by decide!)

/-- C6 (as the code has it): in scenario B `RunAStar(0,0,4,0)` finds the goal:
the `mParent` chain from cell `(4,0)` has 13 cells, passes through cell `(2,4)`
(flat index 22), ends at cell `(0,0)`, and the `localScore` of cell `(4,0)` is
`12.0`. -/
theorem C6_scenarioB :
    ∃ r, scenarioB = .ok r ∧ r.flatIndex 4 0 = 4 ∧ r.flatIndex 2 4 = 22 ∧ r.flatIndex 0 0 = 0 ∧
      r.chainFrom 4 0 = [4, 3, 8, 13, 18, 23, 22, 21, 16, 11, 6, 1, 0] ∧
      22 ∈ r.chainFrom 4 0 ∧ (r.chainFrom 4 0).getLast? = some 0 ∧
      (r.chainFrom 4 0).length = 13 ∧ r.resultAt 4 = some (some 3, 12 * one) :=
  exists_ok_of_decide (by decide!)

/-! ### The constructor and the shape of reachable grids -/

theorem foldl_range_inv {α : Type} (f : α → Nat → α) (P : Nat → α → Prop) (n : Nat) (init : α)
    (h0 : P 0 init) (hstep : ∀ k a, k < n → P k a → P (k + 1) (f a k)) :
    P n ((List.range n).foldl f init) := by
  induction n with
  | zero => simpa using h0
  | succ m ih =>
    rw [List.range_succ, List.foldl_append]
    simp only [List.foldl_cons, List.foldl_nil]
    exact hstep m _ (Nat.lt_succ_self m)
      (ih (fun k a hk hp => hstep k a (Nat.lt_succ_of_lt hk) hp))

theorem foldl_preserves {α β : Type} (f : α → β → α) (P : α → Prop) (l : List β) (init : α)
    (h0 : P init) (hstep : ∀ a b, P a → P (f a b)) : P (l.foldl f init) := by
  induction l generalizing init with
  | nil => exact h0
  | cons b l ih => exact ih _ (hstep _ _ h0)

theorem mem_setInsert {a b : Nat} {l : List Nat} : b ∈ setInsert a l ↔ b = a ∨ b ∈ l := by
  induction l with
  | nil => simp [setInsert]
  | cons c l ih =>
    unfold setInsert
    split
    · simp
    · split
      · rename_i h1 h2
        subst h2
        simp
      · simp only [List.mem_cons, ih]
        tauto

theorem emplaceAll_succ (w h : Nat) :
    emplaceAll w (h + 1) = emplaceAll w h ++ (List.range w).map (fun (i : Nat) => Node.ctor (i : Int) (h : Int)) := by
  unfold emplaceAll
  rw [List.range_succ, List.flatMap_append]
  simp only [List.flatMap_cons, List.flatMap_nil, List.append_nil]

theorem emplaceAll_length (w h : Nat) : (emplaceAll w h).length = w * h := by
  induction h with
  | zero => simp [emplaceAll]
  | succ h ih =>
    rw [emplaceAll_succ, List.length_append, ih, List.length_map, List.length_range, Nat.mul_succ]

theorem emplaceAll_getElem? (w h i : Nat) (hi : i < w * h) :
    (emplaceAll w h)[i]? = some (Node.ctor ((i % w : Nat) : Int) ((i / w : Nat) : Int)) := by
  induction h with
  | zero => simp at hi
  | succ h ih =>
    rw [emplaceAll_succ]
    by_cases hlt : i < w * h
    · rw [List.getElem?_append_left (by rw [emplaceAll_length]; exact hlt)]
      exact ih hlt
    · have hge : w * h ≤ i := Nat.le_of_not_lt hlt
      rw [List.getElem?_append_right (by rw [emplaceAll_length]; exact hge), emplaceAll_length]
      have hr : i - w * h < w := by
        rw [Nat.mul_succ] at hi; omega
      have hw : 0 < w := by omega
      have e1 : i % w = i - w * h := by
        have : i = (i - w * h) + w * h := by omega
        conv_lhs => rw [this]
        rw [Nat.add_mul_mod_self_left, Nat.mod_eq_of_lt hr]
      have e2 : i / w = h := by
        have : i = (i - w * h) + w * h := by omega
        conv_lhs => rw [this]
        rw [Nat.add_mul_div_left _ _ hw, Nat.div_eq_of_lt hr, Nat.zero_add]
      rw [List.getElem?_map, List.getElem?_range hr, e1, e2]
      rfl

theorem free_congr {nodes nodes' : List Node}
    (h : ∀ i : Nat, (nodes'[i]?).map Node.noAdj = (nodes[i]?).map Node.noAdj) (j : Nat) :
    Free nodes' j ↔ Free nodes j := by
  have key : ∀ (l1 l2 : List Node),
      (∀ i : Nat, (l1[i]?).map Node.noAdj = (l2[i]?).map Node.noAdj) → Free l1 j → Free l2 j := by
    intro l1 l2 h12 ⟨m, hm, hf⟩
    have := h12 j
    rw [hm] at this
    cases h2 : l2[j]? with
    | none => rw [h2] at this; cases this
    | some m2 =>
      rw [h2] at this
      simp only [Option.map_some', Option.some.injEq] at this
      refine ⟨m2, h2, ?_⟩
      have := congrArg Node.mIsObstacle this
      simp only [Node.noAdj] at this
      rw [← this]; exact hf
  exact ⟨key _ _ h, key _ _ (fun i => (h i).symm)⟩

theorem adjAdded_noAdj {nodes nodes' : List Node} {k : Nat} {S : Nat → Prop}
    (h : AdjAdded nodes nodes' k S) (i : Nat) :
    (nodes'[i]?).map Node.noAdj = (nodes[i]?).map Node.noAdj := by
  obtain ⟨_, h2, a, a', ha, ha', hn, _⟩ := h
  by_cases hik : i = k
  · subst hik; rw [ha, ha']; simp [hn]
  · rw [h2 i hik]

theorem adjAdded_refl {nodes : List Node} {k : Nat} {a : Node} (ha : nodes[k]? = some a) :
    AdjAdded nodes nodes k (fun _ => False) :=
  ⟨rfl, fun _ _ => rfl, a, a, ha, ha, rfl, fun t => by simp⟩

theorem adjAdded_trans {n1 n2 n3 : List Node} {k : Nat} {S S' : Nat → Prop}
    (h12 : AdjAdded n1 n2 k S) (h23 : AdjAdded n2 n3 k S') :
    AdjAdded n1 n3 k (fun t => S t ∨ S' t) := by
  obtain ⟨l1, o1, a, a', ha, ha', hn, hm⟩ := h12
  obtain ⟨l2, o2, b, b', hb, hb', hn2, hm2⟩ := h23
  rw [ha'] at hb
  cases hb
  refine ⟨l2.trans l1, fun m hmk => (o2 m hmk).trans (o1 m hmk), a, b', ha, hb', hn2.trans hn, ?_⟩
  intro t
  rw [hm2, hm]
  tauto

theorem adjAdded_mono {n1 n2 : List Node} {k : Nat} {S S' : Nat → Prop}
    (h : AdjAdded n1 n2 k S) (hs : ∀ t, S t ↔ S' t) : AdjAdded n1 n2 k S' := by
  obtain ⟨l1, o1, a, a', ha, ha', hn, hm⟩ := h
  exact ⟨l1, o1, a, a', ha, ha', hn, fun t => by rw [hm, hs]⟩

theorem addNeighborAt_adjAdded {nodes : List Node} {i j : Nat} {a b : Node}
    (hi : nodes[i]? = some a) (hj : nodes[j]? = some b) :
    AdjAdded nodes (addNeighborAt nodes i j) i
      (fun t => t = j ∧ a.mIsObstacle = false ∧ Free nodes j) := by
  have hlt : i < nodes.length := (List.getElem?_eq_some_iff.mp hi).1
  unfold addNeighborAt
  simp only [hi, hj]
  refine ⟨by simp, fun m hm => List.getElem?_set_ne (Ne.symm hm), a, _, hi,
    List.getElem?_set_self hlt, ?_, ?_⟩
  · unfold Node.AddNeighbor
    split
    · rfl
    · split <;> rfl
  · intro t
    have hfree : Free nodes j ↔ b.mIsObstacle = false := by
      constructor
      · rintro ⟨m, hm, hf⟩
        rw [hj] at hm; cases hm; exact hf
      · intro hf; exact ⟨b, hj, hf⟩
    rw [hfree]
    unfold Node.AddNeighbor
    by_cases ho : a.mIsObstacle = true
    · simp [ho]
    · have ho' : a.mIsObstacle = false := by simpa using ho
      by_cases hb : b.mIsObstacle = false
      · simp [ho', hb, mem_setInsert]
        tauto
      · simp [ho', hb]

theorem step_linkCell {w h x y : Nat} (hx : x < w) (hy : y < h) (t : Nat) :
    Step w h (y * w + x) t ↔
      ((x : Int) - 1 > -1 ∧ t = y * w + (x - 1)) ∨ (x + 1 ≤ w - 1 ∧ t = y * w + (x + 1)) ∨
        ((y : Int) - 1 > -1 ∧ t = (y - 1) * w + x) ∨ (y + 1 ≤ h - 1 ∧ t = (y + 1) * w + x) := by
  have hmod : (y * w + x) % w = x := by
    rw [Nat.add_comm, Nat.add_mul_mod_self_right, Nat.mod_eq_of_lt hx]
  have e1 : (y + 1) * w = y * w + w := Nat.succ_mul y w
  have e7 : w * h = h * w := Nat.mul_comm w h
  have c1 : (1 ≤ x ∧ t + 1 = y * w + x) ↔ ((x : Int) - 1 > -1 ∧ t = y * w + (x - 1)) := by
    constructor <;> intro hh <;> omega
  have c2 : (x + 1 < w ∧ t = y * w + x + 1) ↔ (x + 1 ≤ w - 1 ∧ t = y * w + (x + 1)) := by
    constructor <;> intro hh <;> omega
  have c3 : (w ≤ y * w + x ∧ t + w = y * w + x) ↔ ((y : Int) - 1 > -1 ∧ t = (y - 1) * w + x) := by
    by_cases h0 : y = 0
    · subst h0
      simp only [Nat.zero_mul, Nat.zero_add]
      constructor <;> intro hh <;> omega
    · have hy1 : 1 ≤ y := Nat.one_le_iff_ne_zero.mpr h0
      have e2 : (y - 1) * w + w = y * w := by
        rw [← Nat.succ_mul]
        congr 1
        omega
      have e4 : w ≤ y * w := Nat.le_mul_of_pos_left w hy1
      constructor <;> intro hh <;> omega
  have c4 : (y * w + x + w < w * h ∧ t = y * w + x + w) ↔
      (y + 1 ≤ h - 1 ∧ t = (y + 1) * w + x) := by
    rw [e7]
    by_cases h1 : y + 1 < h
    · have e6 : (y + 1) * w + w ≤ h * w := by
        rw [← Nat.succ_mul]
        exact Nat.mul_le_mul_right w h1
      constructor <;> intro hh <;> omega
    · have e8 : h * w = (y + 1) * w := by
        have : h = y + 1 := by omega
        rw [this]
      constructor <;> intro hh <;> omega
  unfold Step
  rw [hmod, c1, c2, c3, c4]

theorem cond_adjAdded {nodes : List Node} {k j : Nat} {a : Node} (c : Prop) [Decidable c]
    (hk : nodes[k]? = some a) (hj : c → j < nodes.length) :
    AdjAdded nodes (if c then addNeighborAt nodes k j else nodes) k
      (fun t => c ∧ t = j ∧ Free nodes k ∧ Free nodes j) := by
  by_cases hc : c
  · rw [if_pos hc]
    obtain ⟨b, hb⟩ : ∃ b, nodes[j]? = some b := ⟨_, List.getElem?_eq_getElem (hj hc)⟩
    refine adjAdded_mono (addNeighborAt_adjAdded hk hb) (fun t => ?_)
    have : Free nodes k ↔ a.mIsObstacle = false := by
      constructor
      · rintro ⟨m, hm, hf⟩
        rw [hk] at hm; cases hm; exact hf
      · intro hf; exact ⟨a, hk, hf⟩
    rw [this]
    simp [hc]
  · rw [if_neg hc]
    exact adjAdded_mono (adjAdded_refl hk) (fun t => by simp [hc])

theorem adjAdded_get {n1 n2 : List Node} {k : Nat} {S : Nat → Prop} (h : AdjAdded n1 n2 k S) :
    ∃ a', n2[k]? = some a' := by
  obtain ⟨_, _, a, a', _, ha', _, _⟩ := h
  exact ⟨a', ha'⟩

theorem linkCell_adjAdded {w h x y : Nat} {nodes : List Node} (hlen : nodes.length = w * h)
    (hx : x < w) (hy : y < h) :
    AdjAdded nodes (linkCell w h nodes x y) (y * w + x)
      (fun t => Free nodes (y * w + x) ∧ Step w h (y * w + x) t ∧ Free nodes t) := by
  have e5 : (y + 1) * w ≤ h * w := Nat.mul_le_mul_right w hy
  have e1 : (y + 1) * w = y * w + w := Nat.succ_mul y w
  have e7 : w * h = h * w := Nat.mul_comm w h
  have hk : y * w + x < nodes.length := by omega
  obtain ⟨a, ha⟩ : ∃ a, nodes[y * w + x]? = some a := ⟨_, List.getElem?_eq_getElem hk⟩
  have s1 := cond_adjAdded (j := y * w + (x - 1)) ((x : Int) - 1 > -1) ha (fun _ => by omega)
  obtain ⟨a1, ha1⟩ := adjAdded_get s1
  have s2 := cond_adjAdded (j := y * w + (x + 1)) (x + 1 ≤ w - 1) ha1
    (fun hc => by rw [s1.1]; omega)
  obtain ⟨a2, ha2⟩ := adjAdded_get s2
  have s3 := cond_adjAdded (j := (y - 1) * w + x) ((y : Int) - 1 > -1) ha2
    (fun hc => by
      rw [s2.1, s1.1]
      have : (y - 1) * w ≤ y * w := Nat.mul_le_mul_right w (Nat.sub_le y 1)
      omega)
  obtain ⟨a3, ha3⟩ := adjAdded_get s3
  have s4 := cond_adjAdded (j := (y + 1) * w + x) (y + 1 ≤ h - 1) ha3
    (fun hc => by
      rw [s3.1, s2.1, s1.1]
      have : (y + 1 + 1) * w ≤ h * w := Nat.mul_le_mul_right w (by omega)
      have : (y + 1 + 1) * w = (y + 1) * w + w := Nat.succ_mul (y + 1) w
      omega)
  have f1 := free_congr (adjAdded_noAdj s1)
  have f2 := free_congr (adjAdded_noAdj s2)
  have f3 := free_congr (adjAdded_noAdj s3)
  have all := adjAdded_trans (adjAdded_trans (adjAdded_trans s1 s2) s3) s4
  unfold linkCell
  refine adjAdded_mono all (fun t => ?_)
  simp only [f3, f2, f1]
  rw [step_linkCell hx hy]
  constructor
  · rintro (((h1 | h1) | h1) | h1)
    · exact ⟨h1.2.2.1, Or.inl ⟨h1.1, h1.2.1⟩, h1.2.1 ▸ h1.2.2.2⟩
    · exact ⟨h1.2.2.1, Or.inr (Or.inl ⟨h1.1, h1.2.1⟩), h1.2.1 ▸ h1.2.2.2⟩
    · exact ⟨h1.2.2.1, Or.inr (Or.inr (Or.inl ⟨h1.1, h1.2.1⟩)), h1.2.1 ▸ h1.2.2.2⟩
    · exact ⟨h1.2.2.1, Or.inr (Or.inr (Or.inr ⟨h1.1, h1.2.1⟩)), h1.2.1 ▸ h1.2.2.2⟩
  · rintro ⟨hf, (h1 | h1 | h1 | h1), ht⟩
    · exact Or.inl (Or.inl (Or.inl ⟨h1.1, h1.2, hf, h1.2 ▸ ht⟩))
    · exact Or.inl (Or.inl (Or.inr ⟨h1.1, h1.2, hf, h1.2 ▸ ht⟩))
    · exact Or.inl (Or.inr ⟨h1.1, h1.2, hf, h1.2 ▸ ht⟩)
    · exact Or.inr ⟨h1.1, h1.2, hf, h1.2 ▸ ht⟩

theorem free_iff_of_get {nodes : List Node} {k : Nat} {a : Node} (ha : nodes[k]? = some a) :
    Free nodes k ↔ a.mIsObstacle = false := by
  constructor
  · rintro ⟨m, hm, hf⟩
    rw [ha] at hm; cases hm; exact hf
  · intro hf; exact ⟨a, ha, hf⟩

theorem linkInv_step {w h x y : Nat} {start nodes : List Node} (hx : x < w) (hy : y < h)
    (inv : LinkInv w h start (y * w + x) nodes) :
    LinkInv w h start (y * w + x + 1) (linkCell w h nodes x y) := by
  obtain ⟨hlen, hframe, hadj⟩ := inv
  have A := linkCell_adjAdded hlen hx hy
  have hfree := free_congr (adjAdded_noAdj A)
  obtain ⟨l1, o1, a, a', ha, ha', hn, hm⟩ := A
  refine ⟨l1.trans hlen, fun i => ?_, ?_⟩
  · rw [← hframe i]
    by_cases hik : i = y * w + x
    · subst hik; rw [ha, ha']; simp [hn]
    · rw [o1 i hik]
  · intro i j n hin
    rw [hfree]
    by_cases hik : i = y * w + x
    · subst hik
      rw [ha'] at hin
      cases hin
      have hobs : a'.mIsObstacle = a.mIsObstacle := by
        have := congrArg Node.mIsObstacle hn
        simpa [Node.noAdj] using this
      rw [hm, hadj _ j a ha, free_iff_of_get ha, hobs]
      constructor
      · rintro (h1 | h1)
        · omega
        · exact ⟨Nat.lt_succ_self _, h1.2.1, h1.1, h1.2.2⟩
      · rintro ⟨_, h2, h3, h4⟩
        exact Or.inr ⟨h3, h2, h4⟩
    · rw [o1 i hik] at hin
      rw [hadj i j n hin]
      constructor
      · rintro ⟨h1, h2⟩
        exact ⟨Nat.lt_succ_of_lt h1, h2⟩
      · rintro ⟨h1, h2⟩
        exact ⟨by omega, h2⟩

theorem linkAll_linkInv {w h : Nat} {start : List Node}
    (inv : LinkInv w h start 0 start) : LinkInv w h start (w * h) (linkAll w h start) := by
  unfold linkAll
  have outer := foldl_range_inv
    (fun acc y => (List.range w).foldl (fun acc2 x => linkCell w h acc2 x y) acc)
    (fun y a => LinkInv w h start (y * w) a) h start (by simpa using inv)
    (fun y a hy hp => by
      have inner := foldl_range_inv (fun acc2 x => linkCell w h acc2 x y)
        (fun x a => LinkInv w h start (y * w + x) a) w a (by simpa using hp)
        (fun x b hx hq => linkInv_step hx hy hq)
      simpa [Nat.succ_mul] using inner)
  simpa [Nat.mul_comm] using outer

theorem succ_mod_of_lt {j w : Nat} (h : j % w + 1 < w) : (j + 1) % w = j % w + 1 := by
  have := Nat.div_add_mod j w
  have e : j + 1 = j % w + 1 + w * (j / w) := by omega
  rw [e, Nat.add_mul_mod_self_left, Nat.mod_eq_of_lt h]

theorem succ_mod_of_eq {j w : Nat} (h : j % w + 1 = w) : (j + 1) % w = 0 := by
  have := Nat.div_add_mod j w
  have e : j + 1 = w * (j / w + 1) := by rw [Nat.mul_succ]; omega
  rw [e, Nat.mul_mod_right]

theorem step_symm {w h i j : Nat} (hi : i < w * h) (hs : Step w h i j) : Step w h j i := by
  have hw : 0 < w := by
    rcases Nat.eq_zero_or_pos w with h0 | h0
    · subst h0; simp at hi
    · exact h0
  have hjw : j % w < w := Nat.mod_lt _ hw
  rcases hs with ⟨h1, h2⟩ | ⟨h1, h2⟩ | ⟨h1, h2⟩ | ⟨h1, h2⟩
  · right; left
    subst h2
    refine ⟨?_, rfl⟩
    by_contra hc
    have : j % w + 1 = w := by omega
    rw [succ_mod_of_eq this] at h1
    omega
  · left
    subst h2
    rw [succ_mod_of_lt h1]
    exact ⟨by omega, rfl⟩
  · right; right; right
    exact ⟨by omega, by omega⟩
  · right; right; left
    exact ⟨by omega, by omega⟩

theorem step_lt {w h i j : Nat} (hi : i < w * h) (hs : Step w h i j) : j < w * h := by
  rcases hs with ⟨h1, h2⟩ | ⟨h1, h2⟩ | ⟨h1, h2⟩ | ⟨h1, h2⟩
  · omega
  · subst h2
    have h3 := Nat.div_add_mod i w
    have hq : i / w < h := Nat.div_lt_of_lt_mul hi
    have : w * (i / w + 1) ≤ w * h := Nat.mul_le_mul_left w hq
    rw [Nat.mul_succ] at this
    omega
  · omega
  · omega

theorem step_ne {w h i j : Nat} (hi : i < w * h) (hs : Step w h i j) : i ≠ j := by
  have hw : 0 < w := by
    rcases Nat.eq_zero_or_pos w with h0 | h0
    · subst h0; simp at hi
    · exact h0
  rcases hs with ⟨h1, h2⟩ | ⟨h1, h2⟩ | ⟨h1, h2⟩ | ⟨h1, h2⟩ <;> omega

theorem markObstacles_spec (w h : Nat) :
    (markObstacles w h (emplaceAll w h)).length = w * h ∧
      ∀ (i : Nat) (n : Node), (markObstacles w h (emplaceAll w h))[i]? = some n →
        n.x = ((i % w : Nat) : Int) ∧ n.y = ((i / w : Nat) : Int) ∧ n.mAdjacentNeighbors = [] := by
  unfold markObstacles
  refine foldl_preserves _ (fun (nodes : List Node) => nodes.length = w * h ∧
      ∀ (i : Nat) (n : Node), nodes[i]? = some n →
        n.x = ((i % w : Nat) : Int) ∧ n.y = ((i / w : Nat) : Int) ∧ n.mAdjacentNeighbors = [])
      _ _ ?_ ?_
  · refine ⟨emplaceAll_length w h, fun i n hin => ?_⟩
    have hi : i < w * h := by
      rw [← emplaceAll_length w h]; exact (List.getElem?_eq_some_iff.mp hin).1
    rw [emplaceAll_getElem? w h i hi] at hin
    cases hin
    exact ⟨rfl, rfl, rfl⟩
  · intro a b ha
    refine foldl_preserves _ (fun (nodes : List Node) => nodes.length = w * h ∧
      ∀ (i : Nat) (n : Node), nodes[i]? = some n →
        n.x = ((i % w : Nat) : Int) ∧ n.y = ((i / w : Nat) : Int) ∧ n.mAdjacentNeighbors = [])
      _ _ ha ?_
    intro a2 b2 ⟨h1, h2⟩
    refine ⟨by rw [setCellAt_length]; exact h1, fun i n hin => ?_⟩
    rw [setCellAt_getElem?] at hin
    cases hm : a2[i]? with
    | none => rw [hm] at hin; cases hin
    | some m =>
      rw [hm] at hin
      simp only [Option.map_some', Option.some.injEq] at hin
      obtain ⟨e1, e2, e3⟩ := h2 i m hm
      subst hin
      split <;> exact ⟨e1, e2, e3⟩

theorem adj_iff {nodes : List Node} {i j : Nat} {n : Node} (hn : nodes[i]? = some n) :
    Adj nodes i j ↔ j ∈ n.mAdjacentNeighbors := by
  constructor
  · rintro ⟨m, hm, hj⟩
    rw [hn] at hm; cases hm; exact hj
  · intro hj; exact ⟨n, hn, hj⟩

theorem gridInv_build (w h : Nat) : GridInv w h (Grid.build w h) := by
  obtain ⟨slen, sspec⟩ := markObstacles_spec w h
  have inv0 : LinkInv w h (markObstacles w h (emplaceAll w h)) 0
      (markObstacles w h (emplaceAll w h)) := by
    refine ⟨slen, fun _ => rfl, fun i j n hin => ?_⟩
    rw [(sspec i n hin).2.2]
    simp
  obtain ⟨flen, fframe, fadj⟩ := linkAll_linkInv inv0
  have hlt : ∀ {i : Nat} {n : Node},
      (linkAll w h (markObstacles w h (emplaceAll w h)))[i]? = some n → i < w * h := by
    intro i n hin
    rw [← flen]; exact (List.getElem?_eq_some_iff.mp hin).1
  refine ⟨rfl, rfl, flen, ?_, ?_, ?_, ?_⟩
  · intro i n hin
    have := fframe i
    simp only [Grid.build] at hin
    rw [hin] at this
    cases hs : (markObstacles w h (emplaceAll w h))[i]? with
    | none => rw [hs] at this; cases this
    | some s =>
      rw [hs] at this
      simp only [Option.map_some', Option.some.injEq] at this
      obtain ⟨e1, e2, _⟩ := sspec i s hs
      have hx := congrArg Node.x this
      have hy := congrArg Node.y this
      simp only [Node.noAdj] at hx hy
      exact ⟨hx.trans e1, hy.trans e2⟩
  · rintro i j ⟨n, hin, hj⟩
    simp only [Grid.build] at hin
    obtain ⟨h1, h2, _, _⟩ := (fadj i j n hin).mp hj
    exact ⟨step_lt h1 h2, h2⟩
  · rintro i j ⟨n, hin, hj⟩
    simp only [Grid.build] at hin ⊢
    obtain ⟨h1, h2, h3, m, hm, hmf⟩ := (fadj i j n hin).mp hj
    refine ⟨m, hm, (fadj j i m hm).mpr ⟨step_lt h1 h2, step_symm h1 h2, hmf, n, hin, h3⟩⟩
  · intro i n hin hobs
    simp only [Grid.build] at hin
    apply List.eq_nil_iff_forall_not_mem.mpr
    intro j hj
    obtain ⟨_, _, h3, _⟩ := (fadj i j n hin).mp hj
    rw [hobs] at h3
    cases h3

/-! ### What the search leaves alone -/

theorem agree_refl (f : Node → Node) (nodes : List Node) : Agree f nodes nodes := fun _ => rfl

theorem agree_trans {f : Node → Node} {n1 n2 n3 : List Node} (h12 : Agree f n1 n2)
    (h23 : Agree f n2 n3) : Agree f n1 n3 := fun i => (h23 i).trans (h12 i)

theorem agree_symm {f : Node → Node} {n1 n2 : List Node} (h12 : Agree f n1 n2) :
    Agree f n2 n1 := fun i => (h12 i).symm

theorem agree_length {f : Node → Node} {n1 n2 : List Node} (h : Agree f n1 n2) :
    n2.length = n1.length := by
  have key : ∀ (a b : List Node), Agree f a b → b.length ≤ a.length := by
    intro a b hab
    by_contra hc
    have hlt : a.length < b.length := Nat.lt_of_not_le hc
    have := hab a.length
    rw [List.getElem?_eq_getElem hlt, List.getElem?_eq_none_iff.mpr (Nat.le_refl _)] at this
    cases this
  exact Nat.le_antisymm (key _ _ h) (key _ _ (agree_symm h))

theorem agree_get {f : Node → Node} {n1 n2 : List Node} (h : Agree f n1 n2) {i : Nat} {n : Node}
    (hn : n2[i]? = some n) : ∃ m, n1[i]? = some m ∧ f n = f m := by
  have := h i
  rw [hn] at this
  cases hm : n1[i]? with
  | none => rw [hm] at this; cases this
  | some m =>
    rw [hm] at this
    simp only [Option.map_some', Option.some.injEq] at this
    exact ⟨m, rfl, this⟩

theorem agree_set {f : Node → Node} {nodes : List Node} {i : Nat} {n n' : Node}
    (h : nodes[i]? = some n) (hf : f n' = f n) : Agree f nodes (nodes.set i n') := by
  intro j
  have hlt : i < nodes.length := (List.getElem?_eq_some_iff.mp h).1
  by_cases hji : j = i
  · subst hji
    rw [List.getElem?_set_self hlt, h]
    simp [hf]
  · rw [List.getElem?_set_ne (Ne.symm hji)]

theorem agree_comp {f g : Node → Node} {n1 n2 : List Node} (h : Agree f n1 n2)
    (hg : ∀ n, g (f n) = g n) : Agree g n1 n2 := by
  intro i
  have := congrArg (Option.map g) (h i)
  simpa [Option.map_map, Function.comp_def, hg] using this

theorem topo_shape (n : Node) : Node.topo (Node.shape n) = Node.topo n := rfl

/-- The node written by a successful relaxation of `neighbor` from `curr`. -/
theorem relax_cases {goal : Node} {curr neighbor : Nat} {st st' : Search}
    (h : relax goal curr st neighbor = .ok st') :
    ∃ nb c, st.nodes[neighbor]? = some nb ∧ st.nodes[curr]? = some c ∧
      ((st' = st ∧ (setFind st.nodes st.closedList nb = true ∨
          ¬ fadd c.localScore (Heuristic c nb) < nb.localScore)) ∨
       (setFind st.nodes st.closedList nb = false ∧
        fadd c.localScore (Heuristic c nb) < nb.localScore ∧
        st'.nodes = st.nodes.set neighbor (relaxedNode goal curr c nb) ∧
        st'.closedList = st.closedList ∧
        ((setFind st.nodes st.openSet nb = false ∧
            st'.openSet = setAdd st.nodes st.openSet neighbor nb ∧
            st'.openList = st.openList.push neighbor (relaxedNode goal curr c nb).globalScore) ∨
         (setFind st.nodes st.openSet nb = true ∧ st'.openSet = st.openSet ∧
            st.openList.decrease_key neighbor (relaxedNode goal curr c nb).globalScore =
              .ok st'.openList)))) := by
  unfold relax at h
  split at h
  · rename_i nb c hnb hc
    rw [nodeAt_ok_iff] at hnb hc
    refine ⟨nb, c, hnb, hc, ?_⟩
    by_cases hcl : setFind st.nodes st.closedList nb = true
    · rw [if_pos hcl] at h
      cases h
      exact Or.inl ⟨rfl, Or.inl hcl⟩
    · rw [if_neg hcl] at h
      dsimp only at h
      by_cases hlt : fadd c.localScore (Heuristic c nb) < nb.localScore
      · rw [if_pos hlt] at h
        right
        refine ⟨by simpa using hcl, hlt, ?_⟩
        by_cases hop : setFind st.nodes st.openSet nb = false
        · rw [if_pos hop] at h
          cases h
          exact ⟨rfl, rfl, Or.inl ⟨hop, rfl, rfl⟩⟩
        · rw [if_neg hop] at h
          split at h
          · rename_i q hq
            cases h
            exact ⟨rfl, rfl, Or.inr ⟨by simpa using hop, rfl, hq⟩⟩
          · cases h
      · rw [if_neg hlt] at h
        cases h
        exact Or.inl ⟨rfl, Or.inr hlt⟩
  · cases h

theorem relaxedNode_shape (goal : Node) (curr : Nat) (c nb : Node) :
    (relaxedNode goal curr c nb).shape = nb.shape := rfl

theorem relax_shape {goal : Node} {curr neighbor : Nat} {st st' : Search}
    (h : relax goal curr st neighbor = .ok st') : Agree Node.shape st.nodes st'.nodes := by
  obtain ⟨nb, c, hnb, hc, h1 | h1⟩ := relax_cases h
  · rw [h1.1]; exact agree_refl _ _
  · rw [h1.2.2.1]
    exact agree_set hnb (relaxedNode_shape _ _ _ _)

theorem relaxAll_cons {goal : Node} {curr a : Nat} {l : List Nat} {st st' : Search}
    (h : relaxAll goal curr (a :: l) st = .ok st') :
    ∃ st1, relax goal curr st a = .ok st1 ∧ relaxAll goal curr l st1 = .ok st' := by
  unfold relaxAll at h
  split at h
  · rename_i st1 h1
    exact ⟨st1, h1, h⟩
  · cases h

theorem relaxAll_shape {goal : Node} {curr : Nat} :
    ∀ (l : List Nat) (st st' : Search), relaxAll goal curr l st = .ok st' →
      Agree Node.shape st.nodes st'.nodes := by
  intro l
  induction l with
  | nil =>
    intro st st' h
    simp only [relaxAll, Except.ok.injEq] at h
    subst h
    exact agree_refl _ _
  | cons a l ih =>
    intro st st' h
    obtain ⟨st1, h1, h2⟩ := relaxAll_cons h
    exact agree_trans (relax_shape h1) (ih _ _ h2)

/-- One iteration of the `while` loop. -/
theorem searchLoop_succ {goal : Node} {fuel : Nat} {st st' : Search}
    (h : searchLoop goal (fuel + 1) st = .ok st') :
    (st.openList.empty = true ∧ st' = st) ∨
    (st.openList.empty = false ∧ ∃ curr q c, st.openList.top = .ok curr ∧
      st.openList.pop = .ok q ∧ st.nodes[curr]? = some c ∧
      ((c.equal goal = true ∧ st' = popped st q curr c) ∨
       (c.equal goal = false ∧ ∃ st2,
          relaxAll goal curr c.mAdjacentNeighbors (popped st q curr c) = .ok st2 ∧
          searchLoop goal fuel st2 = .ok st'))) := by
  unfold searchLoop at h
  by_cases he : st.openList.empty = true
  · rw [if_pos he] at h
    cases h
    exact Or.inl ⟨he, rfl⟩
  · rw [if_neg he] at h
    right
    refine ⟨by simpa using he, ?_⟩
    split at h
    · rename_i curr q hcurr hq
      split at h
      · rename_i c hc
        rw [nodeAt_ok_iff] at hc
        refine ⟨curr, q, c, hcurr, hq, hc, ?_⟩
        dsimp only at h
        by_cases hg : c.equal goal = true
        · rw [if_pos hg] at h
          cases h
          exact Or.inl ⟨hg, rfl⟩
        · rw [if_neg hg] at h
          split at h
          · rename_i st2 h2
            exact Or.inr ⟨by simpa using hg, st2, h2, h⟩
          · cases h
      · cases h
    · cases h

theorem searchLoop_zero {goal : Node} {st st' : Search}
    (h : searchLoop goal 0 st = .ok st') : st.openList.empty = true ∧ st' = st := by
  unfold searchLoop at h
  split at h
  · rename_i he
    cases h
    exact ⟨he, rfl⟩
  · cases h

theorem searchLoop_shape {goal : Node} :
    ∀ (fuel : Nat) (st st' : Search), searchLoop goal fuel st = .ok st' →
      Agree Node.shape st.nodes st'.nodes := by
  intro fuel
  induction fuel with
  | zero =>
    intro st st' h
    rw [(searchLoop_zero h).2]
    exact agree_refl _ _
  | succ fuel ih =>
    intro st st' h
    rcases searchLoop_succ h with ⟨_, h1⟩ | ⟨_, curr, q, c, _, _, _, h1 | h1⟩
    · rw [h1]; exact agree_refl _ _
    · rw [h1.2]; exact agree_refl _ _
    · obtain ⟨_, st2, h2, h3⟩ := h1
      have h4 : Agree Node.shape st.nodes st2.nodes :=
        relaxAll_shape _ (popped st q curr c) _ h2
      exact agree_trans h4 (ih _ _ h3)

theorem reIntializeNodes_shape (g : Grid) :
    Agree Node.shape g.mConnectivityMatrix g.reIntializeNodes.mConnectivityMatrix := by
  intro i
  simp only [Grid.reIntializeNodes, List.getElem?_map, Option.map_map]
  rfl

/-- The start of a successful `RunAStar`. -/
theorem search_cases {g : Grid} {sx sy gx gy : Int} {st : Search}
    (h : g.search sx sy gx gy = .ok st) :
    ∃ start end_ s e, g.reIntializeNodes.GetNodePointer sx sy = .ok start ∧
      g.reIntializeNodes.GetNodePointer gx gy = .ok end_ ∧
      g.reIntializeNodes.mConnectivityMatrix[start]? = some s ∧
      g.reIntializeNodes.mConnectivityMatrix[end_]? = some e ∧
      searchLoop e (g.reIntializeNodes.mConnectivityMatrix.set start (startNode s e)).length
        (initialSearch g.reIntializeNodes.mConnectivityMatrix start s e) = .ok st := by
  unfold Grid.search at h
  dsimp only at h
  split at h
  · rename_i start end_ hstart hend
    split at h
    · rename_i s e hs he
      rw [nodeAt_ok_iff] at hs he
      exact ⟨start, end_, s, e, hstart, hend, hs, he, h⟩
    · cases h
  · cases h

theorem search_shape {g : Grid} {sx sy gx gy : Int} {st : Search}
    (h : g.search sx sy gx gy = .ok st) : Agree Node.shape g.mConnectivityMatrix st.nodes := by
  obtain ⟨start, end_, s, e, _, _, hs, _, h1⟩ := search_cases h
  have h2 : Agree Node.shape (g.reIntializeNodes.mConnectivityMatrix.set start (startNode s e))
      st.nodes := searchLoop_shape _ _ _ h1
  have h3 : Agree Node.shape g.reIntializeNodes.mConnectivityMatrix
      (g.reIntializeNodes.mConnectivityMatrix.set start (startNode s e)) := agree_set hs rfl
  exact agree_trans (agree_trans (reIntializeNodes_shape g) h3) h2

theorem RunAStar_shape {g g' : Grid} {sx sy gx gy : Int} (h : g.RunAStar sx sy gx gy = .ok g') :
    g'.mXDimensions = g.mXDimensions ∧ g'.mYDimensions = g.mYDimensions ∧
      Agree Node.shape g.mConnectivityMatrix g'.mConnectivityMatrix := by
  unfold Grid.RunAStar at h
  split at h
  · rename_i st hst
    cases h
    exact ⟨rfl, rfl, search_shape hst⟩
  · cases h

/-! ### Reachable grid states -/

theorem adj_of_agree_topo {n1 n2 : List Node} (h : Agree Node.topo n1 n2) {i j : Nat}
    (ha : Adj n2 i j) : Adj n1 i j := by
  obtain ⟨n, hn, hj⟩ := ha
  obtain ⟨m, hm, e⟩ := agree_get h hn
  refine ⟨m, hm, ?_⟩
  have := congrArg Node.mAdjacentNeighbors e
  simp only [Node.topo] at this
  rw [← this]; exact hj

theorem gridInv_of_agree_topo {w h : Nat} {g g' : Grid} (inv : GridInv w h g)
    (hx : g'.mXDimensions = g.mXDimensions) (hy : g'.mYDimensions = g.mYDimensions)
    (ha : Agree Node.topo g.mConnectivityMatrix g'.mConnectivityMatrix) : GridInv w h g' := by
  refine ⟨hx.trans inv.dimX, hy.trans inv.dimY, (agree_length ha).trans inv.len, ?_, ?_, ?_, ?_⟩
  · intro i n hn
    obtain ⟨m, hm, e⟩ := agree_get ha hn
    have ex := congrArg Node.x e
    have ey := congrArg Node.y e
    simp only [Node.topo] at ex ey
    rw [ex, ey]
    exact inv.coords i m hm
  · intro i j hij
    exact inv.adj_step i j (adj_of_agree_topo ha hij)
  · intro i j hij
    exact adj_of_agree_topo (agree_symm ha) (inv.adj_symm i j (adj_of_agree_topo ha hij))
  · intro i n hn hobs
    obtain ⟨m, hm, e⟩ := agree_get ha hn
    have eo := congrArg Node.mIsObstacle e
    have ea := congrArg Node.mAdjacentNeighbors e
    simp only [Node.topo] at eo ea
    rw [ea]
    exact inv.obstacle i m hm (by rw [← eo]; exact hobs)

theorem adj_setObstacleCell {w h : Nat} {g g' : Grid} {x y : Int} (inv : GridInv w h g)
    (hs : g.setObstacleCell x y = .ok g') (i j : Nat) :
    Adj g'.mConnectivityMatrix i j ↔
      i ≠ g.flatIndex x y ∧ j ≠ g.flatIndex x y ∧ Adj g.mConnectivityMatrix i j := by
  obtain ⟨o, ho, h1, h2, hx, hy, hl, hn⟩ := setObstacleCell_ok hs
  constructor
  · rintro ⟨n', hn', hj⟩
    rw [hn i] at hn'
    cases hm : g.mConnectivityMatrix[i]? with
    | none => rw [hm] at hn'; cases hn'
    | some m =>
      rw [hm] at hn'
      simp only [Option.map_some', Option.some.injEq] at hn'
      subst hn'
      unfold obstacleNode at hj
      by_cases hip : i = g.flatIndex x y
      · rw [if_pos hip] at hj
        cases hj
      · rw [if_neg hip] at hj
        by_cases hil : i ∈ o.mAdjacentNeighbors
        · rw [if_pos hil] at hj
          obtain ⟨hj1, hj2⟩ := mem_setErase.mp hj
          exact ⟨hip, hj2, m, hm, hj1⟩
        · rw [if_neg hil] at hj
          refine ⟨hip, ?_, m, hm, hj⟩
          intro hjp
          subst hjp
          have hji : Adj g.mConnectivityMatrix (g.flatIndex x y) i :=
            inv.adj_symm i _ ⟨m, hm, hj⟩
          exact hil ((adj_iff ho).mp hji)
  · rintro ⟨hip, hjp, m, hm, hj⟩
    refine ⟨obstacleNode (g.flatIndex x y) o.mAdjacentNeighbors i m, by rw [hn i, hm]; rfl, ?_⟩
    unfold obstacleNode
    rw [if_neg hip]
    split
    · exact mem_setErase.mpr ⟨hj, hjp⟩
    · exact hj

theorem gridInv_setObstacleCell {w h : Nat} {g g' : Grid} {x y : Int} (inv : GridInv w h g)
    (hs : g.setObstacleCell x y = .ok g') : GridInv w h g' := by
  have hadj := adj_setObstacleCell inv hs
  obtain ⟨o, ho, h1, h2, hx, hy, hl, hn⟩ := setObstacleCell_ok hs
  have hget : ∀ {i : Nat} {n' : Node}, g'.mConnectivityMatrix[i]? = some n' →
      ∃ m, g.mConnectivityMatrix[i]? = some m ∧
        n' = obstacleNode (g.flatIndex x y) o.mAdjacentNeighbors i m := by
    intro i n' hn'
    rw [hn i] at hn'
    cases hm : g.mConnectivityMatrix[i]? with
    | none => rw [hm] at hn'; cases hn'
    | some m =>
      rw [hm] at hn'
      simp only [Option.map_some', Option.some.injEq] at hn'
      exact ⟨m, rfl, hn'.symm⟩
  refine ⟨hx.trans inv.dimX, hy.trans inv.dimY, hl.trans inv.len, ?_, ?_, ?_, ?_⟩
  · intro i n' hn'
    obtain ⟨m, hm, rfl⟩ := hget hn'
    have := inv.coords i m hm
    unfold obstacleNode
    split
    · exact this
    · split <;> exact this
  · intro i j hij
    exact inv.adj_step i j ((hadj i j).mp hij).2.2
  · intro i j hij
    obtain ⟨a, b, c⟩ := (hadj i j).mp hij
    exact (hadj j i).mpr ⟨b, a, inv.adj_symm i j c⟩
  · intro i n' hn' hobs
    obtain ⟨m, hm, rfl⟩ := hget hn'
    unfold obstacleNode at hobs ⊢
    by_cases hip : i = g.flatIndex x y
    · rw [if_pos hip]
    · rw [if_neg hip] at hobs ⊢
      by_cases hil : i ∈ o.mAdjacentNeighbors
      · rw [if_pos hil] at hobs ⊢
        have := inv.obstacle i m hm hobs
        simp [this, setErase]
      · rw [if_neg hil] at hobs ⊢
        exact inv.obstacle i m hm hobs

theorem SetCell_topo {g g' : Grid} {x y v : Int} (hv : v ≠ 1) (hs : g.SetCell x y v = .ok g') :
    g'.mXDimensions = g.mXDimensions ∧ g'.mYDimensions = g.mYDimensions ∧
      Agree Node.topo g.mConnectivityMatrix g'.mConnectivityMatrix := by
  unfold Grid.SetCell at hs
  split at hs
  · cases hs
    refine ⟨rfl, rfl, fun i => ?_⟩
    simp only [setCellAt_getElem?, Option.map_map]
    cases g.mConnectivityMatrix[i]? with
    | none => rfl
    | some m =>
      simp only [Option.map_some', Function.comp_apply, Option.some.injEq]
      split
      · simp [Node.topo, hv]
      · rfl
  · cases hs

theorem RunAStar_topo {g g' : Grid} {sx sy gx gy : Int} (h : g.RunAStar sx sy gx gy = .ok g') :
    g'.mXDimensions = g.mXDimensions ∧ g'.mYDimensions = g.mYDimensions ∧
      Agree Node.topo g.mConnectivityMatrix g'.mConnectivityMatrix := by
  obtain ⟨h1, h2, h3⟩ := RunAStar_shape h
  exact ⟨h1, h2, agree_comp h3 topo_shape⟩

theorem SetGoal_topo {g g' : Grid} {mx my : Int} (h : g.SetGoal mx my = .ok g') :
    g'.mXDimensions = g.mXDimensions ∧ g'.mYDimensions = g.mYDimensions ∧
      Agree Node.topo g.mConnectivityMatrix g'.mConnectivityMatrix := by
  unfold Grid.SetGoal at h
  dsimp only at h
  split at h
  · cases h
  · split at h
    · split at h
      · cases h
      · rename_i g1 hg1
        split at h
        · cases h
        · rename_i g2 hg2
          obtain ⟨a1, a2, a3⟩ := SetCell_topo (by decide) hg1
          obtain ⟨b1, b2, b3⟩ := SetCell_topo (by decide) hg2
          obtain ⟨c1, c2, c3⟩ := RunAStar_topo h
          exact ⟨c1.trans (b1.trans a1), c2.trans (b2.trans a2),
            agree_trans (agree_trans a3 b3) c3⟩
    · exact RunAStar_topo h

/-! ### The loop counters of the constructor -/

theorem intFor_one_ok {bound : Nat} :
    ∀ (fuel i : Nat) (l : List Nat), intFor 1 bound fuel i = .ok l →
      l = List.range' i (bound - i) := by
  intro fuel
  induction fuel with
  | zero => intro i l h; cases h
  | succ fuel ih =>
    intro i l h
    unfold intFor at h
    by_cases hlt : i < bound
    · rw [if_pos hlt] at h
      split at h
      · split at h
        · rename_i l' hl'
          cases h
          rw [ih _ _ hl']
          have : bound - i = (bound - (i + 1)) + 1 := by omega
          rw [this, List.range'_succ]
        · cases h
      · cases h
    · rw [if_neg hlt] at h
      cases h
      have : bound - i = 0 := by omega
      rw [this]
      rfl

theorem filter_range_four {i n : Nat} (hi : i % 4 = 0) (h4 : 4 ≤ i) (hn : 0 < n) :
    (List.range' i n).filter (fun v => decide (4 ≤ v ∧ v % 4 = 0)) =
      i :: (List.range' (i + 4) (n - 4)).filter (fun v => decide (4 ≤ v ∧ v % 4 = 0)) := by
  have h0 : decide (4 ≤ i ∧ i % 4 = 0) = true := by simp; omega
  have h1 : decide (4 ≤ i + 1 ∧ (i + 1) % 4 = 0) = false := by simp; omega
  have h2 : decide (4 ≤ i + 1 + 1 ∧ (i + 1 + 1) % 4 = 0) = false := by simp; omega
  have h3 : decide (4 ≤ i + 1 + 1 + 1 ∧ (i + 1 + 1 + 1) % 4 = 0) = false := by simp; omega
  rcases Nat.lt_or_ge n 4 with hlt | hge
  · have hz : n - 4 = 0 := by omega
    rw [hz]
    have : n = 1 ∨ n = 2 ∨ n = 3 := by omega
    rcases this with rfl | rfl | rfl <;>
      simp only [List.range', List.filter_cons, List.filter_nil, h0, h1, h2, if_true,
        Bool.false_eq_true, if_false]
  · have : n = (n - 4) + 1 + 1 + 1 + 1 := by omega
    rw [this]
    simp only [List.range', List.filter_cons, h0, h1, h2, h3, if_true, Bool.false_eq_true,
      if_false]
    have e : n - 4 + 1 + 1 + 1 + 1 - 4 = n - 4 := by omega
    rw [e]

theorem intFor_four_ok {bound : Nat} :
    ∀ (fuel i : Nat) (l : List Nat), intFor 4 bound fuel i = .ok l → i % 4 = 0 → 4 ≤ i →
      l = (List.range' i (bound - i)).filter (fun v => decide (4 ≤ v ∧ v % 4 = 0)) := by
  intro fuel
  induction fuel with
  | zero => intro i l h; cases h
  | succ fuel ih =>
    intro i l h hi h4
    unfold intFor at h
    by_cases hlt : i < bound
    · rw [if_pos hlt] at h
      split at h
      · split at h
        · rename_i l' hl'
          cases h
          rw [ih _ _ hl' (by omega) (by omega), filter_range_four hi h4 (by omega)]
          have : bound - (i + 4) = bound - i - 4 := by omega
          rw [this]
        · cases h
      · cases h
    · rw [if_neg hlt] at h
      cases h
      have : bound - i = 0 := by omega
      rw [this]
      rfl

theorem intFor_one_isOk {bound : Nat} (hb : bound ≤ intMax) :
    ∀ (fuel i : Nat), 0 < fuel → bound < i + fuel → ∃ l, intFor 1 bound fuel i = .ok l := by
  intro fuel
  induction fuel with
  | zero => intro i h; omega
  | succ fuel ih =>
    intro i _ hf
    unfold intFor
    by_cases hlt : i < bound
    · rw [if_pos hlt, if_pos (by omega)]
      obtain ⟨l, hl⟩ := ih (i + 1) (by omega) (by omega)
      rw [hl]
      exact ⟨_, rfl⟩
    · rw [if_neg hlt]
      exact ⟨_, rfl⟩

theorem intFor_four_isOk {bound : Nat} (hb : bound ≤ 2147483644) :
    ∀ (fuel i : Nat), i % 4 = 0 → 0 < fuel → bound < i + fuel →
      ∃ l, intFor 4 bound fuel i = .ok l := by
  have hm : intMax = 2147483647 := rfl
  intro fuel
  induction fuel with
  | zero => intro i _ h; omega
  | succ fuel ih =>
    intro i hi _ hf
    unfold intFor
    by_cases hlt : i < bound
    · rw [if_pos hlt, if_pos (by omega)]
      obtain ⟨l, hl⟩ := ih (i + 4) (by omega) (by omega) (by omega)
      rw [hl]
      exact ⟨_, rfl⟩
    · rw [if_neg hlt]
      exact ⟨_, rfl⟩

theorem intFor_one_overflow {bound : Nat} (hb : intMax < bound) :
    ∀ (fuel i : Nat), i ≤ intMax → intMax < i + fuel →
      intFor 1 bound fuel i = .error .overflow := by
  intro fuel
  induction fuel with
  | zero => intro i h1 h2; omega
  | succ fuel ih =>
    intro i h1 h2
    unfold intFor
    rw [if_pos (by omega)]
    by_cases hs : i + 1 ≤ intMax
    · rw [if_pos hs, ih (i + 1) hs (by omega)]
    · rw [if_neg hs]

theorem intFor_four_overflow {bound : Nat} (hb : 2147483644 < bound) :
    ∀ (fuel i : Nat), i % 4 = 0 → i ≤ 2147483644 → intMax < i + fuel →
      intFor 4 bound fuel i = .error .overflow := by
  have hm : intMax = 2147483647 := rfl
  intro fuel
  induction fuel with
  | zero => intro i _ h1 h2; omega
  | succ fuel ih =>
    intro i hi h1 h2
    unfold intFor
    rw [if_pos (by omega)]
    by_cases hs : i + 4 ≤ intMax
    · rw [if_pos hs, ih (i + 4) (by omega) (by omega) (by omega)]
    · rw [if_neg hs]

/-- The counter of `for (int i = 0; i < n; i++)` takes the values `0 .. n-1`. -/
theorem counters_one_ok {n : Nat} {l : List Nat} (h : counters 0 1 n = .ok l) :
    l = List.range n := by
  rw [List.range_eq_range']
  exact intFor_one_ok _ _ _ h

/-- The counter of `for (int i = 4; i < n; i += 4)` takes the values of `fours n`. -/
theorem counters_four_ok {n : Nat} {l : List Nat} (h : counters 4 4 n = .ok l) :
    l = fours n := by
  have := intFor_four_ok _ _ _ h (by decide) (by decide)
  rw [this]
  unfold fours
  rw [List.range_eq_range']
  rcases Nat.lt_or_ge n 4 with hlt | hge
  · have hz : n - 4 = 0 := by omega
    rw [hz]
    have : n = 0 ∨ n = 1 ∨ n = 2 ∨ n = 3 := by omega
    rcases this with rfl | rfl | rfl | rfl <;> decide
  · have e : n = (n - 4) + 1 + 1 + 1 + 1 := by omega
    conv_rhs => rw [e]
    simp only [List.range', List.filter_cons]
    simp

theorem counters_one_isOk {n : Nat} (hn : n ≤ intMax) : counters 0 1 n = .ok (List.range n) := by
  have hm : intMax = 2147483647 := rfl
  obtain ⟨l, hl⟩ := intFor_one_isOk hn (2 ^ 31) 0 (by decide) (by omega)
  have := counters_one_ok hl
  rw [← this]
  exact hl

theorem counters_four_isOk {n : Nat} (hn : n ≤ 2147483644) : counters 4 4 n = .ok (fours n) := by
  obtain ⟨l, hl⟩ := intFor_four_isOk hn (2 ^ 31) 4 (by decide) (by decide) (by omega)
  have := counters_four_ok hl
  rw [← this]
  exact hl

theorem counters_one_overflow {n : Nat} (hn : intMax < n) :
    counters 0 1 n = .error .overflow :=
  intFor_one_overflow hn (2 ^ 31) 0 (by decide) (by decide)

theorem counters_four_overflow {n : Nat} (hn : 2147483644 < n) :
    counters 4 4 n = .error .overflow :=
  intFor_four_overflow hn (2 ^ 31) 4 (by decide) (by decide) (by decide)

theorem loopNest_ok {α : Type} {outer inner : Except Fault (List Nat)}
    {body : α → Nat → Nat → α} {init r : α} {L1 L2 : List Nat}
    (h : loopNest outer inner body init = .ok r) (h1 : ∀ l, outer = .ok l → l = L1)
    (h2 : ∀ l, inner = .ok l → l = L2) :
    r = L1.foldl (fun acc o => L2.foldl (fun acc2 i => body acc2 o i) acc) init := by
  unfold loopNest at h
  cases outer with
  | error e => cases h
  | ok os =>
    have := h1 os rfl
    subst this
    simp only at h
    split at h
    · rename_i hemp
      cases h
      rw [List.isEmpty_iff.mp hemp]
      rfl
    · cases inner with
      | error e => cases h
      | ok is =>
        have := h2 is rfl
        subst this
        cases h
        rfl

theorem loopNest_isOk {α : Type} (os is : List Nat) (body : α → Nat → Nat → α) (init : α) :
    loopNest (.ok os) (.ok is) body init =
      .ok (os.foldl (fun acc o => is.foldl (fun acc2 i => body acc2 o i) acc) init) := by
  unfold loopNest
  simp only
  split
  · rename_i hemp
    rw [List.isEmpty_iff.mp hemp]
    rfl
  · rfl

theorem loopNest_empty {α : Type} (inner : Except Fault (List Nat)) (body : α → Nat → Nat → α)
    (init : α) : loopNest (.ok []) inner body init = .ok init := rfl

theorem loopNest_outer_error {α : Type} (e : Fault) (inner : Except Fault (List Nat))
    (body : α → Nat → Nat → α) (init : α) : loopNest (.error e) inner body init = .error e := rfl

theorem loopNest_inner_error {α : Type} {os : List Nat} (hne : os ≠ []) (e : Fault)
    (body : α → Nat → Nat → α) (init : α) :
    loopNest (.ok os) (.error e) body init = .error e := by
  unfold loopNest
  simp only
  rw [if_neg]
  intro hemp
  exact hne (List.isEmpty_iff.mp hemp)

theorem foldl_snoc_map {α β : Type} (f : β → α) :
    ∀ (l : List β) (acc : List α), l.foldl (fun acc2 i => acc2 ++ [f i]) acc = acc ++ l.map f := by
  intro l
  induction l with
  | nil => intro acc; simp
  | cons a l ih => intro acc; simp [ih]

theorem foldl_append_flatMap {α β : Type} (g : β → List α) :
    ∀ (l : List β) (acc : List α), l.foldl (fun acc j => acc ++ g j) acc = acc ++ l.flatMap g := by
  intro l
  induction l with
  | nil => intro acc; simp
  | cons a l ih => intro acc; simp [ih]

/-- The first loop nest of the constructor fills the vector row by row. -/
theorem emplace_fold (w h : Nat) :
    (List.range h).foldl (fun (acc : List Node) (j : Nat) => (List.range w).foldl
      (fun (acc2 : List Node) (i : Nat) => acc2 ++ [Node.ctor (i : Int) (j : Int)]) acc) [] =
      emplaceAll w h := by
  have : (fun (acc : List Node) (j : Nat) => (List.range w).foldl
      (fun (acc2 : List Node) (i : Nat) => acc2 ++ [Node.ctor (i : Int) (j : Int)]) acc) =
      (fun (acc : List Node) (j : Nat) =>
        acc ++ (List.range w).map (fun (i : Nat) => Node.ctor (i : Int) (j : Int))) := by
    funext acc j
    exact foldl_snoc_map _ _ _
  rw [this, foldl_append_flatMap]
  rfl

theorem size_of_nat {w : Nat} (hw : w < 2 ^ 31) : ((w : Int) % 2 ^ 64).toNat = w := by
  have h2 : ((w : Int) % 2 ^ 64) = (w : Int) := Int.emod_eq_of_lt (by omega) (by omega)
  rw [h2]
  exact Int.toNat_ofNat _

/-- Whenever the constructor returns, it returns the grid of the three loop
nests over the plain ranges. -/
theorem ctor_eq_build {w h : Nat} {g : Grid} (hc : Grid.ctor (w : Int) (h : Int) = .ok g) :
    g = Grid.build w h := by
  unfold Grid.ctor at hc
  split at hc
  · cases hc
  · rename_i hr
    have hw : w < 2 ^ 31 := by omega
    have hh : h < 2 ^ 31 := by omega
    simp only [size_of_nat hw, size_of_nat hh] at hc
    split at hc
    · cases hc
    · rename_i n1 hn1
      split at hc
      · cases hc
      · rename_i n2 hn2
        split at hc
        · cases hc
        · rename_i n3 hn3
          cases hc
          have e1 := loopNest_ok hn1 (fun l hl => counters_one_ok hl) (fun l hl => counters_one_ok hl)
          have e2 := loopNest_ok hn2 (fun l hl => counters_four_ok hl)
            (fun l hl => counters_four_ok hl)
          have e3 := loopNest_ok hn3 (fun l hl => counters_one_ok hl) (fun l hl => counters_one_ok hl)
          rw [emplace_fold] at e1
          subst e1
          subst e2
          subst e3
          rfl

/-- The constructor returns for dimensions up to `2147483644`. -/
theorem ctor_natCast (w h : Nat) (hw : w ≤ 2147483644) (hh : h ≤ 2147483644) :
    Grid.ctor (w : Int) (h : Int) = .ok (Grid.build w h) := by
  have hm : intMax = 2147483647 := rfl
  unfold Grid.ctor
  rw [if_neg (by omega)]
  simp only [size_of_nat (show w < 2 ^ 31 by omega), size_of_nat (show h < 2 ^ 31 by omega),
    counters_one_isOk (show w ≤ intMax by omega), counters_one_isOk (show h ≤ intMax by omega),
    counters_four_isOk hw, counters_four_isOk hh, loopNest_isOk, emplace_fold]
  rfl

theorem size_of_neg {x : Int} (h1 : -2 ^ 31 ≤ x) (h2 : x < 0) :
    2147483647 < (x % 2 ^ 64).toNat := by
  omega

theorem foldl_keep {α β : Type} (l : List β) (init : α) :
    l.foldl (fun acc _ => acc) init = init := by
  induction l with
  | nil => rfl
  | cons a l ih => exact ih

theorem range_ne_nil {n : Nat} (h : 0 < n) : List.range n ≠ [] := by
  intro hc
  have := congrArg List.length hc
  simp at this
  omega

theorem gridInv_of_reach {w h : Nat} {g : Grid} (hr : Reach Op.isEdit w h g) : GridInv w h g := by
  induction hr with
  | init hc =>
    have hb := ctor_eq_build hc
    subst hb
    exact gridInv_build w h
  | step op _ hop hstep ih =>
    cases op with
    | setObstacle mx my => exact gridInv_setObstacleCell ih hstep
    | SetGoal mx my =>
      obtain ⟨a, b, c⟩ := SetGoal_topo hstep
      exact gridInv_of_agree_topo ih a b c
    | RunAStar sx sy gx gy =>
      obtain ⟨a, b, c⟩ := RunAStar_topo hstep
      exact gridInv_of_agree_topo ih a b c
    | SetCell x y v => exact absurd hop (by simp [Op.isEdit])

theorem reach_mono {p q : Op → Prop} (hpq : ∀ op, p op → q op) {w h : Nat} {g : Grid}
    (hr : Reach p w h g) : Reach q w h g := by
  induction hr with
  | init hc => exact Reach.init hc
  | step op _ hop hstep ih => exact Reach.step op ih (hpq op hop) hstep

theorem isEdit_of_isSetObstacle (op : Op) (h : op.isSetObstacle) : op.isEdit := by
  cases op <;> simp_all [Op.isSetObstacle, Op.isEdit]

/-- C8: in every grid state reached from `Grid(w, h)` by `setObstacle`,
`SetGoal` and `RunAStar` calls, every cell whose `mIsObstacle` is set has an
empty adjacency set and is in no cell's adjacency set; in particular, right
after a `setObstacle` the cell it addressed has an empty adjacency set and no
cell's adjacency set contains it. -/
theorem C8_obstacle_has_no_adjacency (w h : Nat) (g : Grid) (hr : Reach Op.isEdit w h g) :
    (∀ (i : Nat) (n : Node), g.mConnectivityMatrix[i]? = some n → n.mIsObstacle = true →
        n.mAdjacentNeighbors = [] ∧ ∀ j, ¬ Adj g.mConnectivityMatrix j i) ∧
    (∀ (mouseX mouseY : Int) (g' : Grid), g.setObstacle mouseX mouseY = .ok g' →
        g'.adjAt (g.flatIndex (pixelToCell mouseX) (pixelToCell mouseY)) = some [] ∧
        ∀ j, ¬ Adj g'.mConnectivityMatrix j
          (g.flatIndex (pixelToCell mouseX) (pixelToCell mouseY))) := by
  have inv := gridInv_of_reach hr
  constructor
  · intro i n hn hobs
    have hnil := inv.obstacle i n hn hobs
    refine ⟨hnil, fun j hji => ?_⟩
    have := (adj_iff hn).mp (inv.adj_symm j i hji)
    rw [hnil] at this
    cases this
  · intro mouseX mouseY g' hs
    have hs' : g.setObstacleCell (pixelToCell mouseX) (pixelToCell mouseY) = .ok g' := hs
    obtain ⟨o, ho, _, _, _, _, _, hn⟩ := setObstacleCell_ok hs'
    constructor
    · unfold Grid.adjAt
      rw [hn, ho]
      simp [obstacleNode]
    · intro j hj
      exact ((adj_setObstacleCell inv hs' j _).mp hj).2.1 rfl

/-- Witness for C8: the grid `Grid(5, 5)`, whose cell `(4, 4)` is an obstacle. -/
theorem C8_obstacle_has_no_adjacency_witness :
    Reach Op.isEdit 5 5 (Grid.build 5 5) ∧
      ∀ (i : Nat) (n : Node), (Grid.build 5 5).mConnectivityMatrix[i]? = some n →
        n.mIsObstacle = true →
        n.mAdjacentNeighbors = [] ∧ ∀ j, ¬ Adj (Grid.build 5 5).mConnectivityMatrix j i :=
  ⟨Reach.init (ctor_natCast 5 5 (by decide) (by decide)),
    (C8_obstacle_has_no_adjacency 5 5 (Grid.build 5 5) (Reach.init (ctor_natCast 5 5 (by decide) (by decide)))).1⟩

/-- C9: adjacency is symmetric right after `Grid(w, h)` and after any further
sequence of `setObstacle` calls: for all cells `a` and `b`, `b` is in the
adjacency set of `a` if and only if `a` is in the adjacency set of `b`. -/
theorem C9_adjacency_symmetric (w h : Nat) (g : Grid) (hr : Reach Op.isSetObstacle w h g)
    (a b : Nat) : Adj g.mConnectivityMatrix a b ↔ Adj g.mConnectivityMatrix b a := by
  have inv := gridInv_of_reach (reach_mono isEdit_of_isSetObstacle hr)
  exact ⟨inv.adj_symm a b, inv.adj_symm b a⟩

/-- Witness for C9: cells `(0,0)` and `(1,0)` of `Grid(2, 2)`. -/
theorem C9_adjacency_symmetric_witness :
    Reach Op.isSetObstacle 2 2 (Grid.build 2 2) ∧
      (Adj (Grid.build 2 2).mConnectivityMatrix 0 1 ↔ Adj (Grid.build 2 2).mConnectivityMatrix 1 0) :=
  ⟨Reach.init (ctor_natCast 2 2 (by decide) (by decide)),
    C9_adjacency_symmetric 2 2 (Grid.build 2 2) (Reach.init (ctor_natCast 2 2 (by decide) (by decide))) 0 1⟩

/-! ### The search does not depend on what an earlier search left -/

theorem nodeAt_map_forget (nodes : List Node) (p : Nat) :
    nodeAt (nodes.map Node.forget) p = (nodeAt nodes p).map Node.forget := by
  unfold nodeAt
  rw [List.getElem?_map]
  cases nodes[p]? <;> rfl

theorem setFind_map_forget (nodes : List Node) (s : List Nat) (n : Node) :
    setFind (nodes.map Node.forget) s n.forget = setFind nodes s n := by
  unfold setFind
  congr 1
  funext m
  rw [List.getElem?_map]
  cases nodes[m]? <;> rfl

theorem setAdd_map_forget (nodes : List Node) (s : List Nat) (p : Nat) (n : Node) :
    setAdd (nodes.map Node.forget) s p n.forget = setAdd nodes s p n := by
  unfold setAdd
  rw [setFind_map_forget]

theorem relax_forget (goal : Node) (curr : Nat) (st : Search) (neighbor : Nat) :
    relax goal.forget curr st.forget neighbor = (relax goal curr st neighbor).map Search.forget := by
  unfold relax
  simp only [Search.forget, nodeAt_map_forget]
  cases hnb : nodeAt st.nodes neighbor with
  | error e => rfl
  | ok nb =>
    cases hc : nodeAt st.nodes curr with
    | error e => rfl
    | ok c =>
      simp only [Except.map, setFind_map_forget, setAdd_map_forget]
      have hh : ∀ a b : Node, Heuristic a.forget b.forget = Heuristic a b := fun _ _ => rfl
      have hl : ∀ a : Node, a.forget.localScore = a.localScore := fun _ => rfl
      simp only [hh, hl]
      cases hcl : setFind st.nodes st.closedList nb with
      | true => simp only [if_true]; rfl
      | false =>
        simp only [Bool.false_eq_true, if_false]
        by_cases hlt : fadd c.localScore (Heuristic c nb) < nb.localScore
        · simp only [hlt, if_true]
          cases hop : setFind st.nodes st.openSet nb with
          | false =>
            simp only [if_true, Search.forget, List.map_set]
            rfl
          | true =>
            simp only [Bool.true_eq_false, if_false]
            cases st.openList.decrease_key neighbor
                (fadd (fadd c.localScore (Heuristic c nb)) (Heuristic nb goal)) with
            | error e => rfl
            | ok q =>
              simp only [Search.forget, List.map_set]
              rfl
        · simp only [hlt, if_false]
          rfl

theorem relaxAll_forget (goal : Node) (curr : Nat) :
    ∀ (l : List Nat) (st : Search),
      relaxAll goal.forget curr l st.forget = (relaxAll goal curr l st).map Search.forget := by
  intro l
  induction l with
  | nil => intro st; rfl
  | cons a l ih =>
    intro st
    unfold relaxAll
    rw [relax_forget]
    cases relax goal curr st a with
    | error e => rfl
    | ok st1 =>
      simp only [Except.map]
      exact ih st1

theorem searchLoop_forget (goal : Node) :
    ∀ (fuel : Nat) (st : Search),
      searchLoop goal.forget fuel st.forget = (searchLoop goal fuel st).map Search.forget := by
  intro fuel
  induction fuel with
  | zero =>
    intro st
    unfold searchLoop
    have : st.forget.openList = st.openList := rfl
    rw [this]
    split <;> rfl
  | succ fuel ih =>
    intro st
    unfold searchLoop
    have e1 : st.forget.openList = st.openList := rfl
    have e2 : st.forget.nodes = st.nodes.map Node.forget := rfl
    have e3 : st.forget.closedList = st.closedList := rfl
    rw [e1]
    cases he : st.openList.empty with
    | true => simp only [if_true]; rfl
    | false =>
      simp only [Bool.false_eq_true, if_false]
      cases st.openList.top with
      | error e => rfl
      | ok curr =>
        cases st.openList.pop with
        | error e => rfl
        | ok q =>
          simp only [e2, nodeAt_map_forget]
          cases nodeAt st.nodes curr with
          | error e => rfl
          | ok c =>
            simp only [Except.map, e3, setAdd_map_forget]
            have hg : c.forget.equal goal.forget = c.equal goal := rfl
            have hadj : c.forget.mAdjacentNeighbors = c.mAdjacentNeighbors := rfl
            rw [hg, hadj]
            cases hgoal : c.equal goal with
            | true =>
              simp only [if_true]
              rfl
            | false =>
              simp only [Bool.false_eq_true, if_false]
              have := relaxAll_forget goal curr c.mAdjacentNeighbors
                { st with openList := q, closedList := setAdd st.nodes st.closedList curr c }
              simp only [Search.forget] at this ⊢
              rw [this]
              cases relaxAll goal curr c.mAdjacentNeighbors
                  { st with openList := q, closedList := setAdd st.nodes st.closedList curr c } with
              | error e => rfl
              | ok st2 =>
                simp only [Except.map]
                exact ih st2

theorem reIntializeNodes_forget (g : Grid) :
    g.forget.reIntializeNodes.mConnectivityMatrix =
      g.reIntializeNodes.mConnectivityMatrix.map Node.forget := by
  simp only [Grid.forget, Grid.reIntializeNodes, List.map_map]
  rfl

theorem search_forget (g : Grid) (sx sy gx gy : Int) :
    g.forget.search sx sy gx gy = (g.search sx sy gx gy).map Search.forget := by
  unfold Grid.search
  dsimp only
  have hp : ∀ x y, g.forget.reIntializeNodes.GetNodePointer x y =
      g.reIntializeNodes.GetNodePointer x y := by
    intro x y
    unfold Grid.GetNodePointer
    rw [reIntializeNodes_forget, List.length_map]
    rfl
  rw [hp, hp, reIntializeNodes_forget]
  cases g.reIntializeNodes.GetNodePointer sx sy with
  | error e => rfl
  | ok start =>
    cases g.reIntializeNodes.GetNodePointer gx gy with
    | error e => rfl
    | ok end_ =>
      simp only [nodeAt_map_forget]
      cases nodeAt g.reIntializeNodes.mConnectivityMatrix start with
      | error e => rfl
      | ok s =>
        cases nodeAt g.reIntializeNodes.mConnectivityMatrix end_ with
        | error e => rfl
        | ok e =>
          simp only [Except.map, List.length_set, List.length_map]
          have := searchLoop_forget e g.reIntializeNodes.mConnectivityMatrix.length
            (initialSearch g.reIntializeNodes.mConnectivityMatrix start s e)
          simp only [Search.forget, initialSearch, List.map_set] at this
          exact this

theorem search_reinit_congr {g g' : Grid} (h : g.reIntializeNodes = g'.reIntializeNodes)
    (sx sy gx gy : Int) : g.search sx sy gx gy = g'.search sx sy gx gy := by
  unfold Grid.search
  dsimp only
  rw [h]

theorem forget_reinit_geometry (g : Grid) :
    g.forget.reIntializeNodes.mConnectivityMatrix =
      (g.mConnectivityMatrix.map Node.geometry).map Node.ofGeometry := by
  simp only [Grid.forget, Grid.reIntializeNodes, List.map_map]
  rfl

/-- C7: for two grid states with the same dimensions whose cells have, place by
place, the same coordinates and adjacency sets, and any `localScore`,
`globalScore` and `mParent` whatsoever (also any obstacle flags and tags), and
for every start and goal, `RunAStar` leaves the same `localScore`,
`globalScore` and `mParent` on every cell of both (or faults alike in both). -/
theorem C7_search_independent_of_stale_fields (g1 g2 : Grid)
    (hx : g1.mXDimensions = g2.mXDimensions) (hy : g1.mYDimensions = g2.mYDimensions)
    (hgeo : g1.mConnectivityMatrix.map Node.geometry = g2.mConnectivityMatrix.map Node.geometry)
    (startX startY goalX goalY : Int) :
    (g1.RunAStar startX startY goalX goalY).map Grid.searchFields =
      (g2.RunAStar startX startY goalX goalY).map Grid.searchFields := by
  have hre : g1.forget.reIntializeNodes = g2.forget.reIntializeNodes := by
    apply Grid.ext_nodes
    · exact hx
    · exact hy
    · intro i
      rw [forget_reinit_geometry, forget_reinit_geometry, hgeo]
  have hs := search_reinit_congr hre startX startY goalX goalY
  rw [search_forget, search_forget] at hs
  have key : ∀ g : Grid, (g.RunAStar startX startY goalX goalY).map Grid.searchFields =
      ((g.search startX startY goalX goalY).map Search.forget).map
        (fun st => st.nodes.map Node.searchFields) := by
    intro g
    unfold Grid.RunAStar
    cases g.search startX startY goalX goalY with
    | error e => rfl
    | ok st =>
      simp only [Except.map, Grid.searchFields, Search.forget, List.map_map]
      rfl
  rw [key, key, hs]

/-- Witness for C7: `Grid(2, 2)` fresh and as left by `RunAStar(0,0,1,1)`; the
two differ in their search fields and give the same result for goal `(1, 0)`. -/
theorem C7_search_independent_of_stale_fields_witness :
    (Grid.build 2 2).mXDimensions = afterEarlierRun.mXDimensions ∧
    (Grid.build 2 2).mYDimensions = afterEarlierRun.mYDimensions ∧
    (Grid.build 2 2).mConnectivityMatrix.map Node.geometry =
      afterEarlierRun.mConnectivityMatrix.map Node.geometry ∧
    (Grid.build 2 2).searchFields ≠ afterEarlierRun.searchFields ∧
    ((Grid.build 2 2).RunAStar 0 0 1 0).map Grid.searchFields =
      (afterEarlierRun.RunAStar 0 0 1 0).map Grid.searchFields :=
  ⟨by decide!, by decide!, by decide!, by decide!,
    C7_search_independent_of_stale_fields (Grid.build 2 2) afterEarlierRun (by decide!)
      (by decide!) (by decide!) 0 0 1 0⟩

/-! ### The priority queue inside the search -/

theorem multimapInsert_perm (e : PQEntry) (l : List PQEntry) :
    List.Perm (multimapInsert e l) (e :: l) := by
  induction l with
  | nil => exact List.Perm.refl _
  | cons a l ih =>
    unfold multimapInsert
    split
    · exact List.Perm.refl _
    · exact (List.Perm.cons a ih).trans (List.Perm.swap e a l)

theorem mem_multimapInsert {e x : PQEntry} {l : List PQEntry} :
    x ∈ multimapInsert e l ↔ x = e ∨ x ∈ l := by
  rw [(multimapInsert_perm e l).mem_iff, List.mem_cons]

theorem multimapInsert_sorted {e : PQEntry} {l : List PQEntry}
    (h : l.Pairwise (fun a b => a.key ≤ b.key)) :
    (multimapInsert e l).Pairwise (fun a b => a.key ≤ b.key) := by
  induction l with
  | nil => simp [multimapInsert]
  | cons a l ih =>
    unfold multimapInsert
    rw [List.pairwise_cons] at h
    split
    · rename_i hlt
      rw [List.pairwise_cons, List.pairwise_cons]
      refine ⟨?_, h⟩
      intro b hb
      rcases List.mem_cons.mp hb with rfl | hb
      · exact Nat.le_of_lt hlt
      · exact Nat.le_trans (Nat.le_of_lt hlt) (h.1 b hb)
    · rename_i hge
      rw [List.pairwise_cons]
      refine ⟨?_, ih h.2⟩
      intro b hb
      rcases mem_multimapInsert.mp hb with rfl | hb
      · exact Nat.le_of_not_lt hge
      · exact h.1 b hb

theorem lookup_nodeMapSet (node it u : Nat) (m : List (Nat × Nat)) :
    (nodeMapSet node it m).lookup u = if u = node then some it else m.lookup u := by
  induction m with
  | nil =>
    simp only [nodeMapSet, List.lookup]
    by_cases h : u = node
    · simp [h]
    · have : (u == node) = false := by simpa using h
      simp [this, h]
  | cons kv m ih =>
    obtain ⟨k, v⟩ := kv
    unfold nodeMapSet
    by_cases hk : k = node
    · rw [if_pos hk]
      subst hk
      by_cases h : u = k
      · subst h; simp [List.lookup]
      · have : (u == k) = false := by simpa using h
        simp [List.lookup, this, h]
    · rw [if_neg hk]
      by_cases h : u = k
      · subst h
        simp [List.lookup, hk]
      · have : (u == k) = false := by simpa using h
        simp only [List.lookup, this, ih]

theorem lookup_filter_ne (node u : Nat) (m : List (Nat × Nat)) (h : u ≠ node) :
    (m.filter (fun kv => kv.1 != node)).lookup u = m.lookup u := by
  induction m with
  | nil => rfl
  | cons kv m ih =>
    obtain ⟨k, v⟩ := kv
    by_cases hk : k = node
    · subst hk
      have h1 : (u == k) = false := by simpa using h
      simp [List.filter, List.lookup, h1, ih]
    · have h2 : (k != node) = true := by simpa using hk
      simp only [List.filter, h2, List.lookup]
      rw [ih]

/-- `push` of a node without a live entry. -/
theorem QueueOK.push {q : PriorityQueue} {live live' : Nat → Prop} {keyOf keyOf' : Nat → Nat}
    (ok : QueueOK q live keyOf) (v k : Nat) (hv : ¬ live v)
    (hlive : ∀ u, live' u ↔ u = v ∨ live u) (hkey : ∀ u, live u → keyOf' u = keyOf u)
    (hk : keyOf' v = k) : QueueOK (q.push v k) live' keyOf' := by
  have hnot : ∀ en ∈ q.map, en.node ≠ v := fun en hen hc => hv (hc ▸ (ok.entry en hen).1)
  refine ⟨?_, ?_, ?_, ?_, ?_⟩
  · intro en hen
    simp only [PriorityQueue.push] at hen ⊢
    rcases mem_multimapInsert.mp hen with rfl | hen
    · simp [hlive, hk, lookup_nodeMapSet]
    · obtain ⟨h1, h2, h3, h4⟩ := ok.entry en hen
      refine ⟨(hlive _).mpr (Or.inr h1), by rw [hkey _ h1]; exact h2, ?_, Nat.lt_succ_of_lt h4⟩
      rw [lookup_nodeMapSet, if_neg (hnot en hen)]
      exact h3
  · intro u hu
    simp only [PriorityQueue.push]
    rcases (hlive u).mp hu with rfl | hu
    · exact ⟨_, mem_multimapInsert.mpr (Or.inl rfl), rfl⟩
    · obtain ⟨en, hen, he⟩ := ok.covered u hu
      exact ⟨en, mem_multimapInsert.mpr (Or.inr hen), he⟩
  · simp only [PriorityQueue.push]
    rw [((multimapInsert_perm _ _).map _).nodup_iff]
    simp only [List.map_cons, List.nodup_cons]
    refine ⟨?_, ok.nodes_nodup⟩
    intro hc
    obtain ⟨en, hen, he⟩ := List.mem_map.mp hc
    exact hnot en hen he
  · simp only [PriorityQueue.push]
    rw [((multimapInsert_perm _ _).map _).nodup_iff]
    simp only [List.map_cons, List.nodup_cons]
    refine ⟨?_, ok.its_nodup⟩
    intro hc
    obtain ⟨en, hen, he⟩ := List.mem_map.mp hc
    have := (ok.entry en hen).2.2.2
    omega
  · exact multimapInsert_sorted ok.sorted

/-- Removing the entry of a live node `v`. -/
theorem QueueOK.erase {q : PriorityQueue} {live : Nat → Prop} {keyOf : Nat → Nat}
    (ok : QueueOK q live keyOf) {v i : Nat} (hi : q.node_map.lookup v = some i) (hv : live v) :
    q.map.any (fun e => e.it == i) = true ∧
      QueueOK { q with map := q.map.filter (fun e => e.it != i) } (fun u => live u ∧ u ≠ v)
        keyOf := by
  obtain ⟨en, hen, hnode⟩ := ok.covered v hv
  have hit : en.it = i := by
    have := (ok.entry en hen).2.2.1
    rw [hnode, hi] at this
    exact (Option.some.inj this).symm
  have huniq : ∀ en' ∈ q.map, en'.it = i ↔ en'.node = v := by
    intro en' hen'
    constructor
    · intro h
      have e1 : en' = en := by
        have hinj := List.inj_on_of_nodup_map ok.its_nodup
        exact hinj hen' hen (h.trans hit.symm)
      rw [e1, hnode]
    · intro h
      have := (ok.entry en' hen').2.2.1
      rw [h, hi] at this
      exact (Option.some.inj this).symm
  constructor
  · rw [List.any_eq_true]
    exact ⟨en, hen, by simp [hit]⟩
  · refine ⟨?_, ?_, ?_, ?_, ?_⟩
    · intro en' hen'
      simp only [List.mem_filter, bne_iff_ne, ne_eq] at hen'
      obtain ⟨h1, h2, h3, h4⟩ := ok.entry en' hen'.1
      exact ⟨⟨h1, fun hc => hen'.2 ((huniq en' hen'.1).mpr hc)⟩, h2, h3, h4⟩
    · rintro u ⟨hu, hne⟩
      obtain ⟨en', hen', he⟩ := ok.covered u hu
      refine ⟨en', ?_, he⟩
      simp only [List.mem_filter, bne_iff_ne, ne_eq]
      exact ⟨hen', fun hc => hne (he ▸ (huniq en' hen').mp hc)⟩
    · exact (ok.nodes_nodup.sublist ((List.filter_sublist _).map _))
    · exact (ok.its_nodup.sublist ((List.filter_sublist _).map _))
    · exact ok.sorted.sublist (List.filter_sublist _)

/-- `decrease_key` of a live node succeeds and re-enters it under the new key. -/
theorem QueueOK.decrease_key {q : PriorityQueue} {live : Nat → Prop} {keyOf keyOf' : Nat → Nat}
    (ok : QueueOK q live keyOf) (v k : Nat) (hv : live v)
    (hkey : ∀ u, live u → u ≠ v → keyOf' u = keyOf u) (hk : keyOf' v = k) :
    ∃ q', q.decrease_key v k = .ok q' ∧ QueueOK q' live keyOf' := by
  obtain ⟨en, hen, hnode⟩ := ok.covered v hv
  have hi : q.node_map.lookup v = some en.it := hnode ▸ (ok.entry en hen).2.2.1
  obtain ⟨hany, ok1⟩ := ok.erase hi hv
  unfold PriorityQueue.decrease_key
  rw [hi]
  simp only [hany, if_true]
  refine ⟨_, rfl, ?_⟩
  have ok1' : QueueOK { q with map := q.map.filter (fun e => e.it != en.it) }
      (fun u => live u ∧ u ≠ v) keyOf' := by
    refine ⟨?_, ok1.covered, ok1.nodes_nodup, ok1.its_nodup, ok1.sorted⟩
    intro en' hen'
    obtain ⟨h1, h2, h3, h4⟩ := ok1.entry en' hen'
    exact ⟨h1, by rw [hkey _ h1.1 h1.2]; exact h2, h3, h4⟩
  refine ok1'.push v k (fun hc => hc.2 rfl) ?_ (fun u _ => rfl) hk
  intro u
  by_cases huv : u = v
  · subst huv; simp [hv]
  · simp [huv]

/-- `top` and `pop` of a queue with a live node: the head entry has the least
key, and the rest is a queue for the other live nodes. -/
theorem QueueOK.pop {q : PriorityQueue} {live : Nat → Prop} {keyOf : Nat → Nat}
    (ok : QueueOK q live keyOf) (hne : q.empty = false) :
    ∃ curr q', q.top = .ok curr ∧ q.pop = .ok q' ∧ live curr ∧
      (∀ u, live u → keyOf curr ≤ keyOf u) ∧
      QueueOK q' (fun u => live u ∧ u ≠ curr) keyOf := by
  cases hm : q.map with
  | nil => simp [PriorityQueue.empty, hm] at hne
  | cons e l =>
    have hmem : ∀ en, en ∈ l → en ∈ q.map := fun en h => hm ▸ List.mem_cons_of_mem _ h
    have he : e ∈ q.map := hm ▸ List.mem_cons_self _ _
    have hnd := ok.nodes_nodup
    have hid := ok.its_nodup
    have hs := ok.sorted
    rw [hm] at hnd hid hs
    simp only [List.map_cons, List.nodup_cons, List.pairwise_cons] at hnd hid hs
    refine ⟨e.node,
      { q with map := l, node_map := q.node_map.filter (fun kv => kv.1 != e.node) },
      by simp [PriorityQueue.top, hm], by simp [PriorityQueue.pop, hm],
      (ok.entry e he).1, ?_, ?_⟩
    · intro u hu
      obtain ⟨en, hen, hnode⟩ := ok.covered u hu
      rw [← (ok.entry e he).2.1, ← hnode, ← (ok.entry en hen).2.1]
      rw [hm] at hen
      rcases List.mem_cons.mp hen with rfl | hen
      · exact Nat.le_refl _
      · exact hs.1 en hen
    · have hne' : ∀ en ∈ l, en.node ≠ e.node := by
        intro en hen hc
        exact hnd.1 (List.mem_map.mpr ⟨en, hen, hc⟩)
      refine ⟨?_, ?_, hnd.2, hid.2, hs.2⟩
      · intro en hen
        obtain ⟨h1, h2, h3, h4⟩ := ok.entry en (hmem en hen)
        refine ⟨⟨h1, hne' en hen⟩, h2, ?_, h4⟩
        show (q.node_map.filter (fun kv => kv.1 != e.node)).lookup en.node = some en.it
        rw [lookup_filter_ne _ _ _ (hne' en hen)]
        exact h3
      · rintro u ⟨hu, hue⟩
        obtain ⟨en, hen, hnode⟩ := ok.covered u hu
        rw [hm] at hen
        rcases List.mem_cons.mp hen with rfl | hen
        · exact absurd hnode.symm hue
        · exact ⟨en, hen, hnode⟩

/-! ### Floating-point facts the search relies on -/

theorem bitLenAux_le : ∀ (f n k : Nat), n < 2 ^ k → bitLenAux f n ≤ k := by
  intro f
  induction f with
  | zero => intro n k _; simp [bitLenAux]
  | succ f ih =>
    intro n k hn
    unfold bitLenAux
    split
    · exact Nat.zero_le _
    · rename_i hne
      cases k with
      | zero => simp at hn; omega
      | succ k =>
        have : n / 2 < 2 ^ k := by
          rw [Nat.pow_succ] at hn
          omega
        have := ih (n / 2) k this
        omega

theorem bitLen_le {n k : Nat} (h : n < 2 ^ k) : bitLen n ≤ k := bitLenAux_le n n k h

theorem rne_exact {p n : Nat} (h : n % 2 ^ (bitLen n - p) = 0) : rne p n = n := by
  unfold rne
  split
  · rfl
  · dsimp only
    have hpos : 0 < 2 ^ (bitLen n - p - 1) := Nat.two_pow_pos _
    rw [h, if_pos hpos]
    have := Nat.div_add_mod n (2 ^ (bitLen n - p))
    rw [h, Nat.add_zero, Nat.mul_comm] at this
    exact this

theorem rne24_nat {d : Nat} (hd : d ≤ 2 ^ 24) : rne 24 (d * one) = d * one := by
  rcases Nat.lt_or_ge d (2 ^ 24) with hlt | hge
  · apply rne_exact
    have hb : bitLen (d * one) ≤ 76 := by
      apply bitLen_le
      show d * 2 ^ 52 < 2 ^ 76
      calc d * 2 ^ 52 < 2 ^ 24 * 2 ^ 52 := Nat.mul_lt_mul_of_pos_right hlt (Nat.two_pow_pos _)
        _ = 2 ^ 76 := by rw [← Nat.pow_add]
    have hdvd : 2 ^ (bitLen (d * one) - 24) ∣ d * one := by
      apply Dvd.dvd.mul_left
      show 2 ^ (bitLen (d * one) - 24) ∣ 2 ^ 52
      exact Nat.pow_dvd_pow 2 (by omega)
    exact Nat.mod_eq_zero_of_dvd hdvd
  · have : d = 2 ^ 24 := Nat.le_antisymm hd hge
    subst this
    decide!

theorem fadd_one {d : Nat} (hd : d ≤ 2 ^ 24) : fadd (d * one) one = min (d + 1) (2 ^ 24) * one := by
  rcases Nat.lt_or_ge d (2 ^ 24) with hlt | hge
  · have h1 : d + 1 ≤ 2 ^ 24 := hlt
    rw [Nat.min_eq_left h1]
    unfold fadd
    have : d * one + one = (d + 1) * one := by rw [Nat.succ_mul]
    rw [this]
    exact rne24_nat h1
  · have : d = 2 ^ 24 := Nat.le_antisymm hd hge
    subst this
    decide!

theorem ofInt_sentinel : ofInt 99999999 = 100000000 * one := by decide!

theorem one_gt_zero : 0 < one := Nat.two_pow_pos 52

theorem lt_sentinel {d : Nat} (hd : d ≤ 2 ^ 24) : d * one < ofInt 99999999 := by
  rw [ofInt_sentinel]
  exact Nat.mul_lt_mul_of_pos_right (Nat.lt_of_le_of_lt hd (by decide)) one_gt_zero

/-- The heuristic of two nodes one step apart is `1.0`. -/
theorem heuristic_unit (a b : Node)
    (h : (a.x - b.x = 1 ∧ a.y - b.y = 0) ∨ (a.x - b.x = -1 ∧ a.y - b.y = 0) ∨
      (a.x - b.x = 0 ∧ a.y - b.y = 1) ∨ (a.x - b.x = 0 ∧ a.y - b.y = -1)) :
    Heuristic a b = one := by
  unfold Heuristic
  rcases h with ⟨h1, h2⟩ | ⟨h1, h2⟩ | ⟨h1, h2⟩ | ⟨h1, h2⟩ <;> rw [h1, h2] <;> decide!

/-! ### The search loop -/

theorem shape_get {nodes0 nodes : List Node} (h : Agree Node.shape nodes0 nodes) {i : Nat}
    {n : Node} (hn : nodes[i]? = some n) :
    ∃ n0, nodes0[i]? = some n0 ∧ n.x = n0.x ∧ n.y = n0.y ∧
      n.mAdjacentNeighbors = n0.mAdjacentNeighbors := by
  obtain ⟨m, hm, e⟩ := agree_get h hn
  have ex : n.shape.x = m.shape.x := congrArg Node.x e
  have ey : n.shape.y = m.shape.y := congrArg Node.y e
  have ea : n.shape.mAdjacentNeighbors = m.shape.mAdjacentNeighbors :=
    congrArg Node.mAdjacentNeighbors e
  exact ⟨m, hm, ex, ey, ea⟩

theorem div_mod_inj {w i j : Nat} (h1 : i % w = j % w) (h2 : i / w = j / w) : i = j := by
  rw [← Nat.div_add_mod i w, ← Nat.div_add_mod j w, h1, h2]

theorem step_unit {w h i j : Nat} (hi : i < w * h) (hs : Step w h i j) :
    (((i % w : Nat) : Int) - ((j % w : Nat) : Int) = 1 ∧
        ((i / w : Nat) : Int) - ((j / w : Nat) : Int) = 0) ∨
    (((i % w : Nat) : Int) - ((j % w : Nat) : Int) = -1 ∧
        ((i / w : Nat) : Int) - ((j / w : Nat) : Int) = 0) ∨
    (((i % w : Nat) : Int) - ((j % w : Nat) : Int) = 0 ∧
        ((i / w : Nat) : Int) - ((j / w : Nat) : Int) = 1) ∨
    (((i % w : Nat) : Int) - ((j % w : Nat) : Int) = 0 ∧
        ((i / w : Nat) : Int) - ((j / w : Nat) : Int) = -1) := by
  have hw : 0 < w := by
    rcases Nat.eq_zero_or_pos w with h0 | h0
    · subst h0; simp at hi
    · exact h0
  have succ_div : ∀ k : Nat, k % w + 1 < w → (k + 1) / w = k / w := by
    intro k hk
    have h1 := Nat.div_add_mod k w
    have e : k + 1 = k % w + 1 + w * (k / w) := by omega
    rw [e, Nat.add_mul_div_left _ _ hw, Nat.div_eq_of_lt hk, Nat.zero_add]
  rcases hs with ⟨h1, h2⟩ | ⟨h1, h2⟩ | ⟨h1, h2⟩ | ⟨h1, h2⟩
  · left
    subst h2
    have hj : j % w + 1 < w := by
      by_contra hc
      have hjw : j % w < w := Nat.mod_lt _ hw
      have : j % w + 1 = w := by omega
      rw [succ_mod_of_eq this] at h1
      omega
    rw [succ_mod_of_lt hj, succ_div j hj]
    constructor <;> omega
  · right; left
    subst h2
    rw [succ_mod_of_lt h1, succ_div i h1]
    constructor <;> omega
  · right; right; left
    have e : i = j + w := by omega
    subst e
    rw [Nat.add_mod_right, Nat.add_div_right _ hw]
    constructor <;> omega
  · right; right; right
    subst h2
    rw [Nat.add_mod_right, Nat.add_div_right _ hw]
    constructor <;> omega

section Loop

variable {w h : Nat} {nodes0 : List Node} {start e : Nat} {goal : Node}
  {todo : Nat → Nat → Prop} {st : Search}

theorem SearchInv.length_eq (inv : SearchInv w h nodes0 start e goal todo st) :
    st.nodes.length = w * h :=
  (agree_length inv.agree).trans inv.geo.len

theorem SearchInv.get (inv : SearchInv w h nodes0 start e goal todo st) {i : Nat}
    (hi : i < w * h) : ∃ n, st.nodes[i]? = some n :=
  ⟨_, List.getElem?_eq_getElem (by rw [inv.length_eq]; exact hi)⟩

theorem SearchInv.coords (inv : SearchInv w h nodes0 start e goal todo st) {i : Nat} {n : Node}
    (hn : st.nodes[i]? = some n) :
    n.x = ((i % w : Nat) : Int) ∧ n.y = ((i / w : Nat) : Int) := by
  obtain ⟨n0, h0, hx, hy, _⟩ := shape_get inv.agree hn
  rw [hx, hy]
  exact inv.geo.coords i n0 h0

theorem SearchInv.adj_of_mem (inv : SearchInv w h nodes0 start e goal todo st) {i j : Nat}
    {n : Node} (hn : st.nodes[i]? = some n) (hj : j ∈ n.mAdjacentNeighbors) : Adj nodes0 i j := by
  obtain ⟨n0, h0, _, _, ha⟩ := shape_get inv.agree hn
  exact ⟨n0, h0, ha ▸ hj⟩

theorem SearchInv.mem_of_adj (inv : SearchInv w h nodes0 start e goal todo st) {i j : Nat}
    {n : Node} (hn : st.nodes[i]? = some n) (hj : Adj nodes0 i j) : j ∈ n.mAdjacentNeighbors := by
  obtain ⟨n0, h0, _, _, ha⟩ := shape_get inv.agree hn
  rw [ha]
  exact (adj_iff h0).mp hj

theorem SearchInv.equal_iff (inv : SearchInv w h nodes0 start e goal todo st) {i j : Nat}
    {a b : Node} (ha : st.nodes[i]? = some a) (hb : st.nodes[j]? = some b) :
    a.equal b = true ↔ i = j := by
  obtain ⟨ax, ay⟩ := inv.coords ha
  obtain ⟨bx, b_y⟩ := inv.coords hb
  unfold Node.equal
  rw [Bool.and_eq_true, beq_iff_eq, beq_iff_eq, ax, ay, bx, b_y]
  constructor
  · rintro ⟨h1, h2⟩
    exact div_mod_inj (by exact_mod_cast h1) (by exact_mod_cast h2)
  · rintro rfl
    exact ⟨rfl, rfl⟩

theorem SearchInv.equal_goal_iff (inv : SearchInv w h nodes0 start e goal todo st) {i : Nat}
    {a : Node} (ha : st.nodes[i]? = some a) : a.equal goal = true ↔ i = e := by
  obtain ⟨ax, ay⟩ := inv.coords ha
  unfold Node.equal
  rw [Bool.and_eq_true, beq_iff_eq, beq_iff_eq, ax, ay, inv.goal_x, inv.goal_y]
  constructor
  · rintro ⟨h1, h2⟩
    exact div_mod_inj (by exact_mod_cast h1) (by exact_mod_cast h2)
  · rintro rfl
    exact ⟨rfl, rfl⟩

theorem SearchInv.setFind_iff (inv : SearchInv w h nodes0 start e goal todo st) {S : List Nat}
    (hS : ∀ m ∈ S, m < w * h) {p : Nat} {n : Node} (hn : st.nodes[p]? = some n) :
    setFind st.nodes S n = true ↔ p ∈ S := by
  unfold setFind
  rw [List.any_eq_true]
  constructor
  · rintro ⟨m, hm, heq⟩
    obtain ⟨k, hk⟩ := inv.get (hS m hm)
    rw [hk] at heq
    have := (inv.equal_iff hk hn).mp heq
    exact this ▸ hm
  · intro hp
    refine ⟨p, hp, ?_⟩
    rw [hn]
    exact (inv.equal_iff hn hn).mpr rfl

theorem SearchInv.closed_lt (inv : SearchInv w h nodes0 start e goal todo st) :
    ∀ m ∈ st.closedList, m < w * h := fun m hm => inv.open_lt m (inv.closed_sub m hm)

theorem SearchInv.heuristic_adj (inv : SearchInv w h nodes0 start e goal todo st) {i j : Nat}
    {a b : Node} (ha : st.nodes[i]? = some a) (hb : st.nodes[j]? = some b)
    (hadj : Adj nodes0 i j) : Heuristic a b = one := by
  obtain ⟨ax, ay⟩ := inv.coords ha
  obtain ⟨bx, b_y⟩ := inv.coords hb
  have hi : i < w * h := by
    rw [← inv.length_eq]; exact (List.getElem?_eq_some_iff.mp ha).1
  apply heuristic_unit
  rw [ax, ay, bx, b_y]
  exact step_unit hi (inv.geo.adj_step i j hadj).2

end Loop

section Relax

variable {w h : Nat} {nodes0 : List Node} {start e : Nat} {goal : Node} {st : Search}

theorem QueueOK.congr {q : PriorityQueue} {live live' : Nat → Prop} {k k' : Nat → Nat}
    (ok : QueueOK q live k) (hl : ∀ u, live' u ↔ live u) (hk : ∀ u, live u → k' u = k u) :
    QueueOK q live' k' := by
  refine ⟨?_, ?_, ok.nodes_nodup, ok.its_nodup, ok.sorted⟩
  · intro en hen
    obtain ⟨h1, h2, h3, h4⟩ := ok.entry en hen
    exact ⟨(hl _).mpr h1, by rw [hk _ h1]; exact h2, h3, h4⟩
  · intro v hv
    exact ok.covered v ((hl v).mp hv)

theorem keyOf_set_ne {nodes : List Node} {a u : Nat} (n : Node) (h : u ≠ a) :
    keyOf (nodes.set a n) u = keyOf nodes u := by
  unfold keyOf
  rw [List.getElem?_set_ne (Ne.symm h)]

theorem keyOf_set_self {nodes : List Node} {a : Nat} (n : Node) (h : a < nodes.length) :
    keyOf (nodes.set a n) a = n.globalScore := by
  unfold keyOf
  rw [List.getElem?_set_self h]
  rfl

/-- The neighbour just handled leaves the list of those still to come. -/
theorem SearchInv.skip {curr a : Nat} {rest : List Nat}
    (inv : SearchInv w h nodes0 start e goal (todoOf curr (a :: rest)) st)
    (ha : a ∈ st.openSet) : SearchInv w h nodes0 start e goal (todoOf curr rest) st :=
  { inv with
    closed_adj := by
      intro u hu v huv
      rcases inv.closed_adj u hu v huv with ⟨h1, h2⟩ | h2
      · rcases List.mem_cons.mp h2 with rfl | h2
        · exact Or.inr ha
        · exact Or.inl ⟨h1, h2⟩
      · exact Or.inr h2 }

/-- The invariant after the node of `a` is rewritten by a relaxation from `curr`. -/
theorem SearchInv.update {curr a : Nat} {rest : List Nat} {nb c : Node} {st1 : Search}
    (inv : SearchInv w h nodes0 start e goal (todoOf curr (a :: rest)) st)
    (hc : curr ∈ st.closedList) (hs : start ∈ st.closedList) (hadj : Adj nodes0 curr a)
    (hacl : a ∉ st.closedList) (hnb : st.nodes[a]? = some nb)
    {d : Nat} (hd : d ≤ 2 ^ 24) (hloc : (relaxedNode goal curr c nb).localScore = d * one)
    (hnodes : st1.nodes = st.nodes.set a (relaxedNode goal curr c nb))
    (hcl : st1.closedList = st.closedList)
    (hopen : ∀ v, v ∈ st1.openSet ↔ v = a ∨ v ∈ st.openSet)
    (hq : QueueOK st1.openList (Live st1) (keyOf st1.nodes)) :
    SearchInv w h nodes0 start e goal (todoOf curr rest) st1 := by
  have ha_lt : a < w * h := (inv.geo.adj_step curr a hadj).1
  have ha_len : a < st.nodes.length := by rw [inv.length_eq]; exact ha_lt
  have hne : a ≠ start := fun hc' => hacl (hc' ▸ hs)
  refine
    { geo := inv.geo
      agree := ?_
      goal_x := inv.goal_x
      goal_y := inv.goal_y
      goal_lt := inv.goal_lt
      open_lt := ?_
      closed_sub := ?_
      closed_nodup := hcl ▸ inv.closed_nodup
      start_open := (hopen start).mpr (Or.inr inv.start_open)
      start_state := Or.inl (hcl ▸ hs)
      queue := hq
      found := ?_
      fresh := ?_
      closed_adj := ?_
      goal_open := hcl ▸ inv.goal_open
      reach := ?_ }
  · rw [hnodes]
    exact agree_trans inv.agree (agree_set hnb (relaxedNode_shape _ _ _ _))
  · intro v hv
    rcases (hopen v).mp hv with rfl | hv
    · exact ha_lt
    · exact inv.open_lt v hv
  · intro v hv
    rw [hcl] at hv
    exact (hopen v).mpr (Or.inr (inv.closed_sub v hv))
  · intro v hv
    by_cases hva : v = a
    · subst hva
      refine ⟨relaxedNode goal curr c nb, d, ?_, hd, hloc, Or.inr ⟨hne, curr, rfl, ?_, hadj⟩⟩
      · rw [hnodes]; exact List.getElem?_set_self ha_len
      · rw [hcl]; exact hc
    · have hvo : v ∈ st.openSet := by
        rcases (hopen v).mp hv with h1 | h1
        · exact absurd h1 hva
        · exact h1
      obtain ⟨n, d', hn, hd', hl, hp⟩ := inv.found v hvo
      refine ⟨n, d', ?_, hd', hl, ?_⟩
      · rw [hnodes, List.getElem?_set_ne (Ne.symm hva)]; exact hn
      · rw [hcl]; exact hp
  · intro v n hn hv
    have hva : v ≠ a := fun hc' => hv ((hopen v).mpr (Or.inl hc'))
    rw [hnodes, List.getElem?_set_ne (Ne.symm hva)] at hn
    exact inv.fresh v n hn (fun hc' => hv ((hopen v).mpr (Or.inr hc')))
  · intro u hu v huv
    rw [hcl] at hu
    rcases inv.closed_adj u hu v huv with ⟨h1, h2⟩ | h2
    · rcases List.mem_cons.mp h2 with rfl | h2
      · exact Or.inr ((hopen _).mpr (Or.inl rfl))
      · exact Or.inl ⟨h1, h2⟩
    · exact Or.inr ((hopen v).mpr (Or.inr h2))
  · intro v hv
    rcases (hopen v).mp hv with rfl | hv
    · obtain ⟨n, hwalk⟩ := inv.reach curr (inv.closed_sub curr hc)
      exact ⟨n + 1, WalkLen.step hwalk hadj⟩
    · exact inv.reach v hv

/-- One pass of the loop over the neighbours of `curr`. -/
theorem SearchInv.relax_ok {curr a : Nat} {rest : List Nat}
    (inv : SearchInv w h nodes0 start e goal (todoOf curr (a :: rest)) st)
    (hc : curr ∈ st.closedList) (hs : start ∈ st.closedList) (hadj : Adj nodes0 curr a) :
    ∃ st1, relax goal curr st a = .ok st1 ∧
      SearchInv w h nodes0 start e goal (todoOf curr rest) st1 ∧
      st1.closedList = st.closedList := by
  have ha_lt : a < w * h := (inv.geo.adj_step curr a hadj).1
  have ha_len : a < st.nodes.length := by rw [inv.length_eq]; exact ha_lt
  obtain ⟨nb, hnb⟩ := inv.get ha_lt
  obtain ⟨c, dc, hcn, hdc, hcl, _⟩ := inv.found curr (inv.closed_sub curr hc)
  have hH : Heuristic c nb = one := inv.heuristic_adj hcn hnb hadj
  have hten : fadd c.localScore (Heuristic c nb) = min (dc + 1) (2 ^ 24) * one := by
    rw [hH, hcl]; exact fadd_one hdc
  have hd' : min (dc + 1) (2 ^ 24) ≤ 2 ^ 24 := Nat.min_le_right _ _
  have hloc : (relaxedNode goal curr c nb).localScore = min (dc + 1) (2 ^ 24) * one := hten
  unfold relax
  rw [nodeAt_ok_iff.mpr hnb, nodeAt_ok_iff.mpr hcn]
  dsimp only
  by_cases hacl : a ∈ st.closedList
  · rw [if_pos ((inv.setFind_iff inv.closed_lt hnb).mpr hacl)]
    exact ⟨st, rfl, inv.skip (inv.closed_sub a hacl), rfl⟩
  · rw [if_neg (fun hc' => hacl ((inv.setFind_iff inv.closed_lt hnb).mp hc'))]
    by_cases hop : a ∈ st.openSet
    · have hfind : setFind st.nodes st.openSet nb = true :=
        (inv.setFind_iff inv.open_lt hnb).mpr hop
      by_cases hlt : fadd c.localScore (Heuristic c nb) < nb.localScore
      · rw [if_pos hlt, if_neg (by rw [hfind]; simp)]
        have hlive : Live st a := ⟨hop, hacl⟩
        obtain ⟨q', hq', okq'⟩ := @QueueOK.decrease_key _ _ _
          (keyOf (st.nodes.set a (relaxedNode goal curr c nb))) inv.queue a
          (relaxedNode goal curr c nb).globalScore hlive
          (fun u _ hu => keyOf_set_ne _ hu) (keyOf_set_self _ ha_len)
        have hq'' : st.openList.decrease_key a
            (fadd (fadd c.localScore (Heuristic c nb)) (Heuristic nb goal)) = .ok q' := hq'
        rw [hq'']
        refine ⟨_, rfl, ?_, rfl⟩
        exact inv.update hc hs hadj hacl hnb hd' hloc rfl rfl
          (fun v => ⟨fun hv => Or.inr hv, fun hv => hv.elim (fun h1 => h1 ▸ hop) id⟩) okq'
      · rw [if_neg hlt]
        exact ⟨st, rfl, inv.skip hop, rfl⟩
    · have hfind : setFind st.nodes st.openSet nb = false := by
        cases hf : setFind st.nodes st.openSet nb with
        | false => rfl
        | true => exact absurd ((inv.setFind_iff inv.open_lt hnb).mp hf) hop
      have hlt : fadd c.localScore (Heuristic c nb) < nb.localScore := by
        rw [hten, (inv.fresh a nb hnb hop).1]
        exact lt_sentinel hd'
      rw [if_pos hlt, if_pos hfind]
      refine ⟨_, rfl, ?_, rfl⟩
      have hadd : setAdd st.nodes st.openSet a nb = a :: st.openSet := by
        unfold setAdd; rw [hfind]; rfl
      refine inv.update hc hs hadj hacl hnb hd' hloc rfl rfl ?_ ?_
      · intro v
        show v ∈ setAdd st.nodes st.openSet a nb ↔ _
        rw [hadd, List.mem_cons]
      · show QueueOK (st.openList.push a _) _ _
        refine inv.queue.push a _ (fun hl => hop hl.1) ?_ ?_ (keyOf_set_self _ ha_len)
        · intro u
          show (u ∈ setAdd st.nodes st.openSet a nb ∧ u ∉ st.closedList) ↔ _
          rw [hadd, List.mem_cons]
          constructor
          · rintro ⟨h1 | h1, h2⟩
            · exact Or.inl h1
            · exact Or.inr ⟨h1, h2⟩
          · rintro (h1 | h1)
            · exact ⟨Or.inl h1, h1 ▸ hacl⟩
            · exact ⟨Or.inr h1.1, h1.2⟩
        · intro u hu
          exact keyOf_set_ne _ (fun hc' => hop (hc' ▸ hu.1))

end Relax

section Iterate

variable {w h : Nat} {nodes0 : List Node} {start e : Nat} {goal : Node} {st : Search}

theorem SearchInv.relaxAll_ok {curr : Nat} :
    ∀ (l : List Nat) (st : Search), SearchInv w h nodes0 start e goal (todoOf curr l) st →
      curr ∈ st.closedList → start ∈ st.closedList → (∀ a ∈ l, Adj nodes0 curr a) →
      ∃ st2, relaxAll goal curr l st = .ok st2 ∧ SearchInv w h nodes0 start e goal noTodo st2 ∧
        st2.closedList = st.closedList := by
  intro l
  induction l with
  | nil =>
    intro st inv _ _ _
    refine ⟨st, rfl, { inv with closed_adj := ?_ }, rfl⟩
    intro u hu v huv
    rcases inv.closed_adj u hu v huv with ⟨_, h2⟩ | h2
    · cases h2
    · exact Or.inr h2
  | cons a rest ih =>
    intro st inv hc hs hadj
    obtain ⟨st1, h1, inv1, hcl1⟩ := inv.relax_ok hc hs (hadj a (List.mem_cons_self _ _))
    obtain ⟨st2, h2, inv2, hcl2⟩ := ih st1 inv1 (hcl1 ▸ hc) (hcl1 ▸ hs)
      (fun b hb => hadj b (List.mem_cons_of_mem _ hb))
    refine ⟨st2, ?_, inv2, hcl2.trans hcl1⟩
    unfold relaxAll
    rw [h1]
    exact h2

/-- Popping the head of a non-empty queue at the head of the loop. -/
theorem SearchInv.pop_ok (inv : SearchInv w h nodes0 start e goal noTodo st)
    (hne : st.openList.empty = false) :
    ∃ curr q c, st.openList.top = .ok curr ∧ st.openList.pop = .ok q ∧
      st.nodes[curr]? = some c ∧ Live st curr ∧ (c.equal goal = true ↔ curr = e) ∧
      (∀ u, Live st u → keyOf st.nodes curr ≤ keyOf st.nodes u) ∧
      (popped st q curr c).closedList = curr :: st.closedList ∧
      start ∈ (popped st q curr c).closedList ∧
      (curr ≠ e →
        SearchInv w h nodes0 start e goal (todoOf curr c.mAdjacentNeighbors)
          (popped st q curr c)) := by
  obtain ⟨curr, q, htop, hpop, hlive, hmin, okq⟩ := inv.queue.pop hne
  obtain ⟨c, hcn⟩ := inv.get (inv.open_lt curr hlive.1)
  have hfind : setFind st.nodes st.closedList c = false := by
    cases hf : setFind st.nodes st.closedList c with
    | false => rfl
    | true => exact absurd ((inv.setFind_iff inv.closed_lt hcn).mp hf) hlive.2
  have hcl : (popped st q curr c).closedList = curr :: st.closedList := by
    show setAdd st.nodes st.closedList curr c = _
    unfold setAdd; rw [hfind]; rfl
  have hstart : start ∈ (popped st q curr c).closedList := by
    rw [hcl]
    rcases inv.start_state with h1 | ⟨h1, h2⟩
    · exact List.mem_cons_of_mem _ h1
    · have : curr = start := by
        have := hlive.1
        rw [h2] at this
        simpa using this
      rw [this]; exact List.mem_cons_self _ _
  refine ⟨curr, q, c, htop, hpop, hcn, hlive, inv.equal_goal_iff hcn, hmin, hcl, hstart, ?_⟩
  intro hce
  refine
    { geo := inv.geo
      agree := inv.agree
      goal_x := inv.goal_x
      goal_y := inv.goal_y
      goal_lt := inv.goal_lt
      open_lt := inv.open_lt
      closed_sub := ?_
      closed_nodup := ?_
      start_open := inv.start_open
      start_state := Or.inl hstart
      queue := ?_
      found := ?_
      fresh := inv.fresh
      closed_adj := ?_
      goal_open := ?_
      reach := inv.reach }
  · intro v hv
    rw [hcl] at hv
    rcases List.mem_cons.mp hv with rfl | hv
    · exact hlive.1
    · exact inv.closed_sub v hv
  · rw [hcl]
    exact List.nodup_cons.mpr ⟨hlive.2, inv.closed_nodup⟩
  · refine okq.congr ?_ (fun _ _ => rfl)
    intro u
    show (u ∈ st.openSet ∧ u ∉ (popped st q curr c).closedList) ↔ _
    rw [hcl, List.mem_cons, not_or]
    exact ⟨fun ⟨h1, h2, h3⟩ => ⟨⟨h1, h3⟩, h2⟩, fun ⟨⟨h1, h3⟩, h2⟩ => ⟨h1, h2, h3⟩⟩
  · intro v hv
    obtain ⟨n, d, hn, hd, hl, hp⟩ := inv.found v hv
    refine ⟨n, d, hn, hd, hl, ?_⟩
    rcases hp with hp | ⟨h1, p, h2, h3, h4⟩
    · exact Or.inl hp
    · exact Or.inr ⟨h1, p, h2, by rw [hcl]; exact List.mem_cons_of_mem _ h3, h4⟩
  · intro u hu v huv
    rw [hcl] at hu
    rcases List.mem_cons.mp hu with rfl | hu
    · exact Or.inl ⟨rfl, inv.mem_of_adj hcn huv⟩
    · rcases inv.closed_adj u hu v huv with h1 | h1
      · cases h1
      · exact Or.inr h1
  · rw [hcl, List.mem_cons, not_or]
    exact ⟨fun hc' => hce hc'.symm, inv.goal_open⟩

theorem SearchInv.closed_length_le (inv : SearchInv w h nodes0 start e goal noTodo st) :
    st.closedList.length ≤ w * h := by
  have hsub : st.closedList ⊆ List.range (w * h) := by
    intro v hv
    exact List.mem_range.mpr (inv.closed_lt v hv)
  have := (List.subperm_of_subset inv.closed_nodup hsub).length_le
  simpa using this

theorem SearchInv.empty_of_full (inv : SearchInv w h nodes0 start e goal noTodo st)
    (hfull : w * h ≤ st.closedList.length) : st.openList.empty = true := by
  cases hne : st.openList.empty with
  | true => rfl
  | false =>
    exfalso
    obtain ⟨curr, q, c, _, _, _, hlive, _⟩ := inv.pop_ok hne
    have hnd : (curr :: st.closedList).Nodup := List.nodup_cons.mpr ⟨hlive.2, inv.closed_nodup⟩
    have hsub : (curr :: st.closedList) ⊆ List.range (w * h) := by
      intro v hv
      rcases List.mem_cons.mp hv with rfl | hv
      · exact List.mem_range.mpr (inv.open_lt _ hlive.1)
      · exact List.mem_range.mpr (inv.closed_lt v hv)
    have := (List.subperm_of_subset hnd hsub).length_le
    simp at this
    omega

/-- The loop runs to its end within one iteration per cell; `J` is any further
property of the state at the head of the loop that iterations preserve. -/
theorem SearchInv.loop_ok (J : Search → Prop)
    (hJ : ∀ (st : Search) (curr : Nat) (q : PriorityQueue) (c : Node) (st2 : Search),
      SearchInv w h nodes0 start e goal noTodo st → J st → st.openList.top = .ok curr →
      st.openList.pop = .ok q → st.nodes[curr]? = some c → curr ≠ e →
      relaxAll goal curr c.mAdjacentNeighbors (popped st q curr c) = .ok st2 → J st2) :
    ∀ (fuel : Nat) (st : Search), SearchInv w h nodes0 start e goal noTodo st → J st →
      w * h - st.closedList.length ≤ fuel →
      ∃ st' last, searchLoop goal fuel st = .ok st' ∧
        SearchInv w h nodes0 start e goal noTodo last ∧ J last ∧ Stops e last st' := by
  intro fuel
  induction fuel with
  | zero =>
    intro st inv hj hm
    have hemp := inv.empty_of_full (by omega)
    refine ⟨st, st, ?_, inv, hj, Or.inl ⟨hemp, rfl⟩⟩
    unfold searchLoop
    rw [if_pos hemp]
  | succ fuel ih =>
    intro st inv hj hm
    cases hemp : st.openList.empty with
    | true =>
      refine ⟨st, st, ?_, inv, hj, Or.inl ⟨hemp, rfl⟩⟩
      unfold searchLoop
      rw [if_pos hemp]
    | false =>
      obtain ⟨curr, q, c, htop, hpop, hcn, hlive, hgoal, hmin, hcl, hstart, hinv⟩ :=
        inv.pop_ok hemp
      by_cases hce : curr = e
      · subst hce
        refine ⟨popped st q curr c, st, ?_, inv, hj, Or.inr ⟨hemp, q, c, htop, hpop, hcn, rfl⟩⟩
        unfold searchLoop
        rw [if_neg (by rw [hemp]; simp), htop, hpop]
        dsimp only
        rw [nodeAt_ok_iff.mpr hcn]
        dsimp only
        rw [if_pos (hgoal.mpr rfl)]
        rfl
      · have inv1 := hinv hce
        obtain ⟨st2, h2, inv2, hcl2⟩ := SearchInv.relaxAll_ok c.mAdjacentNeighbors _ inv1
          (by rw [hcl]; exact List.mem_cons_self _ _) hstart
          (fun a ha => inv.adj_of_mem hcn ha)
        have hj2 := hJ st curr q c st2 inv hj htop hpop hcn hce h2
        have hlen : st2.closedList.length = st.closedList.length + 1 := by
          rw [hcl2, hcl]; rfl
        have hle := inv2.closed_length_le
        obtain ⟨st', last, h3, inv3, hj3, hstop⟩ := ih st2 inv2 hj2 (by omega)
        refine ⟨st', last, ?_, inv3, hj3, hstop⟩
        unfold searchLoop
        rw [if_neg (by rw [hemp]; simp), htop, hpop]
        dsimp only
        rw [nodeAt_ok_iff.mpr hcn]
        dsimp only
        have hng : ¬ c.equal goal = true := fun hc' => hce (hgoal.mp hc')
        rw [if_neg hng]
        have h2' : relaxAll goal curr c.mAdjacentNeighbors
            { st with openList := q, closedList := setAdd st.nodes st.closedList curr c } =
              .ok st2 := h2
        rw [h2']
        exact h3

end Iterate

/-! ### `RunAStar` on a reachable grid -/

theorem flatIndex_lt_of_inBounds {w h : Nat} {g : Grid} (inv : GridInv w h g) {x y : Int}
    (hb : g.InBounds x y) : g.flatIndex x y < g.mConnectivityMatrix.length := by
  obtain ⟨hx0, hxw, hy0, hyh⟩ := hb
  rw [inv.dimX] at hxw
  rw [inv.dimY] at hyh
  rw [inv.len]
  unfold Grid.flatIndex
  rw [inv.dimX]
  have h1 : (y + 1) * (w : Int) ≤ (h : Int) * (w : Int) :=
    Int.mul_le_mul_of_nonneg_right (by omega) (by omega)
  have h2 : (y + 1) * (w : Int) = y * w + w := by ring
  have h3 : 0 ≤ y * (w : Int) := Int.mul_nonneg hy0 (by omega)
  have h4 : ((w * h : Nat) : Int) = (h : Int) * (w : Int) := by push_cast; ring
  omega

theorem reIntializeNodes_get {g : Grid} {i : Nat} {n : Node}
    (hn : g.reIntializeNodes.mConnectivityMatrix[i]? = some n) :
    n.mParent = none ∧ n.localScore = ofInt 99999999 := by
  simp only [Grid.reIntializeNodes, List.getElem?_map] at hn
  cases hm : g.mConnectivityMatrix[i]? with
  | none => rw [hm] at hn; cases hn
  | some m =>
    rw [hm] at hn
    simp only [Option.map_some', Option.some.injEq] at hn
    subst hn
    exact ⟨rfl, rfl⟩

theorem queueOK_new (k : Nat → Nat) : QueueOK PriorityQueue.new (fun _ => False) k :=
  { entry := fun en hen => by cases hen
    covered := fun v hv => hv.elim
    nodes_nodup := List.nodup_nil
    its_nodup := List.nodup_nil
    sorted := List.Pairwise.nil }

theorem adj_agree_shape {n1 n2 : List Node} (h : Agree Node.shape n1 n2) (i j : Nat) :
    Adj n2 i j ↔ Adj n1 i j :=
  ⟨adj_of_agree_topo (agree_comp h topo_shape),
    adj_of_agree_topo (agree_comp (agree_symm h) topo_shape)⟩

theorem walkLen_congr {n1 n2 : List Node} (hadj : ∀ i j, Adj n2 i j ↔ Adj n1 i j) {a b k : Nat}
    (hw : WalkLen n1 a b k) : WalkLen n2 a b k := by
  induction hw with
  | refl => exact WalkLen.refl _
  | step _ hstep ih => exact WalkLen.step ih ((hadj _ _).mpr hstep)

theorem connected_congr {n1 n2 : List Node} (hadj : ∀ i j, Adj n2 i j ↔ Adj n1 i j) (a b : Nat) :
    Connected n2 a b ↔ Connected n1 a b :=
  ⟨fun ⟨k, hk⟩ => ⟨k, walkLen_congr (fun i j => (hadj i j).symm) hk⟩,
    fun ⟨k, hk⟩ => ⟨k, walkLen_congr hadj hk⟩⟩

/-- The state on entry to the loop satisfies the invariant. -/
theorem searchInv_init {w h : Nat} {g : Grid} (inv : GridInv w h g) {start e : Nat} {s en : Node}
    (hs : g.reIntializeNodes.mConnectivityMatrix[start]? = some s)
    (he : g.reIntializeNodes.mConnectivityMatrix[e]? = some en) :
    SearchInv w h (g.reIntializeNodes.mConnectivityMatrix.set start (startNode s en)) start e en
      noTodo (initialSearch g.reIntializeNodes.mConnectivityMatrix start s en) := by
  have hshape : Agree Node.shape g.mConnectivityMatrix
      (g.reIntializeNodes.mConnectivityMatrix.set start (startNode s en)) :=
    agree_trans (reIntializeNodes_shape g) (agree_set hs rfl)
  have geo : GridInv w h
      (Grid.mk w h (g.reIntializeNodes.mConnectivityMatrix.set start (startNode s en))) :=
    gridInv_of_agree_topo inv inv.dimX.symm inv.dimY.symm (agree_comp hshape topo_shape)
  have hlen : g.reIntializeNodes.mConnectivityMatrix.length = w * h := by
    rw [agree_length (reIntializeNodes_shape g)]; exact inv.len
  have hs_lt : start < w * h := by
    rw [← hlen]; exact (List.getElem?_eq_some_iff.mp hs).1
  have he_lt : e < w * h := by
    rw [← hlen]; exact (List.getElem?_eq_some_iff.mp he).1
  have hgoal : en.x = ((e % w : Nat) : Int) ∧ en.y = ((e / w : Nat) : Int) := by
    obtain ⟨m, hm, hx, hy, _⟩ := shape_get (reIntializeNodes_shape g) he
    rw [hx, hy]
    exact inv.coords e m hm
  refine
    { geo := geo
      agree := agree_refl _ _
      goal_x := hgoal.1
      goal_y := hgoal.2
      goal_lt := he_lt
      open_lt := ?_
      closed_sub := ?_
      closed_nodup := List.nodup_nil
      start_open := List.mem_singleton.mpr rfl
      start_state := Or.inr ⟨rfl, rfl⟩
      queue := ?_
      found := ?_
      fresh := ?_
      closed_adj := ?_
      goal_open := List.not_mem_nil _
      reach := ?_ }
  · intro v hv
    rw [List.mem_singleton.mp hv]; exact hs_lt
  · intro v hv
    cases hv
  · refine (queueOK_new (fun _ => 0)).push start _ (fun hf => hf) ?_ (fun _ hf => hf.elim) ?_
    · intro u
      show (u ∈ [start] ∧ u ∉ []) ↔ _
      simp
    · exact keyOf_set_self _ (by rw [hlen]; exact hs_lt)
  · intro v hv
    have hv' : v = start := List.mem_singleton.mp hv
    subst hv'
    refine ⟨startNode s en, 0, ?_, Nat.zero_le _, ?_, Or.inl ⟨rfl, ?_⟩⟩
    · exact List.getElem?_set_self (by rw [hlen]; exact hs_lt)
    · simp [startNode]
    · exact (reIntializeNodes_get hs).1
  · intro v n hn hv
    have hv' : v ≠ start := fun hc => hv (List.mem_singleton.mpr hc)
    have hn' : g.reIntializeNodes.mConnectivityMatrix[v]? = some n := by
      rw [← hn]
      exact (List.getElem?_set_ne (Ne.symm hv')).symm
    obtain ⟨h1, h2⟩ := reIntializeNodes_get hn'
    exact ⟨h2, h1⟩
  · intro u hu
    cases hu
  · intro v hv
    rw [List.mem_singleton.mp hv]
    exact ⟨0, WalkLen.refl _⟩

/-- `RunAStar` on a grid of the reachable shape, for start and goal elements
inside the array: the loop runs to its end, through states that satisfy the
invariant and any further property `J` the iterations preserve. -/
theorem search_ok {w h : Nat} {g : Grid} (inv : GridInv w h g) {sx sy gx gy : Int}
    (hs : g.flatIndex sx sy < g.mConnectivityMatrix.length)
    (he : g.flatIndex gx gy < g.mConnectivityMatrix.length) :
    ∃ s en, g.reIntializeNodes.mConnectivityMatrix[g.flatIndex sx sy]? = some s ∧
      g.reIntializeNodes.mConnectivityMatrix[g.flatIndex gx gy]? = some en ∧
      ∀ (J : Search → Prop),
        (∀ (st : Search) (curr : Nat) (q : PriorityQueue) (c : Node) (st2 : Search),
          SearchInv w h (g.reIntializeNodes.mConnectivityMatrix.set (g.flatIndex sx sy)
            (startNode s en)) (g.flatIndex sx sy) (g.flatIndex gx gy) en noTodo st → J st →
          st.openList.top = .ok curr → st.openList.pop = .ok q → st.nodes[curr]? = some c →
          curr ≠ g.flatIndex gx gy →
          relaxAll en curr c.mAdjacentNeighbors (popped st q curr c) = .ok st2 → J st2) →
        J (initialSearch g.reIntializeNodes.mConnectivityMatrix (g.flatIndex sx sy) s en) →
        ∃ st' last, g.search sx sy gx gy = .ok st' ∧
          SearchInv w h (g.reIntializeNodes.mConnectivityMatrix.set (g.flatIndex sx sy)
            (startNode s en)) (g.flatIndex sx sy) (g.flatIndex gx gy) en noTodo last ∧
          J last ∧ Stops (g.flatIndex gx gy) last st' := by
  have hlen : g.reIntializeNodes.mConnectivityMatrix.length = g.mConnectivityMatrix.length :=
    agree_length (reIntializeNodes_shape g)
  obtain ⟨s, hsn⟩ : ∃ s, g.reIntializeNodes.mConnectivityMatrix[g.flatIndex sx sy]? = some s :=
    ⟨_, List.getElem?_eq_getElem (by rw [hlen]; exact hs)⟩
  obtain ⟨en, hen⟩ : ∃ en, g.reIntializeNodes.mConnectivityMatrix[g.flatIndex gx gy]? = some en :=
    ⟨_, List.getElem?_eq_getElem (by rw [hlen]; exact he)⟩
  refine ⟨s, en, hsn, hen, ?_⟩
  intro J hJ hJ0
  have inv0 := searchInv_init inv hsn hen
  obtain ⟨st', last, h1, h2, h3, h4⟩ := SearchInv.loop_ok J hJ
    (g.reIntializeNodes.mConnectivityMatrix.set (g.flatIndex sx sy) (startNode s en)).length
    _ inv0 hJ0 (by
      rw [List.length_set, hlen, inv.len]
      exact Nat.sub_le _ _)
  refine ⟨st', last, ?_, h2, h3, h4⟩
  unfold Grid.search
  dsimp only
  unfold Grid.GetNodePointer
  rw [flatIndex_reIntializeNodes, flatIndex_reIntializeNodes, hlen, if_pos hs, if_pos he]
  dsimp only
  rw [nodeAt_ok_iff.mpr hsn, nodeAt_ok_iff.mpr hen]
  exact h1

section Final

variable {w h : Nat} {nodes0 : List Node} {start e : Nat} {goal : Node} {last st' : Search}

theorem SearchInv.stops_nodes (hstop : Stops e last st') : st'.nodes = last.nodes := by
  rcases hstop with ⟨_, h⟩ | ⟨_, q, c, _, _, _, h⟩
  · rw [h]
  · rw [h]; rfl

/-- When the queue is empty every cell connected to the start is closed. -/
theorem SearchInv.closed_of_connected (inv : SearchInv w h nodes0 start e goal noTodo last)
    (hemp : last.openList.empty = true) {v n : Nat} (hw : WalkLen nodes0 start v n) :
    v ∈ last.closedList := by
  have hnolive : ∀ u, u ∈ last.openSet → u ∈ last.closedList := by
    intro u hu
    by_contra hc
    obtain ⟨en, hen, _⟩ := inv.queue.covered u ⟨hu, hc⟩
    have : last.openList.map = [] := by
      simpa [PriorityQueue.empty] using hemp
    rw [this] at hen
    cases hen
  induction hw with
  | refl => exact hnolive _ inv.start_open
  | step _ hstep ih =>
    rcases inv.closed_adj _ ih _ hstep with h1 | h1
    · exact h1.elim
    · exact hnolive _ h1

theorem SearchInv.goal_open_iff (inv : SearchInv w h nodes0 start e goal noTodo last)
    (hstop : Stops e last st') : e ∈ last.openSet ↔ Connected nodes0 start e := by
  constructor
  · exact inv.reach e
  · rintro ⟨n, hw⟩
    rcases hstop with ⟨hemp, _⟩ | ⟨hne, q, c, htop, _, _, _⟩
    · exact absurd (inv.closed_of_connected hemp hw) inv.goal_open
    · obtain ⟨curr, _, _, htop', _, _, hlive, _⟩ := inv.pop_ok hne
      rw [htop] at htop'
      cases htop'
      exact hlive.1

end Final

/-- What `RunAStar` returns on a grid of the reachable shape, for start and goal
elements `s` and `e` inside the array: a grid whose goal node has a parent, or
is the start, exactly when the goal is connected to the start. -/
theorem runAStar_reports {w h : Nat} {g : Grid} (inv : GridInv w h g) {sx sy gx gy : Int}
    (hs : g.flatIndex sx sy < g.mConnectivityMatrix.length)
    (he : g.flatIndex gx gy < g.mConnectivityMatrix.length) :
    ∃ g' n, g.RunAStar sx sy gx gy = .ok g' ∧
      g'.mConnectivityMatrix[g.flatIndex gx gy]? = some n ∧
      ((g.flatIndex sx sy = g.flatIndex gx gy ∨ ∃ p, n.mParent = some p) ↔
        Connected g.mConnectivityMatrix (g.flatIndex sx sy) (g.flatIndex gx gy)) ∧
      (¬ Connected g.mConnectivityMatrix (g.flatIndex sx sy) (g.flatIndex gx gy) →
        n.mParent = none) := by
  obtain ⟨s, en, hsn, hen, hloop⟩ := search_ok inv hs he
  obtain ⟨st', last, hsearch, hinv, _, hstop⟩ := hloop (fun _ => True)
    (fun _ _ _ _ _ _ _ _ _ _ _ _ => trivial) trivial
  have hnodes := SearchInv.stops_nodes hstop
  have hshape : Agree Node.shape g.mConnectivityMatrix
      (g.reIntializeNodes.mConnectivityMatrix.set (g.flatIndex sx sy) (startNode s en)) :=
    agree_trans (reIntializeNodes_shape g) (agree_set hsn rfl)
  have hconn := connected_congr (adj_agree_shape hshape) (g.flatIndex sx sy) (g.flatIndex gx gy)
  have hopen := hinv.goal_open_iff hstop
  obtain ⟨n, hn⟩ := hinv.get hinv.goal_lt
  refine ⟨{ g with mConnectivityMatrix := st'.nodes }, n, ?_, by rw [hnodes]; exact hn, ?_, ?_⟩
  · unfold Grid.RunAStar
    rw [hsearch]
  · rw [← hconn, ← hopen]
    constructor
    · rintro (h1 | ⟨p, hp⟩)
      · rw [← h1]; exact hinv.start_open
      · by_contra hc
        have := (hinv.fresh _ n hn hc).2
        rw [this] at hp
        cases hp
    · intro ho
      obtain ⟨n', d, hn', _, _, hp⟩ := hinv.found _ ho
      rw [hn] at hn'
      cases hn'
      rcases hp with ⟨h1, _⟩ | ⟨_, p, h2, _⟩
      · exact Or.inl h1.symm
      · exact Or.inr ⟨p, h2⟩
  · intro hnc
    rw [← hconn, ← hopen] at hnc
    exact (hinv.fresh _ n hn hnc).2

/-- C2: for every grid state reached from `Grid(w, h)` by `setObstacle` calls and
every in-bounds start and goal, `RunAStar` returns, and afterwards the goal is
reported as reached (the goal cell is the start cell, or its `mParent` is not
null) if and only if the goal cell can be reached from the start cell through
the adjacency sets; a goal that cannot be reached is left with `mParent` null. -/
theorem C2_goal_reported_iff_reachable (w h : Nat) (g : Grid)
    (hr : Reach Op.isSetObstacle w h g) (startX startY goalX goalY : Int)
    (hs : g.InBounds startX startY) (hg : g.InBounds goalX goalY) :
    ∃ g' n, g.RunAStar startX startY goalX goalY = .ok g' ∧
      g'.mConnectivityMatrix[g.flatIndex goalX goalY]? = some n ∧
      ((g.flatIndex startX startY = g.flatIndex goalX goalY ∨ ∃ p, n.mParent = some p) ↔
        Connected g.mConnectivityMatrix (g.flatIndex startX startY) (g.flatIndex goalX goalY)) ∧
      (¬ Connected g.mConnectivityMatrix (g.flatIndex startX startY) (g.flatIndex goalX goalY) →
        n.mParent = none) := by
  have inv := gridInv_of_reach (reach_mono isEdit_of_isSetObstacle hr)
  exact runAStar_reports inv (flatIndex_lt_of_inBounds inv hs) (flatIndex_lt_of_inBounds inv hg)

/-- Witness for C2: start `(0,0)` and goal `(4,4)` on `Grid(5, 5)`. -/
theorem C2_goal_reported_iff_reachable_witness :
    Reach Op.isSetObstacle 5 5 (Grid.build 5 5) ∧ (Grid.build 5 5).InBounds 0 0 ∧
      (Grid.build 5 5).InBounds 4 4 ∧
      ∃ g' n, (Grid.build 5 5).RunAStar 0 0 4 4 = .ok g' ∧
        g'.mConnectivityMatrix[(Grid.build 5 5).flatIndex 4 4]? = some n ∧
        (((Grid.build 5 5).flatIndex 0 0 = (Grid.build 5 5).flatIndex 4 4 ∨
            ∃ p, n.mParent = some p) ↔
          Connected (Grid.build 5 5).mConnectivityMatrix ((Grid.build 5 5).flatIndex 0 0)
            ((Grid.build 5 5).flatIndex 4 4)) ∧
        (¬ Connected (Grid.build 5 5).mConnectivityMatrix ((Grid.build 5 5).flatIndex 0 0)
            ((Grid.build 5 5).flatIndex 4 4) → n.mParent = none) :=
  ⟨Reach.init (ctor_natCast 5 5 (by decide) (by decide)), by decide, by decide,
    C2_goal_reported_iff_reachable 5 5 (Grid.build 5 5) (Reach.init (ctor_natCast 5 5 (by decide) (by decide))) 0 0 4 4
      (by decide) (by decide)⟩

theorem walk_from_isolated {nodes : List Node} {a : Nat} (hiso : ∀ v, ¬ Adj nodes a v)
    {b n : Nat} (hw : WalkLen nodes a b n) : b = a := by
  induction hw with
  | refl => rfl
  | step _ hstep ih => exact absurd (ih ▸ hstep) (hiso _)

theorem walk_to_isolated {nodes : List Node} {b : Nat} (hiso : ∀ v, ¬ Adj nodes v b)
    {a n : Nat} (hw : WalkLen nodes a b n) : b = a := by
  cases hw with
  | refl => rfl
  | step _ hstep => exact absurd hstep (hiso _)

/-- C3 (as the code has it): there is no `ObstacleEndpoint` result. For every
grid state reached from `Grid(w, h)` by `setObstacle`, `SetGoal` and `RunAStar`
calls and every in-bounds start and goal that resolve to different cells, if
the start cell or the goal cell is an obstacle then `RunAStar` still runs and
returns a grid, in which the goal is left unreached (`mParent` null); and
`SetGoal` on a cell whose tag is `1` runs `RunAStar(0,0,cell)` on the unchanged
grid. -/
theorem C3_search_runs_on_obstacle_endpoint (w h : Nat) (g : Grid) (hr : Reach Op.isEdit w h g)
    (startX startY goalX goalY : Int) (hs : g.InBounds startX startY)
    (hg : g.InBounds goalX goalY)
    (hne : g.flatIndex startX startY ≠ g.flatIndex goalX goalY)
    (hobs : g.IsObstacleAt startX startY ∨ g.IsObstacleAt goalX goalY) :
    (∃ g' n, g.RunAStar startX startY goalX goalY = .ok g' ∧
      g'.mConnectivityMatrix[g.flatIndex goalX goalY]? = some n ∧ n.mParent = none) ∧
    (∀ mouseX mouseY, g.GetCellValue (pixelToCell mouseX) (pixelToCell mouseY) = .ok 1 →
      g.SetGoal mouseX mouseY = g.RunAStar 0 0 (pixelToCell mouseX) (pixelToCell mouseY)) := by
  have inv := gridInv_of_reach hr
  constructor
  · obtain ⟨g', n, h1, h2, _, h4⟩ := runAStar_reports inv (flatIndex_lt_of_inBounds inv hs)
      (flatIndex_lt_of_inBounds inv hg)
    refine ⟨g', n, h1, h2, h4 ?_⟩
    rintro ⟨k, hw⟩
    rcases hobs with ⟨m, hm, hmo⟩ | ⟨m, hm, hmo⟩
    · have hm' : g.mConnectivityMatrix[g.flatIndex startX startY]? = some m :=
        nodeAt_ok_iff.mp hm
      have hnil := inv.obstacle _ m hm' hmo
      have hiso : ∀ v, ¬ Adj g.mConnectivityMatrix (g.flatIndex startX startY) v := by
        intro v hv
        have := (adj_iff hm').mp hv
        rw [hnil] at this
        cases this
      exact hne (walk_from_isolated hiso hw).symm
    · have hm' : g.mConnectivityMatrix[g.flatIndex goalX goalY]? = some m :=
        nodeAt_ok_iff.mp hm
      have hnil := inv.obstacle _ m hm' hmo
      have hiso : ∀ v, ¬ Adj g.mConnectivityMatrix v (g.flatIndex goalX goalY) := by
        intro v hv
        have := (adj_iff hm').mp (inv.adj_symm _ _ hv)
        rw [hnil] at this
        cases this
      exact hne (walk_to_isolated hiso hw).symm
  · intro mouseX mouseY hv
    unfold Grid.SetGoal
    dsimp only
    rw [hv]
    simp

/-- Witness for C3: on `Grid(5, 5)` the goal `(4,4)` is an obstacle. -/
theorem C3_search_runs_on_obstacle_endpoint_witness :
    Reach Op.isEdit 5 5 (Grid.build 5 5) ∧ (Grid.build 5 5).InBounds 0 0 ∧
      (Grid.build 5 5).InBounds 4 4 ∧
      (Grid.build 5 5).flatIndex 0 0 ≠ (Grid.build 5 5).flatIndex 4 4 ∧
      (Grid.build 5 5).IsObstacleAt 4 4 ∧
      ∃ g' n, (Grid.build 5 5).RunAStar 0 0 4 4 = .ok g' ∧
        g'.mConnectivityMatrix[(Grid.build 5 5).flatIndex 4 4]? = some n ∧ n.mParent = none :=
  have hob : (Grid.build 5 5).IsObstacleAt 4 4 :=
    exists_ok_of_decide (P := fun n : Node => n.mIsObstacle = true) (by decide!)
  ⟨Reach.init (ctor_natCast 5 5 (by decide) (by decide)), by decide, by decide, by decide, hob,
    (C3_search_runs_on_obstacle_endpoint 5 5 (Grid.build 5 5) (Reach.init (ctor_natCast 5 5 (by decide) (by decide)))
      0 0 4 4 (by decide) (by decide) (by decide) (Or.inr hob)).1⟩

/-- C3 (counterexample): on `Grid(5, 5)` with `setObstacle` applied to cell
`(0,0)`, the start cell `(0,0)` is an obstacle and `RunAStar(0,0,3,3)` does not
fail: it returns a grid, in which the goal `(3,3)` (flat index 18) is simply
unreached. -/
theorem C3_no_obstacle_endpoint_error :
    ((Grid.ctor 5 5).bind (fun g0 => g0.setObstacle 0 0)).bind
        (fun g => (g.RunAStar 0 0 3 3).map (fun r => (g.markAt 0, r.resultAt 18))) =
      .ok (some (true, 1), some (none, 100000000 * one)) := by
  decide!

/-! ### Path lengths -/

/-! ### Rounding and square roots -/

theorem gridDist_step {w h i j : Nat} (hi : i < w * h) (hs : Step w h i j) :
    gridDist w i j = 1 := by
  unfold gridDist
  rcases step_unit hi hs with ⟨h1, h2⟩ | ⟨h1, h2⟩ | ⟨h1, h2⟩ | ⟨h1, h2⟩ <;> rw [h1, h2] <;> rfl

theorem gridDist_triangle (w a b c : Nat) : gridDist w a c ≤ gridDist w a b + gridDist w b c := by
  unfold gridDist
  omega

theorem walk_gridDist {w h : Nat} {nodes : List Node}
    (geo : GridInv w h (Grid.mk w h nodes)) {a b j : Nat} (hw : WalkLen nodes a b j) :
    gridDist w a b ≤ j := by
  have hlen : nodes.length = w * h := geo.len
  have hstep' : ∀ i j, Adj nodes i j → Step w h i j := fun i j hij => (geo.adj_step i j hij).2
  induction hw with
  | refl => simp [gridDist]
  | step hprev hstep ih =>
    rename_i b c n
    have hb : b < w * h := by
      obtain ⟨m, hm, _⟩ := hstep
      rw [← hlen]; exact (List.getElem?_eq_some_iff.mp hm).1
    have h1 := gridDist_step hb (hstep' b c hstep)
    have h2 := gridDist_triangle w a b c
    omega

theorem walk_snoc_left {nodes : List Node} {a b c n : Nat} (hab : Adj nodes a b)
    (hw : WalkLen nodes b c n) : WalkLen nodes a c (n + 1) := by
  induction hw with
  | refl => exact WalkLen.step (WalkLen.refl a) hab
  | step _ hstep ih => exact WalkLen.step ih hstep

section Optimal

variable {w h : Nat} {nodes0 : List Node} {start e : Nat} {goal : Node} {st : Search}

theorem mul_one_lt {a b : Nat} (h : a * one < b * one) : a < b :=
  Nat.lt_of_mul_lt_mul_right h

end Optimal

section OptimalSteps

variable {w h : Nat} {nodes0 : List Node} {start e : Nat} {goal : Node} {st : Search}

end OptimalSteps

section Chain

variable {w h : Nat} {nodes0 : List Node} {start e : Nat} {goal : Node} {st : Search}

end Chain

theorem markObstacles_row (w : Nat) (nodes : List Node) : markObstacles w 1 nodes = nodes := by
  unfold markObstacles
  have h1 : fours 1 = [] := by decide
  rw [h1]
  induction fours w with
  | nil => rfl
  | cons a l ih => simp

theorem row_free (w i : Nat) (hi : i < w) :
    ∃ n, (Grid.build w 1).mConnectivityMatrix[i]? = some n ∧ n.mIsObstacle = false := by
  have inv0 : LinkInv w 1 (emplaceAll w 1) 0 (emplaceAll w 1) := by
    refine ⟨emplaceAll_length w 1, fun _ => rfl, fun i j n hin => ?_⟩
    have hlt : i < w * 1 := by
      rw [← emplaceAll_length w 1]; exact (List.getElem?_eq_some_iff.mp hin).1
    rw [emplaceAll_getElem? w 1 i hlt] at hin
    cases hin
    simp [Node.ctor]
  obtain ⟨flen, fframe, _⟩ := linkAll_linkInv inv0
  have hi1 : i < w * 1 := by omega
  have hlen : i < (linkAll w 1 (emplaceAll w 1)).length := by rw [flen]; exact hi1
  refine ⟨(linkAll w 1 (emplaceAll w 1))[i], ?_, ?_⟩
  · show (linkAll w 1 (markObstacles w 1 (emplaceAll w 1)))[i]? = _
    rw [markObstacles_row]
    exact List.getElem?_eq_getElem hlen
  · have := fframe i
    rw [List.getElem?_eq_getElem hlen, emplaceAll_getElem? w 1 i hi1] at this
    simp only [Option.map_some', Option.some.injEq] at this
    have hob := congrArg Node.mIsObstacle this
    simpa [Node.noAdj, Node.ctor] using hob

theorem row_adj (w i : Nat) (hi : i + 1 < w) :
    Adj (Grid.build w 1).mConnectivityMatrix i (i + 1) := by
  have inv0 : LinkInv w 1 (emplaceAll w 1) 0 (emplaceAll w 1) := by
    refine ⟨emplaceAll_length w 1, fun _ => rfl, fun i j n hin => ?_⟩
    have hlt : i < w * 1 := by
      rw [← emplaceAll_length w 1]; exact (List.getElem?_eq_some_iff.mp hin).1
    rw [emplaceAll_getElem? w 1 i hlt] at hin
    cases hin
    simp [Node.ctor]
  obtain ⟨_, _, fadj⟩ := linkAll_linkInv inv0
  obtain ⟨n, hn, hfree⟩ := row_free w i (by omega)
  obtain ⟨m, hm, hmfree⟩ := row_free w (i + 1) hi
  have hn' : (linkAll w 1 (emplaceAll w 1))[i]? = some n := by
    rw [← markObstacles_row w (emplaceAll w 1)]; exact hn
  have hm' : (linkAll w 1 (emplaceAll w 1))[i + 1]? = some m := by
    rw [← markObstacles_row w (emplaceAll w 1)]; exact hm
  refine ⟨n, hn, (fadj i (i + 1) n hn').mpr ⟨by omega, ?_, hfree, m, hm', hmfree⟩⟩
  right; left
  rw [Nat.mod_eq_of_lt (by omega)]
  exact ⟨hi, rfl⟩

/-- In a grid of one row the cell `k` is `k` steps from cell `0`. -/
theorem row_walk (w : Nat) : ∀ k, k < w → WalkLen (Grid.build w 1).mConnectivityMatrix 0 k k := by
  intro k
  induction k with
  | zero => intro _; exact WalkLen.refl 0
  | succ k ih => intro hk; exact WalkLen.step (ih (by omega)) (row_adj w k hk)

theorem row_dist (w k j : Nat) (hk : k < w)
    (hw : WalkLen (Grid.build w 1).mConnectivityMatrix 0 k j) : k ≤ j := by
  have h := walk_gridDist (gridInv_build w 1) hw
  unfold gridDist at h
  rw [Nat.mod_eq_of_lt hk, Nat.div_eq_of_lt hk, Nat.zero_mod, Nat.zero_div] at h
  omega

theorem setObstacleCell_isOk {g : Grid} {x y : Int} {o : Node}
    (ho : g.mConnectivityMatrix[g.flatIndex x y]? = some o)
    (h1 : g.flatIndex x y ∉ o.mAdjacentNeighbors)
    (h2 : ∀ e ∈ o.mAdjacentNeighbors, e < g.mConnectivityMatrix.length) :
    ∃ g', g.setObstacleCell x y = .ok g' := by
  have hlt : g.flatIndex x y < g.mConnectivityMatrix.length := (List.getElem?_eq_some_iff.mp ho).1
  have hfi : ∀ g1 : Grid, g1.mXDimensions = g.mXDimensions → g1.flatIndex x y = g.flatIndex x y := by
    intro g1 h1
    simp [Grid.flatIndex, h1]
  have hn1 : nodeAt (setCellAt g.mConnectivityMatrix (g.flatIndex x y) 1) (g.flatIndex x y) =
      .ok { o with mIsObstacle := true, mValue := 1 } := by
    rw [nodeAt_ok_iff, setCellAt_getElem?, ho]
    simp
  obtain ⟨nodes', hn'⟩ := eraseFromNeighbors_isOk o.mAdjacentNeighbors
    (setCellAt g.mConnectivityMatrix (g.flatIndex x y) 1) h1
    (by intro e he; rw [setCellAt_length]; exact h2 e he)
  obtain ⟨_, _, e3, _⟩ := eraseFromNeighbors_ok _ _ _ hn'
  have hlt2 : g.flatIndex x y < nodes'.length := by
    rw [e3, setCellAt_length]; exact hlt
  unfold Grid.setObstacleCell Grid.SetCell
  simp only [hlt, if_true, Grid.GetNodePointer, hfi, setCellAt_length, hn1, hn',
    List.getElem?_eq_getElem hlt2]
  exact ⟨_, rfl⟩

theorem obstacleNode_forget (p : Nat) (l : List Nat) (i : Nat) (n : Node) :
    (obstacleNode p l i n.forget).forget = (obstacleNode p l i n).forget := by
  unfold obstacleNode
  split
  · rfl
  · split <;> rfl

/-- `setObstacle` acts alike on a grid and on the grid with flags and tags
blanked. -/
theorem setObstacleCell_forget {g g' : Grid} {x y : Int} (h : g.setObstacleCell x y = .ok g') :
    ∃ g'', g.forget.setObstacleCell x y = .ok g'' ∧ g''.forget = g'.forget := by
  obtain ⟨o, ho, h1, h2, hx, hy, hl, hn⟩ := setObstacleCell_ok h
  have hfi : g.forget.flatIndex x y = g.flatIndex x y := rfl
  have ho' : g.forget.mConnectivityMatrix[g.forget.flatIndex x y]? = some o.forget := by
    rw [hfi]
    simp only [Grid.forget, List.getElem?_map, ho, Option.map_some']
  obtain ⟨g'', hg''⟩ := setObstacleCell_isOk ho' (by rw [hfi]; exact h1)
    (by intro e he; simp only [Grid.forget, List.length_map]; exact h2 e he)
  refine ⟨g'', hg'', ?_⟩
  obtain ⟨o', ho2, _, _, hx', hy', _, hn'⟩ := setObstacleCell_ok hg''
  rw [ho'] at ho2
  cases ho2
  apply Grid.ext_nodes
  · exact hx'.trans hx.symm
  · exact hy'.trans hy.symm
  · intro i
    simp only [Grid.forget, List.getElem?_map]
    rw [hn', hn i, hfi]
    simp only [Grid.forget, List.getElem?_map]
    cases g.mConnectivityMatrix[i]? with
    | none => rfl
    | some m =>
      simp only [Option.map_some', Option.some.injEq]
      exact obstacleNode_forget _ _ _ _

theorem SetCell_forget {g g' : Grid} {x y v : Int} (h : g.SetCell x y v = .ok g') :
    g'.forget = g.forget := by
  unfold Grid.SetCell at h
  split at h
  · cases h
    apply Grid.ext_nodes
    · rfl
    · rfl
    · intro i
      simp only [Grid.forget, List.getElem?_map, setCellAt_getElem?]
      cases g.mConnectivityMatrix[i]? with
      | none => rfl
      | some m =>
        simp only [Option.map_some', Option.some.injEq]
        split <;> rfl
  · cases h

theorem agree_map {f : Node → Node} {k : Node → Node} {n1 n2 : List Node}
    (h : Agree f n1 n2) (hk : ∀ a b : Node, f a = f b → f (k a) = f (k b)) :
    Agree f (n1.map k) (n2.map k) := by
  intro i
  have := h i
  simp only [List.getElem?_map]
  cases h1 : n1[i]? with
  | none =>
    rw [h1] at this
    cases h2 : n2[i]? with
    | none => rfl
    | some b => rw [h2] at this; cases this
  | some a =>
    rw [h1] at this
    cases h2 : n2[i]? with
    | none => rw [h2] at this; cases this
    | some b =>
      rw [h2] at this
      simp only [Option.map_some', Option.some.injEq] at this ⊢
      exact hk b a this

theorem topo_forget_congr (a b : Node) (h : Node.topo a = Node.topo b) :
    Node.topo a.forget = Node.topo b.forget := by
  have hx := congrArg Node.x h
  have hy := congrArg Node.y h
  have ha := congrArg Node.mAdjacentNeighbors h
  cases a; cases b
  simp only [Node.topo] at hx hy ha
  simp only [Node.topo, Node.forget, Node.mk.injEq, and_true]
  exact ⟨hx, hy, ha⟩

/-- Blanking flags and tags keeps the shape of a grid. -/
theorem gridInv_forget {w h : Nat} {g : Grid} (inv : GridInv w h g) : GridInv w h g.forget := by
  have hget : ∀ {i : Nat} {n : Node}, g.forget.mConnectivityMatrix[i]? = some n →
      ∃ m, g.mConnectivityMatrix[i]? = some m ∧ n = m.forget := by
    intro i n hn
    simp only [Grid.forget, List.getElem?_map] at hn
    cases hm : g.mConnectivityMatrix[i]? with
    | none => rw [hm] at hn; cases hn
    | some m =>
      rw [hm] at hn
      exact ⟨m, rfl, (Option.some.inj hn).symm⟩
  have hadj : ∀ i j, Adj g.forget.mConnectivityMatrix i j ↔ Adj g.mConnectivityMatrix i j := by
    intro i j
    constructor
    · rintro ⟨n, hn, hj⟩
      obtain ⟨m, hm, rfl⟩ := hget hn
      exact ⟨m, hm, hj⟩
    · rintro ⟨m, hm, hj⟩
      exact ⟨m.forget, by simp only [Grid.forget, List.getElem?_map, hm, Option.map_some'], hj⟩
  refine ⟨inv.dimX, inv.dimY, ?_, ?_, ?_, ?_, ?_⟩
  · simp only [Grid.forget, List.length_map]
    exact inv.len
  · intro i n hn
    obtain ⟨m, hm, rfl⟩ := hget hn
    exact inv.coords i m hm
  · intro i j hij
    exact inv.adj_step i j ((hadj i j).mp hij)
  · intro i j hij
    exact (hadj j i).mpr (inv.adj_symm i j ((hadj i j).mp hij))
  · intro i n hn hob
    obtain ⟨m, hm, rfl⟩ := hget hn
    cases hob

/-- In every grid state reached from `Grid(w, h)`, by whatever operations, the
grid with flags and tags blanked has the shape of a grid edited by
`setObstacle` only. -/
theorem gridInv_forget_of_reach {w h : Nat} {g : Grid} (hr : Reach Op.any w h g) :
    GridInv w h g.forget := by
  induction hr with
  | init hc =>
    have hb := ctor_eq_build hc
    subst hb
    exact gridInv_forget (gridInv_build w h)
  | step op _ hop hstep ih =>
    have hrun : ∀ {g1 g2 : Grid} {a b c d : Int}, GridInv w h g1.forget →
        g1.RunAStar a b c d = .ok g2 → GridInv w h g2.forget := by
      intro g1 g2 a b c d inv1 hrun
      obtain ⟨a1, a2, a3⟩ := RunAStar_topo hrun
      exact gridInv_of_agree_topo inv1 a1 a2 (agree_map a3 topo_forget_congr)
    cases op with
    | setObstacle mx my =>
      obtain ⟨g'', h1, h2⟩ := setObstacleCell_forget hstep
      rw [← h2]
      exact gridInv_forget (gridInv_setObstacleCell ih h1)
    | SetGoal mx my =>
      change Grid.SetGoal _ mx my = .ok _ at hstep
      unfold Grid.SetGoal at hstep
      dsimp only at hstep
      split at hstep
      · cases hstep
      · split at hstep
        · split at hstep
          · cases hstep
          · rename_i g1 hg1
            split at hstep
            · cases hstep
            · rename_i g2 hg2
              have e1 := SetCell_forget hg1
              have e2 := SetCell_forget hg2
              exact hrun (by rw [e2, e1]; exact ih) hstep
        · exact hrun ih hstep
    | RunAStar sx sy gx gy => exact hrun ih hstep
    | SetCell x y v =>
      have := SetCell_forget hstep
      rw [this]
      exact ih

theorem flatIndex_of_nat {g : Grid} {w : Nat} (hx : g.mXDimensions = w) {a b : Nat}
    (hlt : b * w + a < 2 ^ 64) : g.flatIndex (a : Int) (b : Int) = b * w + a := by
  unfold Grid.flatIndex
  rw [hx]
  have h1 : ((b : Int) * (w : Int) + (a : Int)) = ((b * w + a : Nat) : Int) := by push_cast; ring
  rw [h1]
  have h2 : (((b * w + a : Nat) : Int) % 2 ^ 64) = ((b * w + a : Nat) : Int) :=
    Int.emod_eq_of_lt (by omega) (by exact_mod_cast hlt)
  rw [h2]
  exact Int.toNat_ofNat _

theorem cell_lt {w h a b : Nat} (ha : a < w) (hb : b < h) : b * w + a < w * h := by
  have h1 : (b + 1) * w ≤ h * w := Nat.mul_le_mul_right w hb
  rw [Nat.succ_mul] at h1
  rw [Nat.mul_comm w h]
  omega

theorem cells_lt_pow {w h : Nat} (hw : w < 2 ^ 31) (hh : h < 2 ^ 31) : w * h < 2 ^ 64 := by
  have h1 : w * h ≤ 2 ^ 31 * 2 ^ 31 := Nat.mul_le_mul (Nat.le_of_lt hw) (Nat.le_of_lt hh)
  have h2 : (2 : Nat) ^ 31 * 2 ^ 31 < 2 ^ 64 := by decide
  omega

theorem cell_mod_div {w a b : Nat} (ha : a < w) : (b * w + a) % w = a ∧ (b * w + a) / w = b := by
  constructor
  · rw [Nat.add_comm, Nat.add_mul_mod_self_right, Nat.mod_eq_of_lt ha]
  · rw [Nat.add_comm, Nat.add_mul_div_right _ _ (by omega), Nat.div_eq_of_lt ha, Nat.zero_add]

theorem inBounds_nat {g : Grid} {x y : Int} (hb : g.InBounds x y) :
    ∃ a b : Nat, x = (a : Int) ∧ y = (b : Int) ∧ a < g.mXDimensions ∧ b < g.mYDimensions := by
  obtain ⟨h1, h2, h3, h4⟩ := hb
  refine ⟨x.toNat, y.toNat, by omega, by omega, by omega, by omega⟩

/-- C12: in every grid state reached from `Grid(w, h)` (`w` and `h` in the range
of `int`) by `setObstacle`, `SetCell`, `SetGoal` and `RunAStar` calls, the cell
array has `w * h` cells, the cell at index `i` has coordinates `x = i % w` and
`y = i / w`, and for every in-bounds `(x, y)` `GetNodePointer` and
`GetNodeReference` return a cell with coordinates `(x, y)`, the only one. -/
theorem C12_cells_are_row_major (w h : Nat) (hw : w < 2 ^ 31) (hh : h < 2 ^ 31) (g : Grid)
    (hr : Reach Op.any w h g) :
    g.mConnectivityMatrix.length = w * h ∧
      (∀ (i : Nat) (n : Node), g.mConnectivityMatrix[i]? = some n →
        n.x = ((i % w : Nat) : Int) ∧ n.y = ((i / w : Nat) : Int)) ∧
      ∀ x y : Int, g.InBounds x y →
        ∃ p n, g.GetNodePointer x y = .ok p ∧ g.GetNodeReference x y = .ok n ∧
          g.mConnectivityMatrix[p]? = some n ∧ n.x = x ∧ n.y = y ∧
          ∀ (q : Nat) (m : Node), g.mConnectivityMatrix[q]? = some m → m.x = x → m.y = y →
            q = p := by
  have inv := gridInv_forget_of_reach hr
  have hlen : g.mConnectivityMatrix.length = w * h := by
    have := inv.len
    simpa only [Grid.forget, List.length_map] using this
  have hcoords : ∀ (i : Nat) (n : Node), g.mConnectivityMatrix[i]? = some n →
      n.x = ((i % w : Nat) : Int) ∧ n.y = ((i / w : Nat) : Int) := by
    intro i n hn
    exact inv.coords i n.forget
      (by simp only [Grid.forget, List.getElem?_map, hn, Option.map_some'])
  refine ⟨hlen, hcoords, ?_⟩
  intro x y hb
  obtain ⟨a, b, rfl, rfl, ha, hb'⟩ := inBounds_nat hb
  have hdx : g.mXDimensions = w := inv.dimX
  have hdy : g.mYDimensions = h := inv.dimY
  rw [hdx] at ha
  rw [hdy] at hb'
  have hlt : b * w + a < w * h := cell_lt ha hb'
  have hfi : g.flatIndex (a : Int) (b : Int) = b * w + a :=
    flatIndex_of_nat hdx (Nat.lt_trans hlt (cells_lt_pow hw hh))
  have hlt' : b * w + a < g.mConnectivityMatrix.length := by rw [hlen]; exact hlt
  obtain ⟨hm, hd⟩ := cell_mod_div (b := b) ha
  have hn : g.mConnectivityMatrix[b * w + a]? = some (g.mConnectivityMatrix[b * w + a]) :=
    List.getElem?_eq_getElem hlt'
  obtain ⟨cx, cy⟩ := hcoords _ _ hn
  rw [hm] at cx
  rw [hd] at cy
  refine ⟨b * w + a, g.mConnectivityMatrix[b * w + a], ?_, ?_, hn, cx, cy, ?_⟩
  · unfold Grid.GetNodePointer
    rw [hfi, if_pos hlt']
  · unfold Grid.GetNodeReference
    rw [hfi]
    exact nodeAt_ok_iff.mpr hn
  · intro q m hq mx my
    obtain ⟨qx, qy⟩ := hcoords q m hq
    rw [mx] at qx
    rw [my] at qy
    apply div_mod_inj
    · rw [hm]; exact_mod_cast qx.symm
    · rw [hd]; exact_mod_cast qy.symm

/-- Witness for C12: `Grid(3, 2)` after `SetCell(1,1,1)`. -/
theorem C12_cells_are_row_major_witness :
    3 < 2 ^ 31 ∧ 2 < 2 ^ 31 ∧
      Reach Op.any 3 2 (Grid.mk 3 2 (setCellAt (Grid.build 3 2).mConnectivityMatrix 4 1)) ∧
      (Grid.mk 3 2 (setCellAt (Grid.build 3 2).mConnectivityMatrix 4 1)).mConnectivityMatrix.length
        = 3 * 2 ∧
      (∀ (i : Nat) (n : Node),
        (Grid.mk 3 2 (setCellAt (Grid.build 3 2).mConnectivityMatrix 4 1)).mConnectivityMatrix[i]?
          = some n → n.x = ((i % 3 : Nat) : Int) ∧ n.y = ((i / 3 : Nat) : Int)) ∧
      ∀ x y : Int, (Grid.mk 3 2 (setCellAt (Grid.build 3 2).mConnectivityMatrix 4 1)).InBounds x y →
        ∃ p n, (Grid.mk 3 2 (setCellAt (Grid.build 3 2).mConnectivityMatrix 4 1)).GetNodePointer x y
            = .ok p ∧
          (Grid.mk 3 2 (setCellAt (Grid.build 3 2).mConnectivityMatrix 4 1)).GetNodeReference x y
            = .ok n ∧
          (Grid.mk 3 2 (setCellAt (Grid.build 3 2).mConnectivityMatrix 4 1)).mConnectivityMatrix[p]?
            = some n ∧ n.x = x ∧ n.y = y ∧
          ∀ (q : Nat) (m : Node),
            (Grid.mk 3 2 (setCellAt (Grid.build 3 2).mConnectivityMatrix 4 1)).mConnectivityMatrix[q]?
              = some m → m.x = x → m.y = y → q = p :=
  ⟨by decide, by decide,
    Reach.step (Op.SetCell 1 1 1) (Reach.init (ctor_natCast 3 2 (by decide) (by decide))) trivial (by decide),
    C12_cells_are_row_major 3 2 (by decide) (by decide) _
      (Reach.step (Op.SetCell 1 1 1) (Reach.init (ctor_natCast 3 2 (by decide) (by decide))) trivial (by decide))⟩

/-! ### `SetCell`, `reIntializeNodes` and the constructor's arguments -/

/-- Two grids that differ in flags and tags only give the same search result. -/
theorem runAStar_of_forget_eq {g1 g2 : Grid} (h : g1.forget = g2.forget) (sx sy gx gy : Int) :
    (g1.RunAStar sx sy gx gy).map Grid.searchFields =
      (g2.RunAStar sx sy gx gy).map Grid.searchFields := by
  have hs : g1.forget.search sx sy gx gy = g2.forget.search sx sy gx gy := by rw [h]
  rw [search_forget, search_forget] at hs
  have key : ∀ g : Grid, (g.RunAStar sx sy gx gy).map Grid.searchFields =
      ((g.search sx sy gx gy).map Search.forget).map
        (fun st => st.nodes.map Node.searchFields) := by
    intro g
    unfold Grid.RunAStar
    cases g.search sx sy gx gy with
    | error e => rfl
    | ok st =>
      simp only [Except.map, Grid.searchFields, Search.forget, List.map_map]
      rfl
  rw [key, key, hs]

/-- C17 (as the code has it): in every grid state reached from `Grid(w, h)` and
for every in-bounds `(x, y)` and every tag, `SetCell(x, y, tag)` succeeds and
`GetCellValue(x, y)` then returns `tag`; it writes `mValue` of cell `(x, y)`
and, when `tag` is `1`, sets `mIsObstacle` of that cell; nothing else of that
cell and no other cell changes, and `RunAStar` leaves the same scores and
parents as it would without the `SetCell` call. -/
theorem C17_SetCell_writes_tag_and_flag (w h : Nat) (g : Grid) (hr : Reach Op.any w h g)
    (x y tag : Int) (hb : g.InBounds x y) :
    ∃ g' n, g.SetCell x y tag = .ok g' ∧ g'.GetCellValue x y = .ok tag ∧
      g'.mXDimensions = g.mXDimensions ∧ g'.mYDimensions = g.mYDimensions ∧
      g.mConnectivityMatrix[g.flatIndex x y]? = some n ∧
      g'.mConnectivityMatrix[g.flatIndex x y]? = some (n.withTag tag) ∧
      (n.withTag tag).untagged = n.untagged ∧
      (n.withTag tag).mIsObstacle = (if tag = 1 then true else n.mIsObstacle) ∧
      (∀ i : Nat, i ≠ g.flatIndex x y → g'.mConnectivityMatrix[i]? = g.mConnectivityMatrix[i]?) ∧
      ∀ startX startY goalX goalY : Int,
        (g'.RunAStar startX startY goalX goalY).map Grid.searchFields =
          (g.RunAStar startX startY goalX goalY).map Grid.searchFields := by
  have inv := gridInv_forget_of_reach hr
  have hlt : g.flatIndex x y < g.mConnectivityMatrix.length := by
    have := flatIndex_lt_of_inBounds inv (x := x) (y := y) hb
    simpa only [Grid.forget, List.length_map] using this
  have hs : g.SetCell x y tag =
      .ok { g with mConnectivityMatrix := setCellAt g.mConnectivityMatrix (g.flatIndex x y) tag } := by
    unfold Grid.SetCell
    rw [if_pos hlt]
  have hn : g.mConnectivityMatrix[g.flatIndex x y]? = some (g.mConnectivityMatrix[g.flatIndex x y]) :=
    List.getElem?_eq_getElem hlt
  have hn' : (setCellAt g.mConnectivityMatrix (g.flatIndex x y) tag)[g.flatIndex x y]? =
      some ((g.mConnectivityMatrix[g.flatIndex x y]).withTag tag) := by
    rw [setCellAt_getElem?, hn]
    simp [Node.withTag]
  refine ⟨_, _, hs, ?_, rfl, rfl, hn, hn', rfl, rfl, ?_, ?_⟩
  · unfold Grid.GetCellValue
    have hfi : Grid.flatIndex
        { g with mConnectivityMatrix := setCellAt g.mConnectivityMatrix (g.flatIndex x y) tag }
        x y = g.flatIndex x y := rfl
    rw [hfi, nodeAt_ok_iff.mpr hn']
    rfl
  · intro i hi
    show (setCellAt g.mConnectivityMatrix (g.flatIndex x y) tag)[i]? = _
    rw [setCellAt_getElem?]
    cases g.mConnectivityMatrix[i]? <;> simp [hi]
  · intro startX startY goalX goalY
    exact runAStar_of_forget_eq (SetCell_forget hs) _ _ _ _

/-- Witness for C17: `SetCell(1, 1, 1)` on `Grid(3, 2)`. -/
theorem C17_SetCell_writes_tag_and_flag_witness :
    Reach Op.any 3 2 (Grid.build 3 2) ∧ (Grid.build 3 2).InBounds 1 1 ∧
      ∃ g' n, (Grid.build 3 2).SetCell 1 1 1 = .ok g' ∧ g'.GetCellValue 1 1 = .ok 1 ∧
        g'.mXDimensions = (Grid.build 3 2).mXDimensions ∧
        g'.mYDimensions = (Grid.build 3 2).mYDimensions ∧
        (Grid.build 3 2).mConnectivityMatrix[(Grid.build 3 2).flatIndex 1 1]? = some n ∧
        g'.mConnectivityMatrix[(Grid.build 3 2).flatIndex 1 1]? = some (n.withTag 1) ∧
        (n.withTag 1).untagged = n.untagged ∧
        (n.withTag 1).mIsObstacle = (if (1 : Int) = 1 then true else n.mIsObstacle) ∧
        (∀ i : Nat, i ≠ (Grid.build 3 2).flatIndex 1 1 →
          g'.mConnectivityMatrix[i]? = (Grid.build 3 2).mConnectivityMatrix[i]?) ∧
        ∀ startX startY goalX goalY : Int,
          (g'.RunAStar startX startY goalX goalY).map Grid.searchFields =
            ((Grid.build 3 2).RunAStar startX startY goalX goalY).map Grid.searchFields :=
  ⟨Reach.init (ctor_natCast 3 2 (by decide) (by decide)), by decide,
    C17_SetCell_writes_tag_and_flag 3 2 (Grid.build 3 2) (Reach.init (ctor_natCast 3 2 (by decide) (by decide))) 1 1 1
      (by decide)⟩

/-- C17 fails for the tag `1`: on `Grid(3, 2)`, whose cell `(1, 1)` is not an
obstacle, `SetCell(1, 1, 1)` sets the obstacle flag of that cell. -/
theorem C17_tag_one_sets_obstacle_flag :
    (Grid.ctor 3 2).map (fun g => g.markAt 4) = .ok (some (false, 0)) ∧
      ((Grid.ctor 3 2).bind (fun g => g.SetCell 1 1 1)).map (fun g => g.markAt 4) =
        .ok (some (true, 1)) := by
  decide!

/-- C18 (as the code has it): the constructor checks nothing and there is no
`InvalidDimensions` result. For `int` arguments of which one is not positive:
`Grid(0, height)` with `height` not negative and `Grid(width, 0)` with `width`
from `0` to `2147483644` return a grid with those dimensions and no cells;
with a negative width or height, or a width above `2147483644`, a loop counter
of type `int` is incremented past `INT_MAX`, and the constructor has no
defined result. -/
theorem C18_nonpositive_dimensions (width height : Int)
    (hint : -2 ^ 31 ≤ width ∧ width < 2 ^ 31 ∧ -2 ^ 31 ≤ height ∧ height < 2 ^ 31)
    (hnp : width ≤ 0 ∨ height ≤ 0) :
    ((width = 0 ∧ 0 ≤ height) ∨
        (height = 0 ∧ 0 ≤ width ∧ width ≤ 2147483644) →
      ∃ g, Grid.ctor width height = .ok g ∧ (g.mXDimensions : Int) = width ∧
        (g.mYDimensions : Int) = height ∧ g.mConnectivityMatrix = []) ∧
    (width < 0 ∨ height < 0 ∨ 2147483644 < width →
      Grid.ctor width height = .error .overflow) := by
  have hm : intMax = 2147483647 := rfl
  constructor
  · rintro (⟨rfl, h0⟩ | ⟨rfl, h0, h1⟩)
    · obtain ⟨h, rfl⟩ : ∃ h : Nat, height = (h : Int) := ⟨height.toNat, by omega⟩
      have hh : h < 2 ^ 31 := by omega
      refine ⟨Grid.mk 0 h [], ?_, rfl, rfl, rfl⟩
      unfold Grid.ctor
      rw [if_neg (by omega)]
      have e0 : ((0 : Int) % 2 ^ 64).toNat = 0 := by decide
      simp only [e0, size_of_nat hh, counters_one_isOk (show h ≤ intMax by omega),
        counters_one_isOk (show 0 ≤ intMax by omega),
        counters_four_isOk (show 0 ≤ 2147483644 by omega), loopNest_isOk]
      simp only [List.range_zero, List.foldl_nil, foldl_keep]
      rfl
    · obtain ⟨w, rfl⟩ : ∃ w : Nat, width = (w : Int) := ⟨width.toNat, by omega⟩
      refine ⟨Grid.build w 0, ctor_natCast w 0 (by omega) (by omega), rfl, rfl, ?_⟩
      have hlen := (gridInv_build w 0).len
      rw [Nat.mul_zero] at hlen
      exact List.length_eq_zero.mp hlen
  · intro hbad
    unfold Grid.ctor
    split
    · rename_i hout
      exfalso
      omega
    · rename_i hr
      by_cases hy : height < 0
      · have hb : intMax < (height % 2 ^ 64).toNat := by
          rw [hm]; exact size_of_neg (by omega) hy
        simp only [counters_one_overflow hb, loopNest_outer_error]
      · obtain ⟨h, rfl⟩ : ∃ h : Nat, height = (h : Int) := ⟨height.toNat, by omega⟩
        have hh : h < 2 ^ 31 := by omega
        have hbx : 2147483644 < (width % 2 ^ 64).toNat := by
          by_cases hx : width < 0
          · have := size_of_neg (x := width) (by omega) hx
            omega
          · omega
        simp only [size_of_nat hh, counters_one_isOk (show h ≤ intMax by omega)]
        rcases Nat.eq_zero_or_pos h with rfl | hpos
        · simp only [List.range_zero, loopNest_empty, counters_four_overflow hbx,
            loopNest_outer_error]
        · have hx : width < 0 := by omega
          have hb : intMax < (width % 2 ^ 64).toNat := by
            rw [hm]; exact size_of_neg (by omega) hx
          simp only [counters_one_overflow hb, loopNest_inner_error (range_ne_nil hpos)]

/-- Witness for C18: `Grid(0, 5)` returns an empty grid, `Grid(-1, 0)` has no
defined result. -/
theorem C18_nonpositive_dimensions_witness :
    (-2 ^ 31 ≤ (0 : Int) ∧ (0 : Int) < 2 ^ 31 ∧ -2 ^ 31 ≤ (5 : Int) ∧ (5 : Int) < 2 ^ 31) ∧
      ((0 : Int) ≤ 0 ∨ (5 : Int) ≤ 0) ∧
      (-2 ^ 31 ≤ (-1 : Int) ∧ (-1 : Int) < 2 ^ 31 ∧ -2 ^ 31 ≤ (0 : Int) ∧ (0 : Int) < 2 ^ 31) ∧
      ((-1 : Int) ≤ 0 ∨ (0 : Int) ≤ 0) ∧
      (∃ g, Grid.ctor 0 5 = .ok g ∧ (g.mXDimensions : Int) = 0 ∧
        (g.mYDimensions : Int) = 5 ∧ g.mConnectivityMatrix = []) ∧
      Grid.ctor (-1) 0 = .error .overflow :=
  ⟨by decide, by decide, by decide, by decide,
    (C18_nonpositive_dimensions 0 5 (by decide) (by decide)).1 (Or.inl ⟨rfl, by decide⟩),
    (C18_nonpositive_dimensions (-1) 0 (by decide) (by decide)).2 (Or.inl (by decide))⟩

/-- C18 fails: `Grid(0, 5)` and `Grid(5, 0)` yield a grid, with no cells. -/
theorem C18_zero_dimension_gives_empty_grid :
    Grid.ctor 0 5 = .ok { mXDimensions := 0, mYDimensions := 5, mConnectivityMatrix := [] } ∧
      Grid.ctor 5 0 = .ok { mXDimensions := 5, mYDimensions := 0, mConnectivityMatrix := [] } := by
  decide!

/-- C16 (as the code has it): `reIntializeNodes` keeps the dimensions and the
number of cells; afterwards every cell has `mParent` null and `localScore` and
`globalScore` equal to `100000000.0`, the `float` nearest to `99999999`, and
its coordinates, adjacency set, obstacle flag and tag are unchanged. -/
theorem C16_reIntializeNodes_resets_search_fields (g : Grid) :
    g.reIntializeNodes.mXDimensions = g.mXDimensions ∧
      g.reIntializeNodes.mYDimensions = g.mYDimensions ∧
      g.reIntializeNodes.mConnectivityMatrix.length = g.mConnectivityMatrix.length ∧
      ∀ i : Nat,
        (g.reIntializeNodes.mConnectivityMatrix[i]?).map Node.searchFields =
            (g.mConnectivityMatrix[i]?).map (fun _ => (100000000 * one, 100000000 * one, none)) ∧
          (g.reIntializeNodes.mConnectivityMatrix[i]?).map Node.unsearched =
            (g.mConnectivityMatrix[i]?).map Node.unsearched := by
  refine ⟨rfl, rfl, by simp [Grid.reIntializeNodes], fun i => ?_⟩
  simp only [Grid.reIntializeNodes, List.getElem?_map, Option.map_map]
  cases g.mConnectivityMatrix[i]? with
  | none => exact ⟨rfl, rfl⟩
  | some n =>
    refine ⟨?_, rfl⟩
    simp only [Option.map_some', Function.comp_apply, Node.searchFields, ofInt_sentinel]

/-- C16 fails: the value `reIntializeNodes` writes is finite, and not greater
than every finite path cost. On the grid `Grid(100000002, 1)` of one row the
cell `(100000001, 0)` gets `localScore` `100000000.0`, and the shortest path to
it from `(0, 0)` has `100000001` steps. -/
theorem C16_initial_score_is_finite :
    (∃ s, ((Grid.build 100000002 1).reIntializeNodes.resultAt 100000001).map Prod.snd = some s ∧
        s = 100000000 * one ∧ s < 100000001 * one) ∧
      WalkLen (Grid.build 100000002 1).mConnectivityMatrix 0 100000001 100000001 ∧
      ∀ k, WalkLen (Grid.build 100000002 1).mConnectivityMatrix 0 100000001 k →
        100000001 ≤ k := by
  refine ⟨?_, row_walk 100000002 100000001 (by decide),
    fun k hk => row_dist 100000002 100000001 k (by decide) hk⟩
  obtain ⟨n, hn, _⟩ := row_free 100000002 100000001 (by decide)
  refine ⟨100000000 * one, ?_, rfl, Nat.mul_lt_mul_of_pos_right (by decide) one_gt_zero⟩
  unfold Grid.resultAt
  simp only [Grid.reIntializeNodes, List.getElem?_map, hn, Option.map_some', ofInt_sentinel]

/-! ### The priority queue on its own -/

theorem QueueOK.live_iff {q : PriorityQueue} {live : Nat → Prop} {k : Nat → Nat}
    (ok : QueueOK q live k) (u : Nat) : live u ↔ q.hasEntry u := by
  constructor
  · intro hu
    exact ok.covered u hu
  · rintro ⟨en, hen, rfl⟩
    exact (ok.entry en hen).1

theorem multimapInsert_ties {e : PQEntry} {l : List PQEntry}
    (hs : l.Pairwise (fun a b => a.key ≤ b.key))
    (ht : l.Pairwise (fun a b => a.key = b.key → a.it < b.it)) (hnew : ∀ a ∈ l, a.it < e.it) :
    (multimapInsert e l).Pairwise (fun a b => a.key = b.key → a.it < b.it) := by
  induction l with
  | nil => simp [multimapInsert]
  | cons a l ih =>
    unfold multimapInsert
    rw [List.pairwise_cons] at hs ht
    split
    · rename_i hlt
      rw [List.pairwise_cons, List.pairwise_cons]
      refine ⟨?_, ht⟩
      intro b hb hk
      rcases List.mem_cons.mp hb with rfl | hb
      · omega
      · have := hs.1 b hb
        omega
    · rw [List.pairwise_cons]
      refine ⟨?_, ih hs.2 ht.2 (fun b hb => hnew b (List.mem_cons_of_mem _ hb))⟩
      intro b hb
      rcases mem_multimapInsert.mp hb with rfl | hb
      · intro _
        exact hnew a (List.mem_cons_self _ _)
      · exact ht.1 b hb

theorem lookup_filter_self (node : Nat) (m : List (Nat × Nat)) :
    (m.filter (fun kv => kv.1 != node)).lookup node = none := by
  induction m with
  | nil => rfl
  | cons kv m ih =>
    obtain ⟨k, v⟩ := kv
    by_cases hk : k = node
    · subst hk
      simp [List.filter, ih]
    · have h2 : (k != node) = true := by simpa using hk
      have h3 : (node == k) = false := by simpa using Ne.symm hk
      simp only [List.filter, h2, List.lookup, h3]
      exact ih

theorem stable_push {q : PriorityQueue} (v k : Nat)
    (hs : q.map.Pairwise (fun a b => a.key ≤ b.key))
    (ht : q.map.Pairwise (fun a b => a.key = b.key → a.it < b.it))
    (hf : ∀ a ∈ q.map, a.it < q.fresh)
    (hi : ∀ u i, u ≠ v → q.node_map.lookup u = some i → ∃ e ∈ q.map, e.node = u ∧ e.it = i) :
    QueueStable (q.push v k) := by
  constructor
  · exact multimapInsert_ties hs ht hf
  · intro u i hu
    simp only [PriorityQueue.push, lookup_nodeMapSet] at hu ⊢
    by_cases huv : u = v
    · rw [if_pos huv] at hu
      cases hu
      exact ⟨_, mem_multimapInsert.mpr (Or.inl rfl), huv.symm, rfl⟩
    · rw [if_neg huv] at hu
      obtain ⟨e, he, h1, h2⟩ := hi u i huv hu
      exact ⟨e, mem_multimapInsert.mpr (Or.inr he), h1, h2⟩

/-- What holds of every queue state that legal use produces. -/
theorem qreach_inv {q : PriorityQueue} (hq : QReach q) :
    (∃ (live : Nat → Prop) (k : Nat → Nat), QueueOK q live k) ∧ QueueStable q := by
  induction hq with
  | new => exact ⟨⟨_, fun _ => 0, queueOK_new _⟩, ⟨List.Pairwise.nil, fun v i h => by cases h⟩⟩
  | push node score _ hno ih =>
    obtain ⟨⟨live, k, ok⟩, st⟩ := ih
    constructor
    · refine ⟨fun u => u = node ∨ live u, fun u => if u = node then score else k u,
        ok.push node score (fun hc => hno ((ok.live_iff node).mp hc)) (fun _ => Iff.rfl) ?_
          (if_pos rfl)⟩
      intro u hu
      have : u ≠ node := fun hc => hno ((ok.live_iff node).mp (hc ▸ hu))
      exact if_neg this
    · exact stable_push node score ok.sorted st.ties (fun a ha => (ok.entry a ha).2.2.2)
        (fun u i _ h => st.index_only u i h)
  | @decrease_key q0 q1 node score _ hhas hdk ih =>
    obtain ⟨⟨live, k, ok⟩, st⟩ := ih
    have hv : live node := (ok.live_iff node).mpr hhas
    obtain ⟨q2, hq2, ok2⟩ := @QueueOK.decrease_key _ _ _ (fun u => if u = node then score else k u)
      ok node score hv (fun u _ hne => if_neg hne) (if_pos rfl)
    rw [hdk] at hq2
    cases hq2
    refine ⟨⟨_, _, ok2⟩, ?_⟩
    obtain ⟨en, hen, hnode⟩ := hhas
    have hlook : q0.node_map.lookup node = some en.it := hnode ▸ (ok.entry en hen).2.2.1
    unfold PriorityQueue.decrease_key at hdk
    rw [hlook] at hdk
    simp only at hdk
    split at hdk
    · cases hdk
      apply stable_push
      · exact ok.sorted.sublist (List.filter_sublist _)
      · exact st.ties.sublist (List.filter_sublist _)
      · intro a ha
        exact (ok.entry a (List.mem_filter.mp ha).1).2.2.2
      · intro u i hu hl
        obtain ⟨e, he, h1, h2⟩ := st.index_only u i hl
        refine ⟨e, List.mem_filter.mpr ⟨he, ?_⟩, h1, h2⟩
        simp only [bne_iff_ne, ne_eq]
        intro hc
        have : e = en := List.inj_on_of_nodup_map ok.its_nodup he hen hc
        rw [this, hnode] at h1
        exact hu h1.symm
    · cases hdk
  | @pop q0 q1 _ hpop ih =>
    obtain ⟨⟨live, k, ok⟩, st⟩ := ih
    cases hm : q0.map with
    | nil => simp [PriorityQueue.pop, hm] at hpop
    | cons e l =>
      have hne : q0.empty = false := by simp [PriorityQueue.empty, hm]
      obtain ⟨curr, q', _, hp', _, _, ok'⟩ := ok.pop hne
      rw [hpop] at hp'
      cases hp'
      refine ⟨⟨_, _, ok'⟩, ?_⟩
      simp only [PriorityQueue.pop, hm, Except.ok.injEq] at hpop
      subst hpop
      have ht := st.ties
      have hnd := ok.nodes_nodup
      rw [hm] at ht hnd
      simp only [List.map_cons, List.nodup_cons, List.pairwise_cons] at ht hnd
      constructor
      · exact ht.2
      · intro u i hu
        simp only at hu ⊢
        by_cases hue : u = e.node
        · rw [hue, lookup_filter_self] at hu
          cases hu
        · rw [lookup_filter_ne _ _ _ hue] at hu
          obtain ⟨e', he', h1, h2⟩ := st.index_only u i hu
          rw [hm] at he'
          rcases List.mem_cons.mp he' with rfl | he'
          · exact absurd h1.symm hue
          · exact ⟨e', he', h1, h2⟩

/-- C13: in every queue state produced by `push`, `decrease_key` and `pop`
calls, with `push` only for cells without a live entry and `decrease_key` only
for cells with one, if the queue is not empty then `top` returns and `pop`
removes one entry `e`, which has the smallest recorded score of all entries
and, among the entries with that score, was inserted earliest. -/
theorem C13_top_is_earliest_minimum (q : PriorityQueue) (hq : QReach q)
    (hne : q.empty = false) :
    ∃ e q', e ∈ q.map ∧ q.top = .ok e.node ∧ q.pop = .ok q' ∧ q'.map = q.map.erase e ∧
      ¬ q'.hasEntry e.node ∧ (∀ e' ∈ q.map, e.key ≤ e'.key) ∧
      ∀ e' ∈ q.map, e'.key = e.key → e' ≠ e → e.it < e'.it := by
  obtain ⟨⟨live, k, ok⟩, st⟩ := qreach_inv hq
  cases hm : q.map with
  | nil => simp [PriorityQueue.empty, hm] at hne
  | cons e l =>
    have hs := ok.sorted
    have ht := st.ties
    have hnd := ok.nodes_nodup
    rw [hm] at hs ht hnd
    simp only [List.map_cons, List.nodup_cons, List.pairwise_cons] at hs ht hnd
    refine ⟨e, { q with map := l, node_map := q.node_map.filter (fun kv => kv.1 != e.node) },
      List.mem_cons_self _ _, by simp [PriorityQueue.top, hm], by simp [PriorityQueue.pop, hm],
      by simp, ?_, ?_, ?_⟩
    · rintro ⟨e', he', hn⟩
      exact hnd.1 (List.mem_map.mpr ⟨e', he', hn⟩)
    · intro e' he'
      rcases List.mem_cons.mp he' with rfl | he'
      · exact Nat.le_refl _
      · exact hs.1 e' he'
    · intro e' he' hk hne'
      rcases List.mem_cons.mp he' with rfl | he'
      · exact absurd rfl hne'
      · exact ht.1 e' he' hk.symm

/-- Witness for C13: cells `1` and `2` pushed with the same score `5`, then
cell `3` with score `7`; `top` is cell `1`. -/
theorem C13_top_is_earliest_minimum_witness :
    QReach (((PriorityQueue.new.push 1 5).push 2 5).push 3 7) ∧
      (((PriorityQueue.new.push 1 5).push 2 5).push 3 7).empty = false ∧
      (((PriorityQueue.new.push 1 5).push 2 5).push 3 7).top = .ok 1 ∧
      ∃ e q', e ∈ (((PriorityQueue.new.push 1 5).push 2 5).push 3 7).map ∧
        (((PriorityQueue.new.push 1 5).push 2 5).push 3 7).top = .ok e.node ∧
        (((PriorityQueue.new.push 1 5).push 2 5).push 3 7).pop = .ok q' ∧
        q'.map = (((PriorityQueue.new.push 1 5).push 2 5).push 3 7).map.erase e ∧
        ¬ q'.hasEntry e.node ∧
        (∀ e' ∈ (((PriorityQueue.new.push 1 5).push 2 5).push 3 7).map, e.key ≤ e'.key) ∧
        ∀ e' ∈ (((PriorityQueue.new.push 1 5).push 2 5).push 3 7).map,
          e'.key = e.key → e' ≠ e → e.it < e'.it :=
  ⟨QReach.push 3 7 (QReach.push 2 5 (QReach.push 1 5 QReach.new (by decide)) (by decide))
      (by decide), by decide, by decide,
    C13_top_is_earliest_minimum _
      (QReach.push 3 7 (QReach.push 2 5 (QReach.push 1 5 QReach.new (by decide)) (by decide))
        (by decide)) (by decide)⟩

/-- C15 (as the code has it): the queue has no error results and checks none of
its preconditions. `push` of a cell always adds an entry, also when the cell
has one already (`node_map` then points to the new entry); in a queue state
that legal use produces, `decrease_key` of a cell without a live entry has no
defined result, and so have `top` and `pop` on an empty queue. -/
theorem C15_queue_misuse_not_reported (q : PriorityQueue) (node score : Nat) :
    ((q.push node score).map.filter (fun e => e.node == node)).length =
        (q.map.filter (fun e => e.node == node)).length + 1 ∧
      (q.push node score).map.length = q.map.length + 1 ∧
      (q.push node score).node_map.lookup node = some q.fresh ∧
      (QReach q → ¬ q.hasEntry node → q.decrease_key node score = .error .badQueueUse) ∧
      (q.empty = true → q.top = .error .badQueueUse ∧ q.pop = .error .badQueueUse) := by
  refine ⟨?_, ?_, ?_, ?_, ?_⟩
  · have := ((multimapInsert_perm ⟨score, node, q.fresh⟩ q.map).filter
      (fun e => e.node == node)).length_eq
    simp only [PriorityQueue.push]
    rw [this, List.filter_cons]
    simp
  · simp only [PriorityQueue.push]
    rw [(multimapInsert_perm _ _).length_eq]
    rfl
  · simp only [PriorityQueue.push, lookup_nodeMapSet, if_true]
  · intro hq hno
    obtain ⟨_, st⟩ := qreach_inv hq
    unfold PriorityQueue.decrease_key
    cases hl : q.node_map.lookup node with
    | none => rfl
    | some i =>
      obtain ⟨e, he, h1, _⟩ := st.index_only node i hl
      exact absurd ⟨e, he, h1⟩ hno
  · intro hemp
    cases hm : q.map with
    | nil => simp [PriorityQueue.top, PriorityQueue.pop, hm]
    | cons e l => simp [PriorityQueue.empty, hm] at hemp

/-- Witness for C15: `decrease_key` of cell `2` in a queue that holds cell `1`
only, and `top` and `pop` of the empty queue. -/
theorem C15_queue_misuse_not_reported_witness :
    QReach (PriorityQueue.new.push 1 5) ∧ ¬ (PriorityQueue.new.push 1 5).hasEntry 2 ∧
      (PriorityQueue.new.push 1 5).decrease_key 2 3 = .error .badQueueUse ∧
      PriorityQueue.new.empty = true ∧
      PriorityQueue.new.top = .error .badQueueUse ∧
      PriorityQueue.new.pop = .error .badQueueUse :=
  ⟨QReach.push 1 5 QReach.new (by decide), by decide,
    (C15_queue_misuse_not_reported (PriorityQueue.new.push 1 5) 2 3).2.2.2.1
      (QReach.push 1 5 QReach.new (by decide)) (by decide),
    by decide,
    (C15_queue_misuse_not_reported PriorityQueue.new 0 0).2.2.2.2 (by decide)⟩

/-- C15 fails: `push` of a cell that has a live entry reports nothing and
creates a second entry for it. -/
theorem C15_push_twice_gives_two_entries :
    ((PriorityQueue.new.push 7 5).push 7 3).map =
      [{ key := 3, node := 7, it := 1 }, { key := 5, node := 7, it := 0 }] := by
  decide

/-! ### The grid the constructor builds -/

theorem withTag_one_idem (n : Node) : (n.withTag 1).withTag 1 = n.withTag 1 := rfl

theorem inner_marks (w i : Nat) :
    ∀ (J : List Nat) (nodes : List Node) (k : Nat),
      (J.foldl (fun acc2 j => setCellAt acc2 (j * w + i) 1) nodes)[k]? =
        (nodes[k]?).map (fun n => if (∃ j ∈ J, k = j * w + i) then n.withTag 1 else n) := by
  intro J
  induction J with
  | nil =>
    intro nodes k
    rw [List.foldl_nil]
    cases nodes[k]? <;> simp
  | cons j J ih =>
    intro nodes k
    rw [List.foldl_cons, ih, setCellAt_getElem?]
    cases nodes[k]? with
    | none => rfl
    | some n =>
      simp only [Option.map_some', Option.some.injEq, List.mem_cons, exists_eq_or_imp]
      by_cases hk : k = j * w + i
      · simp only [hk, if_true, true_or]
        split <;> rfl
      · simp only [hk, if_false, false_or]

theorem outer_marks (w : Nat) (J : List Nat) :
    ∀ (I : List Nat) (nodes : List Node) (k : Nat),
      (I.foldl (fun acc i => J.foldl (fun acc2 j => setCellAt acc2 (j * w + i) 1) acc) nodes)[k]? =
        (nodes[k]?).map
          (fun n => if (∃ i ∈ I, ∃ j ∈ J, k = j * w + i) then n.withTag 1 else n) := by
  intro I
  induction I with
  | nil =>
    intro nodes k
    rw [List.foldl_nil]
    cases nodes[k]? <;> simp
  | cons i I ih =>
    intro nodes k
    rw [List.foldl_cons, ih, inner_marks]
    cases nodes[k]? with
    | none => rfl
    | some n =>
      simp only [Option.map_some', Option.some.injEq, List.mem_cons, exists_eq_or_imp]
      by_cases h1 : ∃ j ∈ J, k = j * w + i
      · simp only [h1, if_true, true_or]
        split <;> rfl
      · simp only [h1, if_false, false_or]

theorem mem_fours {n i : Nat} : i ∈ fours n ↔ i < n ∧ 4 ≤ i ∧ i % 4 = 0 := by
  simp [fours]

/-- The cells the constructor marks as obstacles, by flat index. -/
theorem marked_iff {w h k : Nat} (hk : k < w * h) :
    (∃ i ∈ fours w, ∃ j ∈ fours h, k = j * w + i) ↔
      (4 ≤ k % w ∧ k % w % 4 = 0 ∧ 4 ≤ k / w ∧ k / w % 4 = 0) := by
  have hw : 0 < w := by
    rcases Nat.eq_zero_or_pos w with h0 | h0
    · subst h0; simp at hk
    · exact h0
  constructor
  · rintro ⟨i, hi, j, hj, rfl⟩
    obtain ⟨hi1, hi2, hi3⟩ := mem_fours.mp hi
    obtain ⟨hj1, hj2, hj3⟩ := mem_fours.mp hj
    obtain ⟨hm, hd⟩ := cell_mod_div (b := j) hi1
    rw [hm, hd]
    exact ⟨hi2, hi3, hj2, hj3⟩
  · rintro ⟨h1, h2, h3, h4⟩
    refine ⟨k % w, mem_fours.mpr ⟨Nat.mod_lt _ hw, h1, h2⟩, k / w,
      mem_fours.mpr ⟨Nat.div_lt_of_lt_mul hk, h3, h4⟩, ?_⟩
    rw [Nat.mul_comm]
    exact (Nat.div_add_mod k w).symm

theorem markObstacles_get {w h k : Nat} (hk : k < w * h) :
    ∃ n, (markObstacles w h (emplaceAll w h))[k]? = some n ∧
      (n.mIsObstacle = true ↔ (4 ≤ k % w ∧ k % w % 4 = 0 ∧ 4 ≤ k / w ∧ k / w % 4 = 0)) := by
  unfold markObstacles
  rw [outer_marks, emplaceAll_getElem? w h k hk]
  simp only [Option.map_some']
  refine ⟨_, rfl, ?_⟩
  rw [← marked_iff hk]
  split
  · rename_i hp
    simp [Node.withTag, hp]
  · rename_i hp
    simp [Node.ctor, hp]

/-- Every cell of the grid the constructor builds: coordinates, obstacle flag
and adjacency set, by flat index. -/
theorem build_cell {w h i : Nat} (hi : i < w * h) :
    ∃ n, (Grid.build w h).mConnectivityMatrix[i]? = some n ∧
      n.x = ((i % w : Nat) : Int) ∧ n.y = ((i / w : Nat) : Int) ∧
      (n.mIsObstacle = true ↔ (4 ≤ i % w ∧ i % w % 4 = 0 ∧ 4 ≤ i / w ∧ i / w % 4 = 0)) ∧
      ∀ j, j ∈ n.mAdjacentNeighbors ↔
        (Step w h i j ∧ n.mIsObstacle = false ∧
          ¬ (4 ≤ j % w ∧ j % w % 4 = 0 ∧ 4 ≤ j / w ∧ j / w % 4 = 0)) := by
  obtain ⟨slen, sspec⟩ := markObstacles_spec w h
  have inv0 : LinkInv w h (markObstacles w h (emplaceAll w h)) 0
      (markObstacles w h (emplaceAll w h)) := by
    refine ⟨slen, fun _ => rfl, fun i j n hin => ?_⟩
    rw [(sspec i n hin).2.2]
    simp
  obtain ⟨flen, fframe, fadj⟩ := linkAll_linkInv inv0
  have hflag : ∀ {k : Nat}, k < w * h →
      ∃ m, (linkAll w h (markObstacles w h (emplaceAll w h)))[k]? = some m ∧
        (m.mIsObstacle = true ↔ (4 ≤ k % w ∧ k % w % 4 = 0 ∧ 4 ≤ k / w ∧ k / w % 4 = 0)) := by
    intro k hk
    obtain ⟨s, hs, hso⟩ := markObstacles_get hk
    have hlt : k < (linkAll w h (markObstacles w h (emplaceAll w h))).length := by
      rw [flen]; exact hk
    refine ⟨_, List.getElem?_eq_getElem hlt, ?_⟩
    have := fframe k
    rw [List.getElem?_eq_getElem hlt, hs] at this
    simp only [Option.map_some', Option.some.injEq] at this
    have hob := congrArg Node.mIsObstacle this
    simp only [Node.noAdj] at hob
    rw [hob]
    exact hso
  obtain ⟨n, hn, hno⟩ := hflag hi
  have hc := (gridInv_build w h).coords i n hn
  refine ⟨n, hn, hc.1, hc.2, hno, ?_⟩
  intro j
  rw [fadj i j n hn]
  constructor
  · rintro ⟨_, hstep, hfree, m, hm, hmf⟩
    refine ⟨hstep, hfree, ?_⟩
    obtain ⟨m', hm', hmo⟩ := hflag (step_lt hi hstep)
    rw [hm] at hm'
    cases hm'
    intro hc
    rw [hmo.mpr hc] at hmf
    cases hmf
  · rintro ⟨hstep, hfree, hnj⟩
    obtain ⟨m, hm, hmo⟩ := hflag (step_lt hi hstep)
    refine ⟨hi, hstep, hfree, m, hm, ?_⟩
    cases hmf : m.mIsObstacle with
    | false => rfl
    | true => exact absurd (hmo.mp hmf) hnj

theorem obstacleCell_nat {w a b : Nat} (ha : a < w) :
    obstacleCell (a : Int) (b : Int) ↔
      (4 ≤ (b * w + a) % w ∧ (b * w + a) % w % 4 = 0 ∧ 4 ≤ (b * w + a) / w ∧
        (b * w + a) / w % 4 = 0) := by
  obtain ⟨hm, hd⟩ := cell_mod_div (b := b) ha
  rw [hm, hd]
  unfold obstacleCell
  omega

theorem build_inBounds {w h : Nat} {x y : Int} :
    (Grid.build w h).InBounds x y ↔ (0 ≤ x ∧ x < (w : Int) ∧ 0 ≤ y ∧ y < (h : Int)) := Iff.rfl

/-- C11: the grid that `Grid(w, h)` builds (`w` and `h` in the range of `int`).
Every in-bounds `(x, y)` resolves to a cell with these coordinates; the cell is
an obstacle exactly if `x` and `y` are both positive multiples of `4`; an
obstacle has an empty adjacency set; the adjacency set of any other cell
consists exactly of its left, right, upper and lower cells that are in bounds
and not obstacles. -/
theorem C11_initial_topology (w h : Nat) (hw : w < 2 ^ 31) (hh : h < 2 ^ 31) (g : Grid)
    (hg : Grid.ctor (w : Int) (h : Int) = .ok g) (x y : Int) (hb : g.InBounds x y) :
    ∃ n, g.GetNodeReference x y = .ok n ∧ n.x = x ∧ n.y = y ∧
      (n.mIsObstacle = true ↔ obstacleCell x y) ∧
      (n.mIsObstacle = true → n.mAdjacentNeighbors = []) ∧
      (n.mIsObstacle = false → ∀ j, j ∈ n.mAdjacentNeighbors ↔
        ∃ x' y', neighbourCell x y x' y' ∧ g.InBounds x' y' ∧ ¬ obstacleCell x' y' ∧
          j = g.flatIndex x' y') := by
  have hgb := ctor_eq_build hg
  subst hgb
  obtain ⟨a, b, rfl, rfl, ha, hb'⟩ := inBounds_nat hb
  change a < w at ha
  change b < h at hb'
  have hpow := cells_lt_pow hw hh
  have hfi : ∀ {a' b' : Nat}, a' < w → b' < h →
      (Grid.build w h).flatIndex (a' : Int) (b' : Int) = b' * w + a' := by
    intro a' b' h1 h2
    exact flatIndex_of_nat rfl (Nat.lt_trans (cell_lt h1 h2) hpow)
  obtain ⟨n, hn, hx, hy, hflag, hadj⟩ := build_cell (cell_lt ha hb')
  obtain ⟨hm, hd⟩ := cell_mod_div (b := b) ha
  rw [hm] at hx
  rw [hd] at hy
  refine ⟨n, ?_, hx, hy, ?_, ?_, ?_⟩
  · unfold Grid.GetNodeReference
    rw [hfi ha hb']
    exact nodeAt_ok_iff.mpr hn
  · rw [hflag]
    exact (obstacleCell_nat ha).symm
  · intro hob
    apply List.eq_nil_iff_forall_not_mem.mpr
    intro j hj
    have := ((hadj j).mp hj).2.1
    rw [hob] at this
    cases this
  · intro hfree j
    rw [hadj j, step_linkCell ha hb']
    constructor
    · rintro ⟨hstep, _, hnj⟩
      rcases hstep with ⟨h1, rfl⟩ | ⟨h1, rfl⟩ | ⟨h1, rfl⟩ | ⟨h1, rfl⟩
      · have ha' : a - 1 < w := by omega
        refine ⟨((a - 1 : Nat) : Int), (b : Int), Or.inl ⟨by omega, rfl⟩,
          build_inBounds.mpr (by omega), ?_, (hfi ha' hb').symm⟩
        rw [obstacleCell_nat ha']
        exact hnj
      · have ha' : a + 1 < w := by omega
        refine ⟨((a + 1 : Nat) : Int), (b : Int), Or.inr (Or.inl ⟨by omega, rfl⟩),
          build_inBounds.mpr (by omega), ?_, (hfi ha' hb').symm⟩
        rw [obstacleCell_nat ha']
        exact hnj
      · have hb2 : b - 1 < h := by omega
        refine ⟨(a : Int), ((b - 1 : Nat) : Int), Or.inr (Or.inr (Or.inl ⟨rfl, by omega⟩)),
          build_inBounds.mpr (by omega), ?_, (hfi ha hb2).symm⟩
        rw [obstacleCell_nat ha]
        exact hnj
      · have hb2 : b + 1 < h := by omega
        refine ⟨(a : Int), ((b + 1 : Nat) : Int), Or.inr (Or.inr (Or.inr ⟨rfl, by omega⟩)),
          build_inBounds.mpr (by omega), ?_, (hfi ha hb2).symm⟩
        rw [obstacleCell_nat ha]
        exact hnj
    · rintro ⟨x', y', hnb, hin, hno, rfl⟩
      obtain ⟨a', b', rfl, rfl, ha', hb2⟩ := inBounds_nat hin
      change a' < w at ha'
      change b' < h at hb2
      rw [hfi ha' hb2]
      refine ⟨?_, hfree, ?_⟩
      · rcases hnb with ⟨h1, h2⟩ | ⟨h1, h2⟩ | ⟨h1, h2⟩ | ⟨h1, h2⟩
        · have e1 : a' = a - 1 := by omega
          have e2 : b' = b := by omega
          subst e1 e2
          exact Or.inl ⟨by omega, rfl⟩
        · have e1 : a' = a + 1 := by omega
          have e2 : b' = b := by omega
          subst e1 e2
          exact Or.inr (Or.inl ⟨by omega, rfl⟩)
        · have e1 : a' = a := by omega
          have e2 : b' = b - 1 := by omega
          subst e1 e2
          exact Or.inr (Or.inr (Or.inl ⟨by omega, rfl⟩))
        · have e1 : a' = a := by omega
          have e2 : b' = b + 1 := by omega
          subst e1 e2
          exact Or.inr (Or.inr (Or.inr ⟨by omega, rfl⟩))
      · rw [← obstacleCell_nat ha']
        exact hno

/-- Witness for C11: the cell `(3, 4)` of `Grid(6, 6)`, next to the obstacle
`(4, 4)`. -/
theorem C11_initial_topology_witness :
    6 < 2 ^ 31 ∧ Grid.ctor ((6 : Nat) : Int) ((6 : Nat) : Int) = .ok (Grid.build 6 6) ∧
      (Grid.build 6 6).InBounds 3 4 ∧ (Grid.build 6 6).adjAt 27 = some [21, 26, 33] ∧
      (Grid.build 6 6).markAt 28 = some (true, 1) ∧
      ∃ n, (Grid.build 6 6).GetNodeReference 3 4 = .ok n ∧ n.x = 3 ∧ n.y = 4 ∧
        (n.mIsObstacle = true ↔ obstacleCell 3 4) ∧
        (n.mIsObstacle = true → n.mAdjacentNeighbors = []) ∧
        (n.mIsObstacle = false → ∀ j, j ∈ n.mAdjacentNeighbors ↔
          ∃ x' y', neighbourCell 3 4 x' y' ∧ (Grid.build 6 6).InBounds x' y' ∧
            ¬ obstacleCell x' y' ∧ j = (Grid.build 6 6).flatIndex x' y') :=
  ⟨by decide, ctor_natCast 6 6 (by decide) (by decide), by decide, by decide!, by decide!,
    C11_initial_topology 6 6 (by decide) (by decide) (Grid.build 6 6) (ctor_natCast 6 6 (by decide) (by decide)) 3 4
      (by decide)⟩

/-! ### Every point of a run -/

section Run

variable {w h : Nat} {nodes0 : List Node} {start e : Nat} {goal : Node} {init : Search}

theorem visits_inv (hinit : SearchInv w h nodes0 start e goal noTodo init) :
    ∀ (ph : Option (Nat × List Nat)) (st : Search), Visits goal init ph st →
      PhaseInv w h nodes0 start e goal ph st := by
  intro ph st hv
  induction hv with
  | start => exact hinit
  | @pop st curr q c _ hne htop hpop hc hneq ih =>
    have inv : SearchInv w h nodes0 start e goal noTodo st := ih
    obtain ⟨curr', q', c', htop', hpop', hcn', _, hgoal, _, hcl, hstart, hinv⟩ := inv.pop_ok hne
    rw [htop] at htop'
    cases htop'
    rw [hpop] at hpop'
    cases hpop'
    rw [nodeAt_ok_iff] at hc
    rw [hc] at hcn'
    cases hcn'
    have hce : curr ≠ e := by
      intro hc'
      rw [hgoal.mpr hc'] at hneq
      cases hneq
    exact ⟨hinv hce, by rw [hcl]; exact List.mem_cons_self _ _, hstart,
      fun a ha => inv.adj_of_mem hc ha⟩
  | @relax st st1 curr a rest _ h1 ih =>
    obtain ⟨inv, hc, hs, hadj⟩ := ih
    obtain ⟨st1', h1', inv1, hcl1⟩ := inv.relax_ok hc hs (hadj a (List.mem_cons_self _ _))
    rw [h1] at h1'
    cases h1'
    exact ⟨inv1, hcl1 ▸ hc, hcl1 ▸ hs, fun b hb => hadj b (List.mem_cons_of_mem _ hb)⟩
  | @next st curr _ ih =>
    obtain ⟨inv, _, _, _⟩ := ih
    show SearchInv w h nodes0 start e goal noTodo st
    refine { inv with closed_adj := ?_ }
    intro u hu v huv
    rcases inv.closed_adj u hu v huv with ⟨_, h2⟩ | h2
    · cases h2
    · exact Or.inr h2

theorem visits_relaxAll {curr : Nat} :
    ∀ (l : List Nat) (st st2 : Search), Visits goal init (some (curr, l)) st →
      relaxAll goal curr l st = .ok st2 → Visits goal init (some (curr, [])) st2 := by
  intro l
  induction l with
  | nil =>
    intro st st2 hv h2
    simp only [relaxAll, Except.ok.injEq] at h2
    subst h2
    exact hv
  | cons a rest ih =>
    intro st st2 hv h2
    obtain ⟨st1, h1, h3⟩ := relaxAll_cons h2
    exact ih st1 st2 (Visits.relax hv h1) h3

end Run

theorem popped_forget (st : Search) (q : PriorityQueue) (curr : Nat) (c : Node) :
    popped st.forget q curr c.forget = (popped st q curr c).forget := by
  simp only [popped, Search.forget, setAdd_map_forget]

theorem equal_forget (a b : Node) : a.forget.equal b.forget = a.equal b := rfl

/-- A run is a run of the search with flags and tags blanked. -/
theorem visits_forget {goal : Node} {init : Search} :
    ∀ (ph : Option (Nat × List Nat)) (st : Search), Visits goal init ph st →
      Visits goal.forget init.forget ph st.forget := by
  intro ph st hv
  induction hv with
  | start => exact Visits.start
  | @pop st curr q c _ hne htop hpop hc hneq ih =>
    have hc' : nodeAt st.forget.nodes curr = .ok c.forget := by
      show nodeAt (st.nodes.map Node.forget) curr = _
      rw [nodeAt_map_forget, hc]
      rfl
    have := Visits.pop ih hne htop hpop hc' (by rw [equal_forget]; exact hneq)
    rw [popped_forget] at this
    exact this
  | @relax st st1 curr a rest _ h1 ih =>
    refine Visits.relax ih ?_
    rw [relax_forget, h1]
    rfl
  | @next st curr _ ih => exact Visits.next ih

theorem keyOf_forget (nodes : List Node) (v : Nat) :
    keyOf (nodes.map Node.forget) v = keyOf nodes v := by
  unfold keyOf
  rw [List.getElem?_map]
  cases nodes[v]? <;> rfl

theorem initialSearch_forget (nodes : List Node) (start : Nat) (s en : Node) :
    (initialSearch nodes start s en).forget =
      initialSearch (nodes.map Node.forget) start s.forget en.forget := by
  simp only [Search.forget, initialSearch, List.map_set]
  rfl

theorem search_of_forget {g : Grid} {sx sy gx gy : Int} {st0 : Search}
    (h : g.forget.search sx sy gx gy = .ok st0) :
    ∃ st', g.search sx sy gx gy = .ok st' ∧ st'.forget = st0 := by
  rw [search_forget] at h
  cases hs : g.search sx sy gx gy with
  | error err => rw [hs] at h; cases h
  | ok st' =>
    rw [hs] at h
    exact ⟨st', rfl, by simpa [Except.map] using h⟩

/-- The loop ends from a point of the run. -/
theorem loop_visits {goal : Node} {init : Search} :
    ∀ (fuel : Nat) (st st' : Search), Visits goal init none st →
      searchLoop goal fuel st = .ok st' →
      ∃ last, Visits goal init none last ∧ Ends goal last st' := by
  intro fuel
  induction fuel with
  | zero =>
    intro st st' hv h
    obtain ⟨he, rfl⟩ := searchLoop_zero h
    exact ⟨st', hv, Or.inl ⟨he, rfl⟩⟩
  | succ fuel ih =>
    intro st st' hv h
    rcases searchLoop_succ h with ⟨he, rfl⟩ | ⟨hne, curr, q, c, htop, hpop, hc, hcase⟩
    · exact ⟨st', hv, Or.inl ⟨he, rfl⟩⟩
    · rcases hcase with ⟨hg, rfl⟩ | ⟨hg, st2, h2, h3⟩
      · exact ⟨st, hv, Or.inr ⟨hne, curr, q, c, htop, hpop, hc, hg, rfl⟩⟩
      · have hv1 := Visits.pop hv hne htop hpop (nodeAt_ok_iff.mpr hc) hg
        exact ih st2 st' (Visits.next (visits_relaxAll _ _ _ hv1 h2)) h3

section RunFacts

variable {w h : Nat} {nodes0 : List Node} {start e : Nat} {goal : Node} {init : Search}

theorem PhaseInv.searchInv {ph : Option (Nat × List Nat)} {st : Search}
    (p : PhaseInv w h nodes0 start e goal ph st) :
    ∃ todo, SearchInv w h nodes0 start e goal todo st := by
  cases ph with
  | none => exact ⟨_, p⟩
  | some cl =>
    obtain ⟨curr, l⟩ := cl
    exact ⟨_, p.1⟩

/-- A cell enters `openSet` once. -/
theorem visits_nodup (hinit : SearchInv w h nodes0 start e goal noTodo init)
    (h0 : init.openSet.Nodup) :
    ∀ (ph : Option (Nat × List Nat)) (st : Search), Visits goal init ph st →
      st.openSet.Nodup := by
  intro ph st hv
  induction hv with
  | start => exact h0
  | pop _ _ _ _ _ _ ih => exact ih
  | @relax st st1 curr a rest hv h1 ih =>
    obtain ⟨inv, _, _, _⟩ := visits_inv hinit _ _ hv
    obtain ⟨nb, c, hnb, _, hcase⟩ := relax_cases h1
    rcases hcase with ⟨rfl, _⟩ | ⟨_, _, _, _, hq⟩
    · exact ih
    · rcases hq with ⟨hf, hopen, _⟩ | ⟨_, hopen, _⟩
      · rw [hopen]
        unfold setAdd
        rw [hf]
        simp only [Bool.false_eq_true, if_false]
        refine List.nodup_cons.mpr ⟨?_, ih⟩
        intro hmem
        have := (inv.setFind_iff inv.open_lt hnb).mpr hmem
        rw [hf] at this
        cases this
      · rw [hopen]
        exact ih
  | next _ ih => exact ih

/-- The queue at a point of the run, and the use the next step makes of it. -/
theorem visits_queue (hinit : SearchInv w h nodes0 start e goal noTodo init)
    (ph : Option (Nat × List Nat)) (st : Search) (hv : Visits goal init ph st) :
    (st.openList.map.map (fun x => x.node)).Nodup ∧
      (∀ x ∈ st.openList.map, x.key = keyOf st.nodes x.node) ∧
      (∀ v, st.openList.hasEntry v ↔ (v ∈ st.openSet ∧ v ∉ st.closedList)) ∧
      (ph = none → st.openList.empty = false →
        ∃ curr q, st.openList.top = .ok curr ∧ st.openList.pop = .ok q) ∧
      (∀ curr a rest, ph = some (curr, a :: rest) →
        ∃ st1 nb, relax goal curr st a = .ok st1 ∧ st.nodes[a]? = some nb ∧
          (setFind st.nodes st.openSet nb = true ↔ a ∈ st.openSet) ∧
          (setFind st.nodes st.closedList nb = true ↔ a ∈ st.closedList)) := by
  have p := visits_inv hinit ph st hv
  obtain ⟨todo, inv⟩ := p.searchInv
  refine ⟨inv.queue.nodes_nodup, fun x hx => (inv.queue.entry x hx).2.1,
    fun v => (inv.queue.live_iff v).symm, ?_, ?_⟩
  · intro _ hne
    obtain ⟨curr, q, h1, h2, _⟩ := inv.queue.pop hne
    exact ⟨curr, q, h1, h2⟩
  · intro curr a rest hph
    subst hph
    obtain ⟨inv', hc, hs, hadj⟩ := p
    have hadj' := hadj a (List.mem_cons_self _ _)
    obtain ⟨st1, h1, _, _⟩ := inv'.relax_ok hc hs hadj'
    obtain ⟨nb, hnb⟩ := inv'.get (inv'.geo.adj_step curr a hadj').1
    exact ⟨st1, nb, h1, hnb, inv'.setFind_iff inv'.open_lt hnb,
      inv'.setFind_iff inv'.closed_lt hnb⟩

/-- The state the loop ends in. -/
theorem ends_facts {last st' : Search} (inv : SearchInv w h nodes0 start e goal noTodo last)
    (hnd : last.openSet.Nodup) (hend : Ends goal last st') :
    st'.openSet.Nodup ∧ st'.closedList.Nodup ∧ (∀ v ∈ st'.closedList, v ∈ st'.openSet) ∧
      st'.closedList.length ≤ w * h ∧ (st'.openList.empty = true ∨ e ∈ st'.closedList) := by
  rcases hend with ⟨hemp, rfl⟩ | ⟨hne, curr, q, c, htop, hpop, hc, hg, rfl⟩
  · exact ⟨hnd, inv.closed_nodup, inv.closed_sub, inv.closed_length_le, Or.inl hemp⟩
  · obtain ⟨curr', q', c', htop', hpop', hcn', hlive, hgoal, _, hcl, _, _⟩ := inv.pop_ok hne
    rw [htop] at htop'
    cases htop'
    rw [hpop] at hpop'
    cases hpop'
    rw [hc] at hcn'
    cases hcn'
    have hce : curr = e := hgoal.mp hg
    have hnd2 : (curr :: last.closedList).Nodup :=
      List.nodup_cons.mpr ⟨hlive.2, inv.closed_nodup⟩
    refine ⟨hnd, ?_, ?_, ?_, Or.inr ?_⟩
    · rw [hcl]; exact hnd2
    · intro v hv
      rw [hcl] at hv
      rcases List.mem_cons.mp hv with rfl | hv
      · exact hlive.1
      · exact inv.closed_sub v hv
    · rw [hcl]
      have hsub : (curr :: last.closedList) ⊆ List.range (w * h) := by
        intro v hv
        rcases List.mem_cons.mp hv with rfl | hv
        · exact List.mem_range.mpr (inv.open_lt _ hlive.1)
        · exact List.mem_range.mpr (inv.closed_lt v hv)
      have := (List.subperm_of_subset hnd2 hsub).length_le
      simpa using this
    · rw [hcl, hce]
      exact List.mem_cons_self _ _

end RunFacts

/-! ### `RunAStar` on any reachable grid state -/

theorem ends_forget {goal : Node} {last st' : Search} (h : Ends goal last st') :
    Ends goal.forget last.forget st'.forget := by
  rcases h with ⟨hemp, rfl⟩ | ⟨hne, curr, q, c, htop, hpop, hc, hg, rfl⟩
  · exact Or.inl ⟨hemp, rfl⟩
  · refine Or.inr ⟨hne, curr, q, c.forget, htop, hpop, ?_, hg, (popped_forget _ _ _ _).symm⟩
    show (last.nodes.map Node.forget)[curr]? = _
    rw [List.getElem?_map, hc]
    rfl

/-- `RunAStar` on a grid state reached by whatever operations: the loop is
entered in a state whose blanked form satisfies the invariant, and it ends
within one iteration per cell. -/
theorem run_setup {w h : Nat} {g : Grid} (hr : Reach Op.any w h g) {sx sy gx gy : Int}
    (hs : g.InBounds sx sy) (hg : g.InBounds gx gy) :
    ∃ s en st', g.reIntializeNodes.mConnectivityMatrix[g.flatIndex sx sy]? = some s ∧
      g.reIntializeNodes.mConnectivityMatrix[g.flatIndex gx gy]? = some en ∧
      g.search sx sy gx gy = .ok st' ∧
      searchLoop en (w * h)
        (initialSearch g.reIntializeNodes.mConnectivityMatrix (g.flatIndex sx sy) s en) = .ok st' ∧
      SearchInv w h
        (g.forget.reIntializeNodes.mConnectivityMatrix.set (g.flatIndex sx sy)
          (startNode s.forget en.forget))
        (g.flatIndex sx sy) (g.flatIndex gx gy) en.forget noTodo
        (initialSearch g.reIntializeNodes.mConnectivityMatrix (g.flatIndex sx sy) s en).forget := by
  have inv0 := gridInv_forget_of_reach hr
  have hs0 : g.forget.flatIndex sx sy < g.forget.mConnectivityMatrix.length :=
    flatIndex_lt_of_inBounds inv0 hs
  have hg0 : g.forget.flatIndex gx gy < g.forget.mConnectivityMatrix.length :=
    flatIndex_lt_of_inBounds inv0 hg
  have hlen : g.mConnectivityMatrix.length = w * h := by
    have := inv0.len
    simpa only [Grid.forget, List.length_map] using this
  obtain ⟨s0, en0, hsn0, hen0, hloop⟩ := search_ok inv0 hs0 hg0
  obtain ⟨st0, _, hsearch0, _⟩ := hloop (fun _ => True)
    (fun _ _ _ _ _ _ _ _ _ _ _ _ => trivial) trivial
  obtain ⟨st', hsearch, _⟩ := search_of_forget hsearch0
  obtain ⟨start, end_, s, en, hp1, hp2, hsn, hen, hl⟩ := search_cases hsearch
  have e1 : start = g.flatIndex sx sy := by
    unfold Grid.GetNodePointer at hp1
    split at hp1
    · cases hp1; rfl
    · cases hp1
  have e2 : end_ = g.flatIndex gx gy := by
    unfold Grid.GetNodePointer at hp2
    split at hp2
    · cases hp2; rfl
    · cases hp2
  subst e1 e2
  have hfuel : (g.reIntializeNodes.mConnectivityMatrix.set (g.flatIndex sx sy)
      (startNode s en)).length = w * h := by
    rw [List.length_set]
    simp only [Grid.reIntializeNodes, List.length_map]
    exact hlen
  rw [hfuel] at hl
  refine ⟨s, en, st', hsn, hen, hsearch, hl, ?_⟩
  rw [initialSearch_forget, ← reIntializeNodes_forget]
  apply searchInv_init inv0
  · rw [reIntializeNodes_forget, List.getElem?_map, hsn]
    rfl
  · rw [reIntializeNodes_forget, List.getElem?_map, hen]
    rfl

/-- C19: in every grid state reached from `Grid(w, h)` and for every in-bounds
start and goal, `RunAStar` returns. Its loop ends within `w * h` iterations,
with the queue empty or with the goal popped; every cell is put into `openSet`
(and so pushed) at most once, and the popped cells, one per iteration, are
distinct cells of `openSet`, at most `w * h` of them. -/
theorem C19_search_terminates (w h : Nat) (g : Grid) (hr : Reach Op.any w h g)
    (startX startY goalX goalY : Int) (hs : g.InBounds startX startY)
    (hg : g.InBounds goalX goalY) :
    ∃ s en st' g', g.reIntializeNodes.mConnectivityMatrix[g.flatIndex startX startY]? = some s ∧
      g.reIntializeNodes.mConnectivityMatrix[g.flatIndex goalX goalY]? = some en ∧
      searchLoop en (w * h)
        (initialSearch g.reIntializeNodes.mConnectivityMatrix (g.flatIndex startX startY) s en)
          = .ok st' ∧
      g.search startX startY goalX goalY = .ok st' ∧
      g.RunAStar startX startY goalX goalY = .ok g' ∧
      st'.openSet.Nodup ∧ st'.closedList.Nodup ∧ (∀ v ∈ st'.closedList, v ∈ st'.openSet) ∧
      st'.closedList.length ≤ w * h ∧
      (st'.openList.empty = true ∨ g.flatIndex goalX goalY ∈ st'.closedList) := by
  obtain ⟨s, en, st', hsn, hen, hsearch, hl, hinit⟩ := run_setup hr hs hg
  obtain ⟨last, hvl, hend⟩ := loop_visits _ _ _ Visits.start hl
  have hvl0 := visits_forget _ _ hvl
  have inv : SearchInv w h _ _ _ en.forget noTodo last.forget := visits_inv hinit _ _ hvl0
  have hnd : last.forget.openSet.Nodup :=
    visits_nodup hinit (List.nodup_singleton _) _ _ hvl0
  obtain ⟨f1, f2, f3, f4, f5⟩ := ends_facts inv hnd (ends_forget hend)
  refine ⟨s, en, st', { g with mConnectivityMatrix := st'.nodes }, hsn, hen, hl, hsearch, ?_,
    f1, f2, f3, f4, f5⟩
  unfold Grid.RunAStar
  rw [hsearch]

/-- Witness for C19: start `(0,0)` and goal `(1,1)` on `Grid(2, 2)`. -/
theorem C19_search_terminates_witness :
    Reach Op.any 2 2 (Grid.build 2 2) ∧ (Grid.build 2 2).InBounds 0 0 ∧
      (Grid.build 2 2).InBounds 1 1 ∧
      ∃ s en st' g',
        (Grid.build 2 2).reIntializeNodes.mConnectivityMatrix[(Grid.build 2 2).flatIndex 0 0]?
          = some s ∧
        (Grid.build 2 2).reIntializeNodes.mConnectivityMatrix[(Grid.build 2 2).flatIndex 1 1]?
          = some en ∧
        searchLoop en (2 * 2)
          (initialSearch (Grid.build 2 2).reIntializeNodes.mConnectivityMatrix
            ((Grid.build 2 2).flatIndex 0 0) s en) = .ok st' ∧
        (Grid.build 2 2).search 0 0 1 1 = .ok st' ∧
        (Grid.build 2 2).RunAStar 0 0 1 1 = .ok g' ∧
        st'.openSet.Nodup ∧ st'.closedList.Nodup ∧ (∀ v ∈ st'.closedList, v ∈ st'.openSet) ∧
        st'.closedList.length ≤ 2 * 2 ∧
        (st'.openList.empty = true ∨ (Grid.build 2 2).flatIndex 1 1 ∈ st'.closedList) :=
  ⟨Reach.init (ctor_natCast 2 2 (by decide) (by decide)), by decide, by decide,
    C19_search_terminates 2 2 (Grid.build 2 2) (Reach.init (ctor_natCast 2 2 (by decide) (by decide))) 0 0 1 1
      (by decide) (by decide)⟩

/-- C20: in every grid state reached from `Grid(w, h)` and for every in-bounds
start and goal, `RunAStar` runs without a fault, through the points of the run
to the head of its last iteration, and at every point of the run: the queue
holds at most one entry per cell; every entry's key is the `globalScore` of
its cell; the cells with an entry are those in `openSet` and not in
`closedList`; at the head of the loop `top` and `pop` of a non-empty queue
succeed; and inside the `for` loop the body succeeds, `push` (taken when the
neighbour is not found in `openSet`) meets a cell without an entry, and
`decrease_key` (taken when the neighbour is found in `openSet` and not in
`closedList`) meets a cell with an entry. -/
theorem C20_queue_used_within_preconditions (w h : Nat) (g : Grid) (hr : Reach Op.any w h g)
    (startX startY goalX goalY : Int) (hs : g.InBounds startX startY)
    (hg : g.InBounds goalX goalY) :
    ∃ s en, g.reIntializeNodes.mConnectivityMatrix[g.flatIndex startX startY]? = some s ∧
      g.reIntializeNodes.mConnectivityMatrix[g.flatIndex goalX goalY]? = some en ∧
      (∃ st' last, g.search startX startY goalX goalY = .ok st' ∧
        Visits en
          (initialSearch g.reIntializeNodes.mConnectivityMatrix (g.flatIndex startX startY) s en)
          none last ∧ Ends en last st') ∧
      ∀ (ph : Option (Nat × List Nat)) (st : Search),
        Visits en
          (initialSearch g.reIntializeNodes.mConnectivityMatrix (g.flatIndex startX startY) s en)
          ph st →
        (st.openList.map.map (fun x => x.node)).Nodup ∧
        (∀ x ∈ st.openList.map, x.key = keyOf st.nodes x.node) ∧
        (∀ v, st.openList.hasEntry v ↔ (v ∈ st.openSet ∧ v ∉ st.closedList)) ∧
        (ph = none → st.openList.empty = false →
          ∃ curr q, st.openList.top = .ok curr ∧ st.openList.pop = .ok q) ∧
        (∀ curr a rest, ph = some (curr, a :: rest) →
          ∃ st1 nb, relax en curr st a = .ok st1 ∧ st.nodes[a]? = some nb ∧
            (setFind st.nodes st.openSet nb = false → ¬ st.openList.hasEntry a) ∧
            (setFind st.nodes st.closedList nb = false →
              setFind st.nodes st.openSet nb = true → st.openList.hasEntry a)) := by
  obtain ⟨s, en, st', hsn, hen, hsearch, hl, hinit⟩ := run_setup hr hs hg
  obtain ⟨last, hvl, hend⟩ := loop_visits _ _ _ Visits.start hl
  refine ⟨s, en, hsn, hen, ⟨st', last, hsearch, hvl, hend⟩, ?_⟩
  intro ph st hv
  obtain ⟨q1, q2, q3, q4, q5⟩ := visits_queue hinit ph st.forget (visits_forget _ _ hv)
  refine ⟨q1, ?_, q3, q4, ?_⟩
  · intro x hx
    rw [q2 x hx]
    exact keyOf_forget _ _
  · intro curr a rest hph
    obtain ⟨st1, nb0, h1, hnb0, hopen, hclosed⟩ := q5 curr a rest hph
    rw [relax_forget] at h1
    cases hrel : relax en curr st a with
    | error err => rw [hrel] at h1; cases h1
    | ok st1' =>
      have hnb0' : (st.nodes.map Node.forget)[a]? = some nb0 := hnb0
      rw [List.getElem?_map] at hnb0'
      cases hnb : st.nodes[a]? with
      | none => rw [hnb] at hnb0'; cases hnb0'
      | some nb =>
        rw [hnb] at hnb0'
        have hnbf : nb.forget = nb0 := Option.some.inj hnb0'
        subst hnbf
        have ho : setFind st.nodes st.openSet nb = true ↔ a ∈ st.openSet := by
          rw [← setFind_map_forget]
          exact hopen
        have hc : setFind st.nodes st.closedList nb = true ↔ a ∈ st.closedList := by
          rw [← setFind_map_forget]
          exact hclosed
        refine ⟨st1', nb, rfl, rfl, ?_, ?_⟩
        · intro hf hent
          have := ho.mpr ((q3 a).mp hent).1
          rw [hf] at this
          cases this
        · intro hf ht
          refine (q3 a).mpr ⟨ho.mp ht, ?_⟩
          intro hmem
          rw [hc.mpr hmem] at hf
          cases hf

/-- Witness for C20: start `(0,0)` and goal `(1,1)` on `Grid(2, 2)`. -/
theorem C20_queue_used_within_preconditions_witness :
    Reach Op.any 2 2 (Grid.build 2 2) ∧ (Grid.build 2 2).InBounds 0 0 ∧
      (Grid.build 2 2).InBounds 1 1 ∧
      ∃ s en,
        (Grid.build 2 2).reIntializeNodes.mConnectivityMatrix[(Grid.build 2 2).flatIndex 0 0]?
          = some s ∧
        (Grid.build 2 2).reIntializeNodes.mConnectivityMatrix[(Grid.build 2 2).flatIndex 1 1]?
          = some en ∧
        (∃ st' last, (Grid.build 2 2).search 0 0 1 1 = .ok st' ∧
          Visits en
            (initialSearch (Grid.build 2 2).reIntializeNodes.mConnectivityMatrix
              ((Grid.build 2 2).flatIndex 0 0) s en)
            none last ∧ Ends en last st') ∧
        ∀ (ph : Option (Nat × List Nat)) (st : Search),
          Visits en
            (initialSearch (Grid.build 2 2).reIntializeNodes.mConnectivityMatrix
              ((Grid.build 2 2).flatIndex 0 0) s en)
            ph st →
          (st.openList.map.map (fun x => x.node)).Nodup ∧
          (∀ x ∈ st.openList.map, x.key = keyOf st.nodes x.node) ∧
          (∀ v, st.openList.hasEntry v ↔ (v ∈ st.openSet ∧ v ∉ st.closedList)) ∧
          (ph = none → st.openList.empty = false →
            ∃ curr q, st.openList.top = .ok curr ∧ st.openList.pop = .ok q) ∧
          (∀ curr a rest, ph = some (curr, a :: rest) →
            ∃ st1 nb, relax en curr st a = .ok st1 ∧ st.nodes[a]? = some nb ∧
              (setFind st.nodes st.openSet nb = false → ¬ st.openList.hasEntry a) ∧
              (setFind st.nodes st.closedList nb = false →
                setFind st.nodes st.openSet nb = true → st.openList.hasEntry a)) :=
  ⟨Reach.init (ctor_natCast 2 2 (by decide) (by decide)), by decide, by decide,
    C20_queue_used_within_preconditions 2 2 (Grid.build 2 2) (Reach.init (ctor_natCast 2 2 (by decide) (by decide)))
      0 0 1 1 (by decide) (by decide)⟩

/-! ### Mouse positions beyond the grid -/

/-- `setObstacle` returns for every cell inside a grid of the built shape. -/
theorem setObstacleCell_inside {w h : Nat} {g : Grid} (inv : GridInv w h g) {x y : Int}
    (hlt : g.flatIndex x y < g.mConnectivityMatrix.length) :
    ∃ g', g.setObstacleCell x y = .ok g' ∧
      g'.markAt (g.flatIndex x y) = some (true, 1) := by
  have hn : g.mConnectivityMatrix[g.flatIndex x y]? = some (g.mConnectivityMatrix[g.flatIndex x y]) :=
    List.getElem?_eq_getElem hlt
  have hlt' : g.flatIndex x y < w * h := by rw [← inv.len]; exact hlt
  obtain ⟨g', hg'⟩ := setObstacleCell_isOk hn
    (fun hmem => step_ne hlt' (inv.adj_step _ _ ⟨_, hn, hmem⟩).2 rfl)
    (fun e he => by rw [inv.len]; exact (inv.adj_step _ _ ⟨_, hn, he⟩).1)
  refine ⟨g', hg', ?_⟩
  obtain ⟨o, ho, _, _, _, _, _, hget⟩ := setObstacleCell_ok hg'
  unfold Grid.markAt
  rw [hget, ho]
  simp [obstacleNode]

theorem setObstacle_outside {g : Grid} {mouseX mouseY : Int}
    (h : g.mConnectivityMatrix.length ≤ g.flatIndex (pixelToCell mouseX) (pixelToCell mouseY)) :
    g.setObstacle mouseX mouseY = .error .badAccess ∧
      g.SetGoal mouseX mouseY = .error .badAccess := by
  have hnot : ¬ g.flatIndex (pixelToCell mouseX) (pixelToCell mouseY) <
      g.mConnectivityMatrix.length := Nat.not_lt.mpr h
  constructor
  · simp [Grid.setObstacle, Grid.setObstacleCell, Grid.SetCell, hnot]
  · simp [Grid.SetGoal, Grid.GetCellValue, nodeAt, List.getElem?_eq_none_iff.mpr h]

/-- C4 (a defect of the code): `main` builds `Grid(36, 30)`, whose cells cover
576 by 480 pixels, in a window of 640 by 480 pixels, and passes every mouse
position to `setObstacle` and `SetGoal`. `DrawNeighbors` compares the cell of
the mouse position with the dimensions and does nothing outside the grid;
`setObstacle` and `SetGoal` index the vector unchecked. The mouse position
`(600, 470)` is the cell `(37, 29)`, outside the grid, with flat index `1081`
in a vector of `1080` cells: `setObstacle` and `SetGoal` access the vector out
of range. The mouse position `(600, 100)` is the cell `(37, 6)`, outside the
grid, and `setObstacle` turns the cell `(1, 7)`, which was not an obstacle,
into one. -/
theorem C4_click_beyond_grid :
    Grid.ctor 36 30 = .ok (Grid.build 36 30) ∧
      pixelToCell 600 = 37 ∧ pixelToCell 470 = 29 ∧ pixelToCell 100 = 6 ∧
      ¬ (Grid.build 36 30).InBounds 37 29 ∧ ¬ (Grid.build 36 30).InBounds 37 6 ∧
      (Grid.build 36 30).mConnectivityMatrix.length = 1080 ∧
      (Grid.build 36 30).flatIndex 37 29 = 1081 ∧
      (Grid.build 36 30).DrawNeighbors 600 470 = .ok [] ∧
      (Grid.build 36 30).setObstacle 600 470 = .error .badAccess ∧
      (Grid.build 36 30).SetGoal 600 470 = .error .badAccess ∧
      (Grid.build 36 30).DrawNeighbors 600 100 = .ok [] ∧
      (Grid.build 36 30).flatIndex 37 6 = 253 ∧ (Grid.build 36 30).flatIndex 1 7 = 253 ∧
      (∃ n, (Grid.build 36 30).mConnectivityMatrix[253]? = some n ∧ n.x = 1 ∧ n.y = 7 ∧
        n.mIsObstacle = false) ∧
      ∃ g', (Grid.build 36 30).setObstacle 600 100 = .ok g' ∧ g'.markAt 253 = some (true, 1) := by
  have inv := gridInv_build 36 30
  have hlen : (Grid.build 36 30).mConnectivityMatrix.length = 1080 := inv.len
  have h1 : (Grid.build 36 30).flatIndex 37 29 = 1081 := by decide
  have h2 : (Grid.build 36 30).flatIndex 37 6 = 253 := by decide
  have h3 : (Grid.build 36 30).flatIndex 1 7 = 253 := by decide
  have hp1 : pixelToCell 600 = 37 := by decide
  have hp2 : pixelToCell 470 = 29 := by decide
  have hp3 : pixelToCell 100 = 6 := by decide
  have hout : (Grid.build 36 30).mConnectivityMatrix.length ≤
      (Grid.build 36 30).flatIndex (pixelToCell 600) (pixelToCell 470) := by
    rw [hp1, hp2, h1, hlen]
    decide
  obtain ⟨o1, o2⟩ := setObstacle_outside hout
  refine ⟨ctor_natCast 36 30 (by decide) (by decide), hp1, hp2, hp3, by decide, by decide, hlen,
    h1, by decide, o1, o2, by decide, h2, h3, ?_, ?_⟩
  · obtain ⟨n, hn, hx, hy, hflag, _⟩ := build_cell (w := 36) (h := 30) (i := 253) (by decide)
    refine ⟨n, hn, hx, hy, ?_⟩
    cases hob : n.mIsObstacle with
    | false => rfl
    | true =>
      have := hflag.mp hob
      exact absurd this (by decide)
  · have hlt : (Grid.build 36 30).flatIndex 1 7 < (Grid.build 36 30).mConnectivityMatrix.length := by
      rw [h3, hlen]
      decide
    obtain ⟨g', hg', hm⟩ := setObstacleCell_inside inv hlt
    refine ⟨g', ?_, by rw [h3] at hm; exact hm⟩
    unfold Grid.setObstacle
    rw [hp1, hp3, setObstacleCell_congr (Grid.build 36 30) (h2.trans h3.symm)]
    exact hg'
